import Mathlib

set_option maxHeartbeats 1600000
set_option synthInstance.maxSize 4096
set_option maxRecDepth 4096

/-!
Verification development for the DigitalCart storage layer and coupon
validation logic.  The definitions below are shallow embeddings of
`src/server/routes.ts` (coupon validation) and
`src/server/firebase-storage.ts` (the document backend `FirebaseStorage`,
the relational backend `DatabaseStorage`, and the `IStorage` contract).
-/

namespace DigitalCart

/-!
Coupon validation, `src/server/routes.ts` lines 234-261
(`POST /api/coupons/validate`).

A `Coupon` row (see the `coupons` table in the shared schema) has
`isActive : boolean | null`, `usageLimit : integer | null`,
`usedCount : integer | null` and `expiresAt : timestamp | null`; timestamps
are modelled as integer instants.  The route reads the coupon returned by
`storage.getCouponByCode(code, userId)` and tests the rules with JavaScript
truthiness, which the helpers below reproduce.
-/

structure CouponRec where
  id : String
  userId : String
  code : String
  isActive : Option Bool
  usageLimit : Option Int
  usedCount : Option Int
  expiresAt : Option Int
deriving Repr, DecidableEq

/-- JavaScript truthiness of a nullable boolean field (`null` is falsy). -/
def truthyOB : Option Bool → Bool
  | none => false
  | some b => b

/-- JavaScript truthiness of a nullable integer field (`null` and `0` are falsy). -/
def truthyOI : Option Int → Bool
  | none => false
  | some n => n != 0

/-- Lookup of a coupon by code and owner: first match, mirroring
`getCouponByCode` (a `where code == ∧ userId ==` query limited to one result). -/
def getCouponByCodeL (cs : List CouponRec) (code userId : String) : Option CouponRec :=
  (cs.filter (fun c => c.code == code && c.userId == userId)).head?

inductive ValidateResult where
  | notFound
  | inactive
  | limitReached
  | expired
  | valid (c : CouponRec)
deriving Repr, DecidableEq

/-- The validation cascade of `POST /api/coupons/validate`
(`src/server/routes.ts` lines 238-256), written exactly in the source's
order and with the source's truthiness guards:

* `if (!coupon)` → not found;
* `if (!coupon.isActive)` → inactive;
* `if (coupon.usageLimit && coupon.usedCount && coupon.usedCount >= coupon.usageLimit)` → limit reached;
* `if (coupon.expiresAt && new Date(coupon.expiresAt) < new Date())` → expired;
* otherwise the coupon is returned. -/
def validateFound (c : CouponRec) (now : Int) : ValidateResult :=
  if !truthyOB c.isActive then .inactive
  else if truthyOI c.usageLimit && truthyOI c.usedCount
      && decide (c.usageLimit.getD 0 ≤ c.usedCount.getD 0) then .limitReached
  else if c.expiresAt.isSome && decide (c.expiresAt.getD 0 < now) then .expired
  else .valid c

def validateCoupon (cs : List CouponRec) (code userId : String) (now : Int) : ValidateResult :=
  match getCouponByCodeL cs code userId with
  | none => .notFound
  | some c => validateFound c now

/-- An active coupon with `usageLimit = 0` (a set value) and `usedCount = 1`. -/
def c1cex : CouponRec :=
  { id := "c-1", userId := "u-1", code := "SAVE", isActive := some true,
    usageLimit := some 0, usedCount := some 1, expiresAt := none }

/-- C1 counterexample: the claim says validation fails with "limit reached"
whenever `usageLimit` is set and `usedCount >= usageLimit`.  For the coupon
`c1cex` (active, `usageLimit = 0`, `usedCount = 1`, no expiry) that condition
holds, yet the code succeeds and returns the coupon, because the source
guards the check with the truthiness of `usageLimit` and `0` is falsy. -/
theorem C1_counterexample :
    (c1cex.usageLimit.isSome = true
      ∧ c1cex.usageLimit.getD 0 ≤ c1cex.usedCount.getD 0
      ∧ truthyOB c1cex.isActive = true
      ∧ getCouponByCodeL [c1cex] "SAVE" "u-1" = some c1cex)
    ∧ validateCoupon [c1cex] "SAVE" "u-1" 0 = .valid c1cex := by
  decide

theorem validateFound_spec (c : CouponRec) (now : Int) :
    (validateFound c now ≠ .notFound)
    ∧ (validateFound c now = .inactive ↔ truthyOB c.isActive = false)
    ∧ (validateFound c now = .limitReached ↔
        (truthyOB c.isActive = true ∧ truthyOI c.usageLimit = true
          ∧ truthyOI c.usedCount = true ∧ c.usageLimit.getD 0 ≤ c.usedCount.getD 0))
    ∧ (validateFound c now = .expired ↔
        (truthyOB c.isActive = true
          ∧ ¬(truthyOI c.usageLimit = true ∧ truthyOI c.usedCount = true
                ∧ c.usageLimit.getD 0 ≤ c.usedCount.getD 0)
          ∧ c.expiresAt.isSome = true ∧ c.expiresAt.getD 0 < now))
    ∧ (validateFound c now = .valid c ↔
        (truthyOB c.isActive = true
          ∧ ¬(truthyOI c.usageLimit = true ∧ truthyOI c.usedCount = true
                ∧ c.usageLimit.getD 0 ≤ c.usedCount.getD 0)
          ∧ ¬(c.expiresAt.isSome = true ∧ c.expiresAt.getD 0 < now))) := by
  have hlim : (truthyOI c.usageLimit && truthyOI c.usedCount
      && decide (c.usageLimit.getD 0 ≤ c.usedCount.getD 0)) = true
      ↔ (truthyOI c.usageLimit = true ∧ truthyOI c.usedCount = true
          ∧ c.usageLimit.getD 0 ≤ c.usedCount.getD 0) := by
    simp [and_assoc]
  have hexp : (c.expiresAt.isSome && decide (c.expiresAt.getD 0 < now)) = true
      ↔ (c.expiresAt.isSome = true ∧ c.expiresAt.getD 0 < now) := by
    simp
  unfold validateFound
  split_ifs with h1 h2 h3
  · simp only [Bool.not_eq_eq_eq_not, Bool.not_true] at h1
    simp [h1]
  · simp only [Bool.not_eq_true', Bool.not_eq_false] at h1
    obtain ⟨ha, hb, hc'⟩ := hlim.mp h2
    simp [h1, ha, hb, hc']
  · simp only [Bool.not_eq_true', Bool.not_eq_false] at h1
    rw [hlim] at h2
    obtain ⟨ha, hb⟩ := hexp.mp h3
    simp [h1, h2, ha, hb]
  · simp only [Bool.not_eq_true', Bool.not_eq_false] at h1
    rw [hlim] at h2
    rw [hexp] at h3
    simp [h1, h2, h3]

/-- Full characterization of the validation cascade, shared by the
coupon-validation theorems below. -/
theorem validateCoupon_spec (cs : List CouponRec) (code uid : String) (now : Int) :
    (validateCoupon cs code uid now = .notFound ↔ getCouponByCodeL cs code uid = none)
    ∧ (∀ c, getCouponByCodeL cs code uid = some c →
        ((validateCoupon cs code uid now = .inactive ↔ truthyOB c.isActive = false)
        ∧ (validateCoupon cs code uid now = .limitReached ↔
            (truthyOB c.isActive = true ∧ truthyOI c.usageLimit = true
              ∧ truthyOI c.usedCount = true ∧ c.usageLimit.getD 0 ≤ c.usedCount.getD 0))
        ∧ (validateCoupon cs code uid now = .expired ↔
            (truthyOB c.isActive = true
              ∧ ¬(truthyOI c.usageLimit = true ∧ truthyOI c.usedCount = true
                    ∧ c.usageLimit.getD 0 ≤ c.usedCount.getD 0)
              ∧ c.expiresAt.isSome = true ∧ c.expiresAt.getD 0 < now))
        ∧ (validateCoupon cs code uid now = .valid c ↔
            (truthyOB c.isActive = true
              ∧ ¬(truthyOI c.usageLimit = true ∧ truthyOI c.usedCount = true
                    ∧ c.usageLimit.getD 0 ≤ c.usedCount.getD 0)
              ∧ ¬(c.expiresAt.isSome = true ∧ c.expiresAt.getD 0 < now)))
        ∧ ((truthyOB c.isActive = false ∧ c.expiresAt.isSome = true
              ∧ c.expiresAt.getD 0 < now) →
            validateCoupon cs code uid now = .inactive))) := by
  constructor
  · unfold validateCoupon
    cases h : getCouponByCodeL cs code uid with
    | none => simp
    | some c0 => simp [(validateFound_spec c0 now).1]
  · intro c hc
    have hv : validateCoupon cs code uid now = validateFound c now := by
      unfold validateCoupon
      rw [hc]
    rw [hv]
    have hs := validateFound_spec c now
    refine ⟨hs.2.1, hs.2.2.1, hs.2.2.2.1, hs.2.2.2.2, ?_⟩
    intro hcon
    exact hs.2.1.mpr hcon.1

/-- C1 (amended): coupon validation evaluates its rules in exactly the order
not-found → inactive → limit → expired and fails with the first violated
rule, where the limit rule fires only when `usageLimit` is set and non-zero,
`usedCount` is set and non-zero, and `usedCount >= usageLimit` (the source
guards the comparison with the truthiness of both fields).  In particular a
coupon that is both inactive and expired fails with "inactive". -/
theorem C1_validation_order (cs : List CouponRec) (code uid : String) (now : Int) :
    (validateCoupon cs code uid now = .notFound ↔ getCouponByCodeL cs code uid = none)
    ∧ (∀ c, getCouponByCodeL cs code uid = some c →
        ((validateCoupon cs code uid now = .inactive ↔ truthyOB c.isActive = false)
        ∧ (validateCoupon cs code uid now = .limitReached ↔
            (truthyOB c.isActive = true ∧ truthyOI c.usageLimit = true
              ∧ truthyOI c.usedCount = true ∧ c.usageLimit.getD 0 ≤ c.usedCount.getD 0))
        ∧ (validateCoupon cs code uid now = .expired ↔
            (truthyOB c.isActive = true
              ∧ ¬(truthyOI c.usageLimit = true ∧ truthyOI c.usedCount = true
                    ∧ c.usageLimit.getD 0 ≤ c.usedCount.getD 0)
              ∧ c.expiresAt.isSome = true ∧ c.expiresAt.getD 0 < now))
        ∧ (validateCoupon cs code uid now = .valid c ↔
            (truthyOB c.isActive = true
              ∧ ¬(truthyOI c.usageLimit = true ∧ truthyOI c.usedCount = true
                    ∧ c.usageLimit.getD 0 ≤ c.usedCount.getD 0)
              ∧ ¬(c.expiresAt.isSome = true ∧ c.expiresAt.getD 0 < now)))
        ∧ ((truthyOB c.isActive = false ∧ c.expiresAt.isSome = true
              ∧ c.expiresAt.getD 0 < now) →
            validateCoupon cs code uid now = .inactive))) :=
  validateCoupon_spec cs code uid now

/-- An inactive coupon that is also expired. -/
def c1wit : CouponRec :=
  { id := "c-2", userId := "u-2", code := "OLD", isActive := some false,
    usageLimit := none, usedCount := some 0, expiresAt := some (-5) }

/-- Witness for `C1_validation_order`: an inactive and expired coupon fails
with "inactive". -/
theorem C1_validation_order_witness :
    validateCoupon [c1wit] "OLD" "u-2" 0 = .inactive :=
  ((C1_validation_order [c1wit] "OLD" "u-2" 0).2 c1wit (by decide)).2.2.2.2
    (by decide)

/-- C9: the usage-limit rule is guarded by the truthiness of both fields; a
coupon with `usageLimit = 0`, or with `usedCount` equal to `0` or null, can
never fail with "limit reached". -/
theorem C9_limit_guard (cs : List CouponRec) (code uid : String) (now : Int)
    (c : CouponRec) (h : getCouponByCodeL cs code uid = some c) :
    (validateCoupon cs code uid now = .limitReached →
      truthyOI c.usageLimit = true ∧ truthyOI c.usedCount = true)
    ∧ (c.usageLimit = some 0 → validateCoupon cs code uid now ≠ .limitReached)
    ∧ (c.usedCount = some 0 ∨ c.usedCount = none →
        validateCoupon cs code uid now ≠ .limitReached) := by
  have hch := (validateCoupon_spec cs code uid now).2 c h
  have hiff := hch.2.1
  refine ⟨?_, ?_, ?_⟩
  · intro hres
    exact ⟨(hiff.mp hres).2.1, (hiff.mp hres).2.2.1⟩
  · intro h0 hres
    have := (hiff.mp hres).2.1
    rw [h0] at this
    simp [truthyOI] at this
  · intro h0 hres
    have := (hiff.mp hres).2.2.1
    rcases h0 with h0 | h0 <;> rw [h0] at this <;> simp [truthyOI] at this

/-- Witness for `C9_limit_guard`: a coupon with `usageLimit = 0` and a large
`usedCount` validates successfully rather than failing with "limit reached". -/
theorem C9_limit_guard_witness :
    validateCoupon [c1cex] "SAVE" "u-1" 0 ≠ .limitReached :=
  (C9_limit_guard [c1cex] "SAVE" "u-1" 0 c1cex (by decide)).2.1 (by decide)

/-!
Document/value model for the storage layer.

Field values carried by rows and documents.  JSON payload columns
(`blocks`, `customStyles`, `cartData`, `userData`, `customData`) are opaque
to both backends (they are stored and returned unchanged), so they are
modelled as uninterpreted `json` blobs.  `date` is a JavaScript `Date`
instant; `ts` is the document store's native timestamp type, which the
store client produces when a `Date` is written (spec §4.3: the document
backend "translat[es] store-specific timestamp types").  `undef` is
JavaScript `undefined`; `null` is JSON null.
-/

inductive Value where
  | str (s : String)
  | num (n : Int)
  | bool (b : Bool)
  | null
  | undef
  | date (t : Int)
  | ts (t : Int)
  | json (j : String)
deriving Repr, DecidableEq

/-- A JavaScript object / table row: fields in insertion order. -/
abbrev Doc := List (String × Value)

/-- First binding of a key (JavaScript objects have unique keys; our
documents are built by `dSet`, which keeps keys unique). -/
def dGet (d : Doc) (k : String) : Option Value :=
  match d with
  | [] => none
  | (k', v) :: rest => if k' = k then some v else dGet rest k

/-- Object-literal field update: replace in place, or append a new key
(matching JavaScript `{ ...d, k: v }` field ordering). -/
def dSet (d : Doc) (k : String) (v : Value) : Doc :=
  match d with
  | [] => [(k, v)]
  | (k', v') :: rest => if k' = k then (k', v) :: rest else (k', v') :: dSet rest k v

/-- Spread-merge `{ ...d, ...kvs }`. -/
def dSetMany (d : Doc) (kvs : Doc) : Doc :=
  kvs.foldl (fun acc kv => dSet acc kv.1 kv.2) d

/-- Reading a string field for a follow-up point lookup
(e.g. `page.productId`). -/
def asStr (v : Option Value) : String :=
  match v with
  | some (.str s) => s
  | _ => ""

/-- Nullish coalescing `x ?? v` (fires on `null` and `undefined`). -/
def nullish (x : Option Value) (v : Value) : Value :=
  match x with
  | none => v
  | some .null => v
  | some .undef => v
  | some w => w

/-- Stand-in for JavaScript `new Date(string)` parsing.  The typed storage
contract only ever stores `Date` (or null) in timestamp fields, so the
string branch of `toDate` is unreachable for contract-conforming data; the
concrete value returned here is irrelevant to every theorem below. -/
def jsParseDate (_s : String) : Int := 0

/-- `toDate` (src/server/firebase-storage.ts lines 30-36): `null` for falsy
input, a `Date` unchanged, `new Date(string)` for strings, `.toDate()` for
store timestamps, `null` otherwise.  (On a non-zero number or `true` the
JavaScript `'toDate' in x` test would throw; those inputs cannot occur for
stored timestamp fields, and are mapped to `null` here.) -/
def toDate (x : Option Value) : Value :=
  match x with
  | none => .null
  | some .null => .null
  | some .undef => .null
  | some (.bool _) => .null
  | some (.num _) => .null
  | some (.json _) => .null
  | some (.date t) => .date t
  | some (.ts t) => .date t
  | some (.str s) => if s = "" then .null else .date (jsParseDate s)

/-- `serializeForFirestore` (src/server/firebase-storage.ts lines 38-52):
drops `undefined`-valued fields and returns everything else unchanged
(dates pass through; JSON payloads are opaque blobs here, so the recursive
object/array walk of the source is the identity on them). -/
def serializeForFirestore (d : Doc) : Doc :=
  d.filter (fun kv => decide (kv.2 ≠ Value.undef))

/-- The store client's write-side timestamp translation (spec §4.3): a
`Date` written to the document store is stored as the store's native
timestamp type. -/
def storeTimestamps (d : Doc) : Doc :=
  d.map (fun kv => (kv.1, match kv.2 with | .date t => Value.ts t | v => v))

/-!  Collections and store state (shared by both backends). -/

structure Coll where
  present : Bool
  entries : List (String × Doc)
deriving Repr, DecidableEq

inductive CollName where
  | users | products | checkoutPages | coupons | customers | orders
  | orderItems | emailTemplates | pixelEvents | abandonedCarts
deriving Repr, DecidableEq

structure Store where
  users : Coll
  products : Coll
  checkoutPages : Coll
  coupons : Coll
  customers : Coll
  orders : Coll
  orderItems : Coll
  emailTemplates : Coll
  pixelEvents : Coll
  abandonedCarts : Coll
deriving Repr, DecidableEq

def Store.coll (s : Store) : CollName → Coll
  | .users => s.users
  | .products => s.products
  | .checkoutPages => s.checkoutPages
  | .coupons => s.coupons
  | .customers => s.customers
  | .orders => s.orders
  | .orderItems => s.orderItems
  | .emailTemplates => s.emailTemplates
  | .pixelEvents => s.pixelEvents
  | .abandonedCarts => s.abandonedCarts

def Store.setColl (s : Store) (c : CollName) (k : Coll) : Store :=
  match c with
  | .users => { s with users := k }
  | .products => { s with products := k }
  | .checkoutPages => { s with checkoutPages := k }
  | .coupons => { s with coupons := k }
  | .customers => { s with customers := k }
  | .orders => { s with orders := k }
  | .orderItems => { s with orderItems := k }
  | .emailTemplates => { s with emailTemplates := k }
  | .pixelEvents => { s with pixelEvents := k }
  | .abandonedCarts => { s with abandonedCarts := k }

/-- Backend state: the store, the id source (both backends draw ids from
the same deterministic supply, so "modulo store-internal ids" comparisons
become literal comparisons), and the current wall-clock instant. -/
structure St where
  store : Store
  nextId : Nat
  now : Int
deriving Repr, DecidableEq

def genId (n : Nat) : String := "id-" ++ toString n

def emptyColl : Coll := { present := true, entries := [] }

def absentColl : Coll := { present := false, entries := [] }

/-- A provisioned store: every backing collection/table exists and is empty. -/
def emptySt : St :=
  { store :=
      { users := emptyColl, products := emptyColl, checkoutPages := emptyColl,
        coupons := emptyColl, customers := emptyColl, orders := emptyColl,
        orderItems := emptyColl, emailTemplates := emptyColl,
        pixelEvents := emptyColl, abandonedCarts := emptyColl },
    nextId := 0, now := 0 }

/-- A fresh document store: no backing collection has been created yet. -/
def freshSt : St :=
  { store :=
      { users := absentColl, products := absentColl, checkoutPages := absentColl,
        coupons := absentColl, customers := absentColl, orders := absentColl,
        orderItems := absentColl, emailTemplates := absentColl,
        pixelEvents := absentColl, abandonedCarts := absentColl },
    nextId := 0, now := 0 }

def entriesFind (es : List (String × Doc)) (i : String) : Option Doc :=
  match es with
  | [] => none
  | (i', d) :: rest => if i' = i then some d else entriesFind rest i

def entriesSet (es : List (String × Doc)) (i : String) (d : Doc) : List (String × Doc) :=
  match es with
  | [] => [(i, d)]
  | (i', d') :: rest => if i' = i then (i', d) :: rest else (i', d') :: entriesSet rest i d

/-- Writing a document creates the backing collection if needed. -/
def stWrite (s : St) (c : CollName) (i : String) (d : Doc) : St :=
  let k := Store.coll s.store c
  { s with store := Store.setColl s.store c { present := true, entries := entriesSet k.entries i d } }

def stRemove (s : St) (c : CollName) (i : String) : St :=
  let k := Store.coll s.store c
  { s with store := Store.setColl s.store c { k with entries := k.entries.filter (fun e => decide (e.1 ≠ i)) } }

/-!  Document-backend primitives (`FirebaseStorage`). -/

/-- Reading from a collection that has not been created yet surfaces the
store's "not found" infrastructure error, gRPC code 5 (spec §4.3: the store
may surface a not-found code for an unprovisioned collection; the store
client itself is not part of the repository, so this behaviour is modelled
from the spec). -/
def fbRead (s : St) (c : CollName) : Except Nat (List (String × Doc)) :=
  if (Store.coll s.store c).present then .ok (Store.coll s.store c).entries else .error 5

/-- The `catch (error) { if (error.code === 5) return dflt; throw error }`
pattern used by most read paths of `FirebaseStorage`. -/
def catch5 {α : Type} (x : Except Nat α) (dflt : α) : Except Nat α :=
  match x with
  | .error 5 => .ok dflt
  | r => r

/-- A `.where(k, "==", v)` equality filter (also used to model the
relational `WHERE k = v`). -/
def whereEq (k : String) (v : Value) (es : List (String × Doc)) : List (String × Doc) :=
  es.filter (fun e => decide (dGet e.2 k = some v))

/-- Sort key of an `orderBy("createdAt", "desc")`: the stored instant. -/
def createdKey (d : Doc) : Int :=
  match dGet d "createdAt" with
  | some (.ts t) => t
  | some (.date t) => t
  | _ => 0

def insertDesc {α : Type} (key : α → Int) (x : α) : List α → List α
  | [] => [x]
  | y :: ys => if key x < key y then y :: insertDesc key x ys else x :: y :: ys

/-- Stable descending sort by an integer key.  Both stores leave the
relative order of equal keys unspecified; the model resolves ties the same
way on both sides (stably, by insertion order). -/
def sortByKeyDesc {α : Type} (key : α → Int) : List α → List α
  | [] => []
  | x :: xs => insertDesc key x (sortByKeyDesc key xs)

/-- Result-object hydration applied by `FirebaseStorage` reads:
`{ id: doc.id, ...doc.data() }` when `idFirst` is true, otherwise
`{ ...doc.data(), id: doc.id, f: toDate(data.f), ... }` for each converted
timestamp field `f` in `conv`. -/
def fbHydrate (idFirst : Bool) (conv : List String) (i : String) (d : Doc) : Doc :=
  if idFirst then dSetMany [("id", Value.str i)] d
  else conv.foldl (fun acc k => dSet acc k (toDate (dGet acc k))) (dSet d "id" (Value.str i))

/-- A simple `collection.doc(id).get()` read path. -/
def fbGetById (c : CollName) (idFirst : Bool) (conv : List String) (hasCatch : Bool)
    (s : St) (i : String) : Except Nat (Option Doc) :=
  let r : Except Nat (Option Doc) := do
    let es ← fbRead s c
    match entriesFind es i with
    | none => Except.ok none
    | some d => Except.ok (some (fbHydrate idFirst conv i d))
  if hasCatch then catch5 r none else r

/-- A `where(...).limit(1)` secondary-key lookup. -/
def fbFindOne (c : CollName) (filters : List (String × Value)) (idFirst : Bool)
    (conv : List String) (s : St) : Except Nat (Option Doc) :=
  catch5 (do
    let es ← fbRead s c
    let fl := filters.foldl (fun acc kv => whereEq kv.1 kv.2 acc) es
    match fl.head? with
    | none => Except.ok none
    | some e => Except.ok (some (fbHydrate idFirst conv e.1 e.2))) none

/-- A `where(k, "==", v)` list read (optionally ordered by `createdAt`
descending, optionally limited). -/
def fbList (c : CollName) (idFirst : Bool) (conv : List String) (ordered : Bool)
    (s : St) (k : String) (v : Value) (lim : Option Nat) : Except Nat (List Doc) :=
  catch5 (do
    let es ← fbRead s c
    let fl := whereEq k v es
    let srt := if ordered then sortByKeyDesc (fun e => createdKey e.2) fl else fl
    let ltd := match lim with | none => srt | some n => srt.take n
    Except.ok (ltd.map (fun e => fbHydrate idFirst conv e.1 e.2))) []

/-- Hand-written default hydration in a `FirebaseStorage.createX` object
literal: `fix` is an unconditional field (`usedCount: 0`), `orElse` is a
nullish-coalescing default (`downloadLimit: product.downloadLimit ?? 5`). -/
inductive FbFld where
  | fix (k : String) (v : Value)
  | orElse (k : String) (v : Value)
deriving Repr, DecidableEq

structure CreateCfg where
  coll : CollName
  hasCreatedAt : Bool
  fields : List FbFld
deriving Repr, DecidableEq

def applyFlds (input : Doc) (flds : List FbFld) (d : Doc) : Doc :=
  flds.foldl (fun acc f =>
    match f with
    | .fix k v => dSet acc k v
    | .orElse k v => dSet acc k (nullish (dGet input k) v)) d

/-- The common shape of every `FirebaseStorage.createX`: generate an id,
stamp `createdAt` where the entity has one, apply the hand-written
defaults, strip `undefined`s, write, and return the pre-serialization
object. -/
def fbCreate (cfg : CreateCfg) (s : St) (input : Doc) : Doc × St :=
  let i := genId s.nextId
  let base := dSet input "id" (Value.str i)
  let base := if cfg.hasCreatedAt then dSet base "createdAt" (Value.date s.now) else base
  let ret := applyFlds input cfg.fields base
  let data := storeTimestamps (serializeForFirestore ret)
  (ret, stWrite { s with nextId := s.nextId + 1 } cfg.coll i data)

structure UpdCfg where
  coll : CollName
  idFirst : Bool
  conv : List String
deriving Repr, DecidableEq

/-- The common shape of every `FirebaseStorage.updateX`: read, return
`undefined` when absent, merge the partial (stripped of `undefined`s) into
the document, re-read and hydrate the merged document. -/
def fbUpdate (cfg : UpdCfg) (s : St) (i : String) (data : Doc) : Except Nat (Option Doc × St) := do
  let es ← fbRead s cfg.coll
  match entriesFind es i with
  | none => Except.ok (none, s)
  | some d =>
    let d2 := dSetMany d (storeTimestamps (serializeForFirestore data))
    Except.ok (some (fbHydrate cfg.idFirst cfg.conv i d2), stWrite s cfg.coll i d2)

/-- The common shape of every `FirebaseStorage.deleteX`: read, `false` when
absent, otherwise delete and return `true`. -/
def fbDelete (c : CollName) (s : St) (i : String) : Except Nat (Bool × St) := do
  let es ← fbRead s c
  match entriesFind es i with
  | none => Except.ok (false, s)
  | some _ => Except.ok (true, stRemove s c i)

/-!  Relational-backend primitives (`DatabaseStorage` over the drizzle
schema of the shared schema file). -/

inductive ColTy where
  | tStr | tInt | tBool | tDec | tDate | tJson
deriving Repr, DecidableEq

inductive Dflt where
  | val (v : Value)
  | genId
  | now
deriving Repr, DecidableEq

structure Col where
  name : String
  ty : ColTy
  nn : Bool
  dflt : Option Dflt
deriving Repr, DecidableEq

def dbRows (s : St) (c : CollName) : List (String × Doc) :=
  (Store.coll s.store c).entries

def dbDefault (s : St) (c : Col) : Value :=
  match c.dflt with
  | some (.val v) => v
  | some .genId => .str (genId s.nextId)
  | some .now => .date s.now
  | none => .null

/-- Value inserted for one column: the supplied value, or (for an omitted
or `undefined` field, which drizzle leaves out of the INSERT) the column
default, or NULL. -/
def dbValue (s : St) (input : Doc) (c : Col) : Value :=
  match dGet input c.name with
  | some v => if v = .undef then dbDefault s c else v
  | none => dbDefault s c

/-- `db.insert(table).values(input).returning()`: the persisted row carries
every column of the table. -/
def dbInsert (c : CollName) (cols : List Col) (s : St) (input : Doc) : Doc × St :=
  let row := cols.map (fun col => (col.name, dbValue s input col))
  let i := asStr (dGet row "id")
  (row, stWrite { s with nextId := s.nextId + 1 } c i row)

def dbGetById (c : CollName) (s : St) (i : String) : Option Doc :=
  ((whereEq "id" (Value.str i) (dbRows s c)).head?).map (fun e => e.2)

def dbFindOne (c : CollName) (filters : List (String × Value)) (s : St) : Option Doc :=
  ((filters.foldl (fun acc kv => whereEq kv.1 kv.2 acc) (dbRows s c)).head?).map (fun e => e.2)

def dbList (c : CollName) (ordered : Bool) (s : St) (k : String) (v : Value)
    (lim : Option Nat) : List Doc :=
  let fl := whereEq k v (dbRows s c)
  let srt := if ordered then sortByKeyDesc (fun e => createdKey e.2) fl else fl
  let ltd : List (String × Doc) := match lim with | none => srt | some n => srt.take n
  ltd.map (fun e => e.2)

/-- `db.update(table).set(data).where(eq(id)).returning()`: drizzle skips
`undefined` fields of `data`; supplied fields (including explicit NULLs)
overwrite the row. -/
def dbUpdate (c : CollName) (s : St) (i : String) (data : Doc) : Option Doc × St :=
  match entriesFind (dbRows s c) i with
  | none => (none, s)
  | some row =>
    let row2 := dSetMany row (data.filter (fun kv => decide (kv.2 ≠ Value.undef)))
    (some row2, stWrite s c i row2)

/-- `db.delete(table).where(eq(id)).returning()`: `true` exactly when a row
was removed. -/
def dbDelete (c : CollName) (s : St) (i : String) : Bool × St :=
  let hit := (dbRows s c).any (fun e => decide (dGet e.2 "id" = some (Value.str i)))
  (hit, stRemove s c i)

/-!  The drizzle schema (shared schema file): one column table per entity.
`colId` is the `uuid primaryKey default gen_random_uuid()` column and
`colCreated` the `timestamp default now()` column. -/

def col (n : String) (t : ColTy) : Col := { name := n, ty := t, nn := false, dflt := none }

def colNN (n : String) (t : ColTy) : Col := { name := n, ty := t, nn := true, dflt := none }

def colD (n : String) (t : ColTy) (v : Value) : Col := { name := n, ty := t, nn := false, dflt := some (.val v) }

def colId : Col := { name := "id", ty := .tStr, nn := true, dflt := some .genId }

def colCreated : Col := { name := "createdAt", ty := .tDate, nn := false, dflt := some .now }

def usersCols : List Col :=
  [colId, colNN "email" .tStr, colNN "password" .tStr, col "businessName" .tStr,
   col "logoUrl" .tStr, colD "primaryColor" .tStr (.str "#2563eb"),
   col "facebookPixelId" .tStr, col "facebookAccessToken" .tStr,
   col "uddoktapayApiKey" .tStr, col "uddoktapayApiUrl" .tStr,
   col "sendgridApiKey" .tStr, col "fromEmail" .tStr, col "customDomain" .tStr,
   colD "domainVerified" .tBool (.bool false)]

def productsCols : List Col :=
  [colId, colNN "userId" .tStr, colNN "name" .tStr, col "description" .tStr,
   colNN "price" .tDec, col "compareAtPrice" .tDec, col "imageUrl" .tStr,
   col "fileUrl" .tStr, col "fileName" .tStr, col "fileSize" .tInt,
   colD "downloadLimit" .tInt (.num 5), colD "isActive" .tBool (.bool true), colCreated]

def checkoutPagesCols : List Col :=
  [colId, colNN "userId" .tStr, colNN "productId" .tStr, colNN "name" .tStr,
   colNN "slug" .tStr, colD "template" .tStr (.str "publisher"),
   colD "blocks" .tJson (.json "[]"), colD "customStyles" .tJson (.json "\x7b\x7d"),
   colD "isPublished" .tBool (.bool false), colCreated]

def couponsCols : List Col :=
  [colId, colNN "userId" .tStr, colNN "code" .tStr, colNN "discountType" .tStr,
   colNN "discountValue" .tDec, col "usageLimit" .tInt,
   colD "usedCount" .tInt (.num 0), col "expiresAt" .tDate,
   colD "isActive" .tBool (.bool true), colCreated]

def customersCols : List Col :=
  [colId, colNN "userId" .tStr, colNN "email" .tStr, col "firstName" .tStr,
   col "lastName" .tStr, col "phone" .tStr, col "country" .tStr, colCreated]

def ordersCols : List Col :=
  [colId, colNN "userId" .tStr, colNN "customerId" .tStr, col "checkoutPageId" .tStr,
   colD "status" .tStr (.str "pending"), colNN "subtotal" .tDec,
   colD "discount" .tDec (.str "0"), colNN "total" .tDec, col "couponId" .tStr,
   col "paymentMethod" .tStr, col "transactionId" .tStr, col "invoiceId" .tStr,
   col "eventId" .tStr, col "ipAddress" .tStr, col "userAgent" .tStr, colCreated]

def orderItemsCols : List Col :=
  [colId, colNN "orderId" .tStr, colNN "productId" .tStr,
   colD "itemType" .tStr (.str "main"), colNN "price" .tDec,
   colD "downloadCount" .tInt (.num 0), col "downloadToken" .tStr,
   col "tokenExpiresAt" .tDate]

def abandonedCartsCols : List Col :=
  [colId, colNN "userId" .tStr, colNN "checkoutPageId" .tStr, col "email" .tStr,
   col "cartData" .tJson, col "ipAddress" .tStr, col "userAgent" .tStr,
   colD "recoveryEmailSent" .tBool (.bool false), col "recoveredAt" .tDate, colCreated]

def emailTemplatesCols : List Col :=
  [colId, colNN "userId" .tStr, colNN "type" .tStr, colNN "subject" .tStr,
   colNN "body" .tStr, colD "isActive" .tBool (.bool true)]

def pixelEventsCols : List Col :=
  [colId, colNN "userId" .tStr, colNN "eventName" .tStr, colNN "eventId" .tStr,
   colNN "eventTime" .tDate, col "userData" .tJson, col "customData" .tJson,
   colD "actionSource" .tStr (.str "website"), colD "sentToServer" .tBool (.bool false),
   colCreated]

def colsOf : CollName → List Col
  | .users => usersCols
  | .products => productsCols
  | .checkoutPages => checkoutPagesCols
  | .coupons => couponsCols
  | .customers => customersCols
  | .orders => ordersCols
  | .orderItems => orderItemsCols
  | .emailTemplates => emailTemplatesCols
  | .pixelEvents => pixelEventsCols
  | .abandonedCarts => abandonedCartsCols

/-!  `FirebaseStorage` methods (src/server/firebase-storage.ts).  Each is an
instance of the generic shapes above; the configuration values are read off
the cited source lines. -/

/-- FirebaseStorage.getUser, lines 59-70 (`{ id: doc.id, ...doc.data() }`,
code-5 caught). -/
def fbGetUser (s : St) (i : String) : Except Nat (Option Doc) :=
  fbGetById .users true [] true s i

/-- FirebaseStorage.getUserByEmail, lines 72-84. -/
def fbGetUserByEmail (s : St) (e : String) : Except Nat (Option Doc) :=
  fbFindOne .users [("email", .str e)] true [] s

/-- FirebaseStorage.createUser, lines 86-97. -/
def fbCreateUser : St → Doc → Doc × St :=
  fbCreate { coll := .users, hasCreatedAt := false,
             fields := [.orElse "primaryColor" (.str "#2563eb"),
                        .orElse "domainVerified" (.bool false)] }

/-- FirebaseStorage.updateUser, lines 99-106 (`{ id, ...updated.data() }`). -/
def fbUpdateUser : St → String → Doc → Except Nat (Option Doc × St) :=
  fbUpdate { coll := .users, idFirst := true, conv := [] }

/-- FirebaseStorage.getProducts, lines 108-128. -/
def fbGetProducts (s : St) (u : String) : Except Nat (List Doc) :=
  fbList .products false ["createdAt"] true s "userId" (.str u) none

/-- FirebaseStorage.getProduct, lines 130-146. -/
def fbGetProduct (s : St) (i : String) : Except Nat (Option Doc) :=
  fbGetById .products false ["createdAt"] true s i

/-- FirebaseStorage.createProduct, lines 148-161. -/
def fbCreateProduct : St → Doc → Doc × St :=
  fbCreate { coll := .products, hasCreatedAt := true,
             fields := [.orElse "downloadLimit" (.num 5),
                        .orElse "isActive" (.bool true)] }

/-- FirebaseStorage.updateProduct, lines 163-175. -/
def fbUpdateProduct : St → String → Doc → Except Nat (Option Doc × St) :=
  fbUpdate { coll := .products, idFirst := false, conv := ["createdAt"] }

/-- FirebaseStorage.deleteProduct, lines 177-183. -/
def fbDeleteProduct : St → String → Except Nat (Bool × St) :=
  fbDelete .products

/-- FirebaseStorage.getCheckoutPages, lines 185-211: ordered list plus a
follow-up `getProduct` per page. -/
def fbGetCheckoutPages (s : St) (u : String) : Except Nat (List (Doc × Option Doc)) :=
  catch5 (do
    let es ← fbRead s .checkoutPages
    let srt := sortByKeyDesc (fun e => createdKey e.2) (whereEq "userId" (Value.str u) es)
    let pages ← srt.mapM (fun e => do
      let page := fbHydrate false ["createdAt"] e.1 e.2
      let product ← fbGetProduct s (asStr (dGet page "productId"))
      Except.ok (page, product))
    Except.ok pages) []

/-- FirebaseStorage.getCheckoutPage, lines 213-231. -/
def fbGetCheckoutPage (s : St) (i : String) : Except Nat (Option (Doc × Option Doc)) :=
  catch5 (do
    let es ← fbRead s .checkoutPages
    match entriesFind es i with
    | none => Except.ok none
    | some d =>
      let page := fbHydrate false ["createdAt"] i d
      let product ← fbGetProduct s (asStr (dGet page "productId"))
      Except.ok (some (page, product))) none

/-- FirebaseStorage.getCheckoutPageBySlug, lines 233-255 (global lookup, no
owner filter). -/
def fbGetCheckoutPageBySlug (s : St) (slug : String) : Except Nat (Option (Doc × Option Doc)) :=
  catch5 (do
    let es ← fbRead s .checkoutPages
    match (whereEq "slug" (Value.str slug) es).head? with
    | none => Except.ok none
    | some e =>
      let page := fbHydrate false ["createdAt"] e.1 e.2
      let product ← fbGetProduct s (asStr (dGet page "productId"))
      Except.ok (some (page, product))) none

/-- FirebaseStorage.createCheckoutPage, lines 257-272. -/
def fbCreateCheckoutPage : St → Doc → Doc × St :=
  fbCreate { coll := .checkoutPages, hasCreatedAt := true,
             fields := [.orElse "template" (.str "publisher"),
                        .orElse "blocks" (.json "[]"),
                        .orElse "customStyles" (.json "\x7b\x7d"),
                        .orElse "isPublished" (.bool false)] }

/-- FirebaseStorage.updateCheckoutPage, lines 274-286. -/
def fbUpdateCheckoutPage : St → String → Doc → Except Nat (Option Doc × St) :=
  fbUpdate { coll := .checkoutPages, idFirst := false, conv := ["createdAt"] }

/-- FirebaseStorage.deleteCheckoutPage, lines 288-294. -/
def fbDeleteCheckoutPage : St → String → Except Nat (Bool × St) :=
  fbDelete .checkoutPages

/-- FirebaseStorage.getCoupons, lines 296-317. -/
def fbGetCoupons (s : St) (u : String) : Except Nat (List Doc) :=
  fbList .coupons false ["createdAt", "expiresAt"] true s "userId" (.str u) none

/-- FirebaseStorage.getCoupon, lines 319-336. -/
def fbGetCoupon (s : St) (i : String) : Except Nat (Option Doc) :=
  fbGetById .coupons false ["createdAt", "expiresAt"] true s i

/-- FirebaseStorage.getCouponByCode, lines 338-360. -/
def fbGetCouponByCode (s : St) (code u : String) : Except Nat (Option Doc) :=
  fbFindOne .coupons [("code", .str code), ("userId", .str u)] false
    ["createdAt", "expiresAt"] s

/-- FirebaseStorage.createCoupon, lines 362-375 (`usedCount: 0`
unconditionally). -/
def fbCreateCoupon : St → Doc → Doc × St :=
  fbCreate { coll := .coupons, hasCreatedAt := true,
             fields := [.fix "usedCount" (.num 0), .orElse "isActive" (.bool true)] }

/-- FirebaseStorage.updateCoupon, lines 377-390. -/
def fbUpdateCoupon : St → String → Doc → Except Nat (Option Doc × St) :=
  fbUpdate { coll := .coupons, idFirst := false, conv := ["createdAt", "expiresAt"] }

/-- FirebaseStorage.deleteCoupon, lines 392-398. -/
def fbDeleteCoupon : St → String → Except Nat (Bool × St) :=
  fbDelete .coupons

/-- FirebaseStorage.getCustomers, lines 400-420. -/
def fbGetCustomers (s : St) (u : String) : Except Nat (List Doc) :=
  fbList .customers false ["createdAt"] true s "userId" (.str u) none

/-- FirebaseStorage.getCustomer, lines 422-438. -/
def fbGetCustomer (s : St) (i : String) : Except Nat (Option Doc) :=
  fbGetById .customers false ["createdAt"] true s i

/-- FirebaseStorage.getCustomerByEmail, lines 440-461. -/
def fbGetCustomerByEmail (s : St) (e u : String) : Except Nat (Option Doc) :=
  fbFindOne .customers [("email", .str e), ("userId", .str u)] false ["createdAt"] s

/-- FirebaseStorage.createCustomer, lines 463-469 (no hand-written
defaults; returns `{ id, ...customer, createdAt }`). -/
def fbCreateCustomer : St → Doc → Doc × St :=
  fbCreate { coll := .customers, hasCreatedAt := true, fields := [] }

/-- FirebaseStorage.updateCustomer, lines 471-483. -/
def fbUpdateCustomer : St → String → Doc → Except Nat (Option Doc × St) :=
  fbUpdate { coll := .customers, idFirst := false, conv := ["createdAt"] }

/-- FirebaseStorage.getOrders, lines 485-517: per order a follow-up
`getCustomer` and a raw `orderItems` query (items are returned without
timestamp conversion and without products).  The try/catch guards only the
outer orders query: the per-order work happens inside an un-awaited
`Promise.all`, so a code-5 rejection from the `orderItems` sub-reads
escapes the catch and reaches the caller. -/
def fbGetOrders (s : St) (u : String) : Except Nat (List (Doc × Option Doc × List Doc)) := do
  let es ← catch5 (fbRead s .orders) []
  let srt := sortByKeyDesc (fun e => createdKey e.2) (whereEq "userId" (Value.str u) es)
  srt.mapM (fun e => do
    let order := fbHydrate false ["createdAt"] e.1 e.2
    let customer ← fbGetCustomer s (asStr (dGet order "customerId"))
    let itemsEs ← fbRead s .orderItems
    let items := (whereEq "orderId" (Value.str e.1) itemsEs).map
      (fun ie => dSet ie.2 "id" (Value.str ie.1))
    Except.ok (order, customer, items))

/-- FirebaseStorage.getOrderItems, lines 577-592: no code-5 catch. -/
def fbGetOrderItems (s : St) (orderId : String) : Except Nat (List (Doc × Option Doc)) := do
  let es ← fbRead s .orderItems
  (whereEq "orderId" (Value.str orderId) es).mapM (fun e => do
    let item := fbHydrate false ["tokenExpiresAt"] e.1 e.2
    let product ← fbGetProduct s (asStr (dGet item "productId"))
    Except.ok (item, product))

/-- FirebaseStorage.getOrder, lines 519-533: no code-5 catch. -/
def fbGetOrder (s : St) (i : String) :
    Except Nat (Option (Doc × Option Doc × List (Doc × Option Doc))) := do
  let es ← fbRead s .orders
  match entriesFind es i with
  | none => Except.ok none
  | some d =>
    let order := fbHydrate false ["createdAt"] i d
    let customer ← fbGetCustomer s (asStr (dGet order "customerId"))
    let items ← fbGetOrderItems s i
    Except.ok (some (order, customer, items))

/-- FirebaseStorage.createOrder, lines 535-548. -/
def fbCreateOrder : St → Doc → Doc × St :=
  fbCreate { coll := .orders, hasCreatedAt := true,
             fields := [.orElse "status" (.str "pending"), .orElse "discount" (.str "0")] }

/-- FirebaseStorage.updateOrder, lines 550-562. -/
def fbUpdateOrder : St → String → Doc → Except Nat (Option Doc × St) :=
  fbUpdate { coll := .orders, idFirst := false, conv := ["createdAt"] }

/-- FirebaseStorage.createOrderItem, lines 564-575 (no `createdAt`). -/
def fbCreateOrderItem : St → Doc → Doc × St :=
  fbCreate { coll := .orderItems, hasCreatedAt := false,
             fields := [.orElse "itemType" (.str "main"), .orElse "downloadCount" (.num 0)] }

/-- FirebaseStorage.getEmailTemplates, lines 594-609 (unordered,
`{ ...doc.data(), id: doc.id }`). -/
def fbGetEmailTemplates (s : St) (u : String) : Except Nat (List Doc) :=
  fbList .emailTemplates false [] false s "userId" (.str u) none

/-- FirebaseStorage.getEmailTemplate, lines 611-615: no code-5 catch. -/
def fbGetEmailTemplate (s : St) (i : String) : Except Nat (Option Doc) :=
  fbGetById .emailTemplates true [] false s i

/-- FirebaseStorage.createEmailTemplate, lines 617-627. -/
def fbCreateEmailTemplate : St → Doc → Doc × St :=
  fbCreate { coll := .emailTemplates, hasCreatedAt := false,
             fields := [.orElse "isActive" (.bool true)] }

/-- FirebaseStorage.updateEmailTemplate, lines 629-636. -/
def fbUpdateEmailTemplate : St → String → Doc → Except Nat (Option Doc × St) :=
  fbUpdate { coll := .emailTemplates, idFirst := true, conv := [] }

/-- FirebaseStorage.deleteEmailTemplate, lines 638-644. -/
def fbDeleteEmailTemplate : St → String → Except Nat (Bool × St) :=
  fbDelete .emailTemplates

/-- FirebaseStorage.createPixelEvent, lines 646-659. -/
def fbCreatePixelEvent : St → Doc → Doc × St :=
  fbCreate { coll := .pixelEvents, hasCreatedAt := true,
             fields := [.orElse "actionSource" (.str "website"),
                        .orElse "sentToServer" (.bool false)] }

/-- FirebaseStorage.getPixelEvents, lines 661-683 (`limit = 100` default
parameter). -/
def fbGetPixelEvents (s : St) (u : String) (lim : Option Nat) : Except Nat (List Doc) :=
  fbList .pixelEvents false ["createdAt", "eventTime"] true s "userId" (.str u)
    (some (lim.getD 100))

/-- FirebaseStorage.createAbandonedCart, lines 685-697. -/
def fbCreateAbandonedCart : St → Doc → Doc × St :=
  fbCreate { coll := .abandonedCarts, hasCreatedAt := true,
             fields := [.orElse "recoveryEmailSent" (.bool false)] }

/-- FirebaseStorage.getAbandonedCarts, lines 699-720. -/
def fbGetAbandonedCarts (s : St) (u : String) : Except Nat (List Doc) :=
  fbList .abandonedCarts false ["createdAt", "recoveredAt"] true s "userId" (.str u) none

/-- FirebaseStorage.updateAbandonedCart, lines 722-735. -/
def fbUpdateAbandonedCart : St → String → Doc → Except Nat (Option Doc × St) :=
  fbUpdate { coll := .abandonedCarts, idFirst := false, conv := ["createdAt", "recoveredAt"] }

/-!  `DatabaseStorage` methods (same file, lines 842-1103). -/

/-- DatabaseStorage.getUser, lines 844-847. -/
def dbGetUser (s : St) (i : String) : Option Doc := dbGetById .users s i

/-- DatabaseStorage.getUserByEmail, lines 849-852. -/
def dbGetUserByEmail (s : St) (e : String) : Option Doc :=
  dbFindOne .users [("email", .str e)] s

/-- DatabaseStorage.createUser, lines 854-857. -/
def dbCreateUser : St → Doc → Doc × St := dbInsert .users usersCols

/-- DatabaseStorage.updateUser, lines 859-862. -/
def dbUpdateUser (s : St) (i : String) (d : Doc) : Option Doc × St := dbUpdate .users s i d

/-- DatabaseStorage.getProducts, lines 865-867. -/
def dbGetProducts (s : St) (u : String) : List Doc :=
  dbList .products true s "userId" (.str u) none

/-- DatabaseStorage.getProduct, lines 869-872. -/
def dbGetProduct (s : St) (i : String) : Option Doc := dbGetById .products s i

/-- DatabaseStorage.createProduct, lines 874-877. -/
def dbCreateProduct : St → Doc → Doc × St := dbInsert .products productsCols

/-- DatabaseStorage.updateProduct, lines 879-882. -/
def dbUpdateProduct (s : St) (i : String) (d : Doc) : Option Doc × St :=
  dbUpdate .products s i d

/-- DatabaseStorage.deleteProduct, lines 884-887. -/
def dbDeleteProduct (s : St) (i : String) : Bool × St := dbDelete .products s i

/-- DatabaseStorage.getCheckoutPages, lines 890-901. -/
def dbGetCheckoutPages (s : St) (u : String) : List (Doc × Option Doc) :=
  let srt := sortByKeyDesc (fun e => createdKey e.2)
    (whereEq "userId" (Value.str u) (dbRows s .checkoutPages))
  srt.map (fun e => (e.2, dbGetById .products s (asStr (dGet e.2 "productId"))))

/-- DatabaseStorage.getCheckoutPage, lines 903-909. -/
def dbGetCheckoutPage (s : St) (i : String) : Option (Doc × Option Doc) :=
  (dbGetById .checkoutPages s i).map
    (fun page => (page, dbGetById .products s (asStr (dGet page "productId"))))

/-- DatabaseStorage.getCheckoutPageBySlug, lines 911-917. -/
def dbGetCheckoutPageBySlug (s : St) (slug : String) : Option (Doc × Option Doc) :=
  (dbFindOne .checkoutPages [("slug", .str slug)] s).map
    (fun page => (page, dbGetById .products s (asStr (dGet page "productId"))))

/-- DatabaseStorage.createCheckoutPage, lines 919-922. -/
def dbCreateCheckoutPage : St → Doc → Doc × St := dbInsert .checkoutPages checkoutPagesCols

/-- DatabaseStorage.updateCheckoutPage, lines 924-927. -/
def dbUpdateCheckoutPage (s : St) (i : String) (d : Doc) : Option Doc × St :=
  dbUpdate .checkoutPages s i d

/-- DatabaseStorage.deleteCheckoutPage, lines 929-932. -/
def dbDeleteCheckoutPage (s : St) (i : String) : Bool × St := dbDelete .checkoutPages s i

/-- DatabaseStorage.getCoupons, lines 935-937. -/
def dbGetCoupons (s : St) (u : String) : List Doc :=
  dbList .coupons true s "userId" (.str u) none

/-- DatabaseStorage.getCoupon, lines 939-942. -/
def dbGetCoupon (s : St) (i : String) : Option Doc := dbGetById .coupons s i

/-- DatabaseStorage.getCouponByCode, lines 944-949. -/
def dbGetCouponByCode (s : St) (code u : String) : Option Doc :=
  dbFindOne .coupons [("code", .str code), ("userId", .str u)] s

/-- DatabaseStorage.createCoupon, lines 951-954. -/
def dbCreateCoupon : St → Doc → Doc × St := dbInsert .coupons couponsCols

/-- DatabaseStorage.updateCoupon, lines 956-959. -/
def dbUpdateCoupon (s : St) (i : String) (d : Doc) : Option Doc × St :=
  dbUpdate .coupons s i d

/-- DatabaseStorage.deleteCoupon, lines 961-964. -/
def dbDeleteCoupon (s : St) (i : String) : Bool × St := dbDelete .coupons s i

/-- DatabaseStorage.getCustomers, lines 967-969. -/
def dbGetCustomers (s : St) (u : String) : List Doc :=
  dbList .customers true s "userId" (.str u) none

/-- DatabaseStorage.getCustomer, lines 971-974. -/
def dbGetCustomer (s : St) (i : String) : Option Doc := dbGetById .customers s i

/-- DatabaseStorage.getCustomerByEmail, lines 976-981. -/
def dbGetCustomerByEmail (s : St) (e u : String) : Option Doc :=
  dbFindOne .customers [("email", .str e), ("userId", .str u)] s

/-- DatabaseStorage.createCustomer, lines 983-986. -/
def dbCreateCustomer : St → Doc → Doc × St := dbInsert .customers customersCols

/-- DatabaseStorage.updateCustomer, lines 988-991. -/
def dbUpdateCustomer (s : St) (i : String) (d : Doc) : Option Doc × St :=
  dbUpdate .customers s i d

/-- DatabaseStorage.getOrders, lines 994-1006. -/
def dbGetOrders (s : St) (u : String) : List (Doc × Option Doc × List Doc) :=
  let srt := sortByKeyDesc (fun e => createdKey e.2)
    (whereEq "userId" (Value.str u) (dbRows s .orders))
  srt.map (fun e =>
    (e.2, dbGetById .customers s (asStr (dGet e.2 "customerId")),
      (whereEq "orderId" (Value.str (asStr (dGet e.2 "id"))) (dbRows s .orderItems)).map
        (fun ie => ie.2)))

/-- DatabaseStorage.getOrder, lines 1008-1023. -/
def dbGetOrder (s : St) (i : String) : Option (Doc × Option Doc × List (Doc × Option Doc)) :=
  (dbGetById .orders s i).map (fun order =>
    (order, dbGetById .customers s (asStr (dGet order "customerId")),
      (whereEq "orderId" (Value.str (asStr (dGet order "id"))) (dbRows s .orderItems)).map
        (fun ie => (ie.2, dbGetById .products s (asStr (dGet ie.2 "productId"))))))

/-- DatabaseStorage.createOrder, lines 1025-1028. -/
def dbCreateOrder : St → Doc → Doc × St := dbInsert .orders ordersCols

/-- DatabaseStorage.updateOrder, lines 1030-1033. -/
def dbUpdateOrder (s : St) (i : String) (d : Doc) : Option Doc × St :=
  dbUpdate .orders s i d

/-- DatabaseStorage.createOrderItem, lines 1036-1039. -/
def dbCreateOrderItem : St → Doc → Doc × St := dbInsert .orderItems orderItemsCols

/-- DatabaseStorage.getOrderItems, lines 1041-1052. -/
def dbGetOrderItems (s : St) (orderId : String) : List (Doc × Option Doc) :=
  (whereEq "orderId" (Value.str orderId) (dbRows s .orderItems)).map (fun ie =>
    (ie.2, dbGetById .products s (asStr (dGet ie.2 "productId"))))

/-- DatabaseStorage.getEmailTemplates, lines 1055-1057 (unordered). -/
def dbGetEmailTemplates (s : St) (u : String) : List Doc :=
  dbList .emailTemplates false s "userId" (.str u) none

/-- DatabaseStorage.getEmailTemplate, lines 1059-1062. -/
def dbGetEmailTemplate (s : St) (i : String) : Option Doc := dbGetById .emailTemplates s i

/-- DatabaseStorage.createEmailTemplate, lines 1064-1067. -/
def dbCreateEmailTemplate : St → Doc → Doc × St := dbInsert .emailTemplates emailTemplatesCols

/-- DatabaseStorage.updateEmailTemplate, lines 1069-1072. -/
def dbUpdateEmailTemplate (s : St) (i : String) (d : Doc) : Option Doc × St :=
  dbUpdate .emailTemplates s i d

/-- DatabaseStorage.deleteEmailTemplate, lines 1074-1077. -/
def dbDeleteEmailTemplate (s : St) (i : String) : Bool × St := dbDelete .emailTemplates s i

/-- DatabaseStorage.createPixelEvent, lines 1080-1083. -/
def dbCreatePixelEvent : St → Doc → Doc × St := dbInsert .pixelEvents pixelEventsCols

/-- DatabaseStorage.getPixelEvents, lines 1085-1087 (`limit = 100`
default parameter). -/
def dbGetPixelEvents (s : St) (u : String) (lim : Option Nat) : List Doc :=
  dbList .pixelEvents true s "userId" (.str u) (some (lim.getD 100))

/-- DatabaseStorage.createAbandonedCart, lines 1090-1093. -/
def dbCreateAbandonedCart : St → Doc → Doc × St := dbInsert .abandonedCarts abandonedCartsCols

/-- DatabaseStorage.getAbandonedCarts, lines 1095-1097. -/
def dbGetAbandonedCarts (s : St) (u : String) : List Doc :=
  dbList .abandonedCarts true s "userId" (.str u) none

/-- DatabaseStorage.updateAbandonedCart, lines 1099-1102. -/
def dbUpdateAbandonedCart (s : St) (i : String) (d : Doc) : Option Doc × St :=
  dbUpdate .abandonedCarts s i d

/-!  The storage contract (`IStorage`, lines 778-840) as an operation
alphabet, and one interpreter per backend. -/

/-!  Relational schema constraints.

The drizzle schema declares, besides column types and defaults, a
uniqueness constraint (`users.email` is `.unique()`, and every `id` is a
primary key) and foreign keys (`.references(() => parent.id)`, Postgres
default NO ACTION) on every child table.  `DatabaseStorage` does not catch
the constraint-violation errors Postgres raises for them — error class
23505 (unique violation) and 23503 (foreign-key violation) — so the
relational model must surface them. -/

/-- The foreign-key columns of each table: (column, referenced table).
Every reference targets the parent's `id`. -/
def fksOf : CollName → List (String × CollName)
  | .users => []
  | .products => [("userId", .users)]
  | .checkoutPages => [("userId", .users), ("productId", .products)]
  | .coupons => [("userId", .users)]
  | .customers => [("userId", .users)]
  | .orders => [("userId", .users), ("customerId", .customers),
      ("checkoutPageId", .checkoutPages), ("couponId", .coupons)]
  | .orderItems => [("orderId", .orders), ("productId", .products)]
  | .emailTemplates => [("userId", .users)]
  | .pixelEvents => [("userId", .users)]
  | .abandonedCarts => [("userId", .users), ("checkoutPageId", .checkoutPages)]

/-- The unique-constrained columns of each table: the `id` primary key
everywhere, plus `unique(users.email)`. -/
def uniquesOf : CollName → List String
  | .users => ["id", "email"]
  | _ => ["id"]

def allColls : List CollName :=
  [.users, .products, .checkoutPages, .coupons, .customers, .orders,
   .orderItems, .emailTemplates, .pixelEvents, .abandonedCarts]

/-- A foreign-key column value is admissible when it is SQL NULL (or the
column is simply absent) or references an existing parent row. -/
def fkValOk (s : St) (parent : CollName) : Option Value → Bool
  | some (Value.str v) =>
      (dbRows s parent).any (fun e => decide (dGet e.2 "id" = some (Value.str v)))
  | some Value.null => true
  | some Value.undef => true
  | none => true
  | some _ => false

def rowFkOk (s : St) (c : CollName) (row : Doc) : Bool :=
  (fksOf c).all (fun fk => fkValOk s fk.2 (dGet row fk.1))

/-- Uniqueness of a (new or updated) row against the stored rows; the row
being updated excludes itself by key.  Two SQL NULLs never conflict. -/
def rowUniqueOk (s : St) (c : CollName) (selfId : Option String) (row : Doc) : Bool :=
  (uniquesOf c).all (fun k =>
    match dGet row k with
    | some (Value.str v) =>
        (dbRows s c).all (fun e =>
          decide (some e.1 = selfId) || decide (dGet e.2 k ≠ some (Value.str v)))
    | _ => true)

/-- The constraint error an INSERT of `input` into `c` raises, if any:
Postgres checks uniqueness (23505) and foreign keys (23503) on the full
row, defaults applied. -/
def insConErr (c : CollName) (cols : List Col) (s : St) (input : Doc) : Option Nat :=
  let row := cols.map (fun col => (col.name, dbValue s input col))
  if rowUniqueOk s c none row = false then some 23505
  else if rowFkOk s c row = false then some 23503
  else none

/-- The constraint error an UPDATE raises, if any: checked on the merged
row, the row itself excluded from the uniqueness scan.  An UPDATE matching
no row raises nothing. -/
def updConErr (c : CollName) (s : St) (i : String) (patch : Doc) : Option Nat :=
  match entriesFind (dbRows s c) i with
  | none => none
  | some row =>
    let row2 := dSetMany row (patch.filter (fun kv => decide (kv.2 ≠ Value.undef)))
    if rowUniqueOk s c (some i) row2 = false then some 23505
    else if rowFkOk s c row2 = false then some 23503
    else none

/-- The constraint error a DELETE raises, if any: with NO ACTION, deleting
a row that a child-table foreign key still references raises 23503. -/
def delConErr (c : CollName) (s : St) (i : String) : Option Nat :=
  if ((dbRows s c).any (fun e => decide (dGet e.2 "id" = some (Value.str i))))
      && (allColls.any (fun c2 => (fksOf c2).any (fun fk =>
          decide (fk.2 = c) && (dbRows s c2).any (fun e =>
            decide (dGet e.2 fk.1 = some (Value.str i))))))
  then some 23503 else none

/-- `db.insert(...).values(...).returning()` with the constraint errors
the schema declares; `dbInsert` is its success branch. -/
def dbInsertE (c : CollName) (cols : List Col) (s : St) (input : Doc) :
    Except Nat (Doc × St) :=
  match insConErr c cols s input with
  | some e => .error e
  | none => .ok (dbInsert c cols s input)

/-- `db.update(...).set(...).where(...).returning()` with the constraint
errors; `dbUpdate` is its success branch. -/
def dbUpdateE (c : CollName) (s : St) (i : String) (data : Doc) :
    Except Nat (Option Doc × St) :=
  match updConErr c s i data with
  | some e => .error e
  | none => .ok (dbUpdate c s i data)

/-- `db.delete(...).where(...).returning()` with the NO-ACTION
foreign-key error; `dbDelete` is its success branch. -/
def dbDeleteE (c : CollName) (s : St) (i : String) : Except Nat (Bool × St) :=
  match delConErr c s i with
  | some e => .error e
  | none => .ok (dbDelete c s i)

inductive Op where
  | getUser (i : String)
  | getUserByEmail (e : String)
  | createUser (d : Doc)
  | updateUser (i : String) (d : Doc)
  | getProducts (u : String)
  | getProduct (i : String)
  | createProduct (d : Doc)
  | updateProduct (i : String) (d : Doc)
  | deleteProduct (i : String)
  | getCheckoutPages (u : String)
  | getCheckoutPage (i : String)
  | getCheckoutPageBySlug (slug : String)
  | createCheckoutPage (d : Doc)
  | updateCheckoutPage (i : String) (d : Doc)
  | deleteCheckoutPage (i : String)
  | getCoupons (u : String)
  | getCoupon (i : String)
  | getCouponByCode (code : String) (u : String)
  | createCoupon (d : Doc)
  | updateCoupon (i : String) (d : Doc)
  | deleteCoupon (i : String)
  | getCustomers (u : String)
  | getCustomer (i : String)
  | getCustomerByEmail (e : String) (u : String)
  | createCustomer (d : Doc)
  | updateCustomer (i : String) (d : Doc)
  | getOrders (u : String)
  | getOrder (i : String)
  | createOrder (d : Doc)
  | updateOrder (i : String) (d : Doc)
  | createOrderItem (d : Doc)
  | getOrderItems (orderId : String)
  | getEmailTemplates (u : String)
  | getEmailTemplate (i : String)
  | createEmailTemplate (d : Doc)
  | updateEmailTemplate (i : String) (d : Doc)
  | deleteEmailTemplate (i : String)
  | createPixelEvent (d : Doc)
  | getPixelEvents (u : String) (lim : Option Nat)
  | createAbandonedCart (d : Doc)
  | getAbandonedCarts (u : String)
  | updateAbandonedCart (i : String) (d : Doc)
deriving Repr, DecidableEq

/-- Observable results of contract operations. -/
inductive Out where
  | bool (b : Bool)
  | doc (d : Doc)
  | optDoc (d : Option Doc)
  | docs (ds : List Doc)
  | optPair (p : Option (Doc × Option Doc))
  | pairs (ps : List (Doc × Option Doc))
  | ordersOut (os : List (Doc × Option Doc × List Doc))
  | optOrderOut (o : Option (Doc × Option Doc × List (Doc × Option Doc)))
deriving Repr, DecidableEq

def runFb : Op → St → Except Nat (Out × St)
  | .getUser i, s => (fbGetUser s i).map (fun r => (Out.optDoc r, s))
  | .getUserByEmail e, s => (fbGetUserByEmail s e).map (fun r => (Out.optDoc r, s))
  | .createUser d, s => let p := fbCreateUser s d; Except.ok (Out.doc p.1, p.2)
  | .updateUser i d, s => (fbUpdateUser s i d).map (fun p => (Out.optDoc p.1, p.2))
  | .getProducts u, s => (fbGetProducts s u).map (fun r => (Out.docs r, s))
  | .getProduct i, s => (fbGetProduct s i).map (fun r => (Out.optDoc r, s))
  | .createProduct d, s => let p := fbCreateProduct s d; Except.ok (Out.doc p.1, p.2)
  | .updateProduct i d, s => (fbUpdateProduct s i d).map (fun p => (Out.optDoc p.1, p.2))
  | .deleteProduct i, s => (fbDeleteProduct s i).map (fun p => (Out.bool p.1, p.2))
  | .getCheckoutPages u, s => (fbGetCheckoutPages s u).map (fun r => (Out.pairs r, s))
  | .getCheckoutPage i, s => (fbGetCheckoutPage s i).map (fun r => (Out.optPair r, s))
  | .getCheckoutPageBySlug g, s => (fbGetCheckoutPageBySlug s g).map (fun r => (Out.optPair r, s))
  | .createCheckoutPage d, s => let p := fbCreateCheckoutPage s d; Except.ok (Out.doc p.1, p.2)
  | .updateCheckoutPage i d, s => (fbUpdateCheckoutPage s i d).map (fun p => (Out.optDoc p.1, p.2))
  | .deleteCheckoutPage i, s => (fbDeleteCheckoutPage s i).map (fun p => (Out.bool p.1, p.2))
  | .getCoupons u, s => (fbGetCoupons s u).map (fun r => (Out.docs r, s))
  | .getCoupon i, s => (fbGetCoupon s i).map (fun r => (Out.optDoc r, s))
  | .getCouponByCode c u, s => (fbGetCouponByCode s c u).map (fun r => (Out.optDoc r, s))
  | .createCoupon d, s => let p := fbCreateCoupon s d; Except.ok (Out.doc p.1, p.2)
  | .updateCoupon i d, s => (fbUpdateCoupon s i d).map (fun p => (Out.optDoc p.1, p.2))
  | .deleteCoupon i, s => (fbDeleteCoupon s i).map (fun p => (Out.bool p.1, p.2))
  | .getCustomers u, s => (fbGetCustomers s u).map (fun r => (Out.docs r, s))
  | .getCustomer i, s => (fbGetCustomer s i).map (fun r => (Out.optDoc r, s))
  | .getCustomerByEmail e u, s => (fbGetCustomerByEmail s e u).map (fun r => (Out.optDoc r, s))
  | .createCustomer d, s => let p := fbCreateCustomer s d; Except.ok (Out.doc p.1, p.2)
  | .updateCustomer i d, s => (fbUpdateCustomer s i d).map (fun p => (Out.optDoc p.1, p.2))
  | .getOrders u, s => (fbGetOrders s u).map (fun r => (Out.ordersOut r, s))
  | .getOrder i, s => (fbGetOrder s i).map (fun r => (Out.optOrderOut r, s))
  | .createOrder d, s => let p := fbCreateOrder s d; Except.ok (Out.doc p.1, p.2)
  | .updateOrder i d, s => (fbUpdateOrder s i d).map (fun p => (Out.optDoc p.1, p.2))
  | .createOrderItem d, s => let p := fbCreateOrderItem s d; Except.ok (Out.doc p.1, p.2)
  | .getOrderItems oid, s => (fbGetOrderItems s oid).map (fun r => (Out.pairs r, s))
  | .getEmailTemplates u, s => (fbGetEmailTemplates s u).map (fun r => (Out.docs r, s))
  | .getEmailTemplate i, s => (fbGetEmailTemplate s i).map (fun r => (Out.optDoc r, s))
  | .createEmailTemplate d, s => let p := fbCreateEmailTemplate s d; Except.ok (Out.doc p.1, p.2)
  | .updateEmailTemplate i d, s => (fbUpdateEmailTemplate s i d).map (fun p => (Out.optDoc p.1, p.2))
  | .deleteEmailTemplate i, s => (fbDeleteEmailTemplate s i).map (fun p => (Out.bool p.1, p.2))
  | .createPixelEvent d, s => let p := fbCreatePixelEvent s d; Except.ok (Out.doc p.1, p.2)
  | .getPixelEvents u lim, s => (fbGetPixelEvents s u lim).map (fun r => (Out.docs r, s))
  | .createAbandonedCart d, s => let p := fbCreateAbandonedCart s d; Except.ok (Out.doc p.1, p.2)
  | .getAbandonedCarts u, s => (fbGetAbandonedCarts s u).map (fun r => (Out.docs r, s))
  | .updateAbandonedCart i d, s => (fbUpdateAbandonedCart s i d).map (fun p => (Out.optDoc p.1, p.2))

def runDb : Op → St → Out × St
  | .getUser i, s => (Out.optDoc (dbGetUser s i), s)
  | .getUserByEmail e, s => (Out.optDoc (dbGetUserByEmail s e), s)
  | .createUser d, s => let p := dbCreateUser s d; (Out.doc p.1, p.2)
  | .updateUser i d, s => let p := dbUpdateUser s i d; (Out.optDoc p.1, p.2)
  | .getProducts u, s => (Out.docs (dbGetProducts s u), s)
  | .getProduct i, s => (Out.optDoc (dbGetProduct s i), s)
  | .createProduct d, s => let p := dbCreateProduct s d; (Out.doc p.1, p.2)
  | .updateProduct i d, s => let p := dbUpdateProduct s i d; (Out.optDoc p.1, p.2)
  | .deleteProduct i, s => let p := dbDeleteProduct s i; (Out.bool p.1, p.2)
  | .getCheckoutPages u, s => (Out.pairs (dbGetCheckoutPages s u), s)
  | .getCheckoutPage i, s => (Out.optPair (dbGetCheckoutPage s i), s)
  | .getCheckoutPageBySlug g, s => (Out.optPair (dbGetCheckoutPageBySlug s g), s)
  | .createCheckoutPage d, s => let p := dbCreateCheckoutPage s d; (Out.doc p.1, p.2)
  | .updateCheckoutPage i d, s => let p := dbUpdateCheckoutPage s i d; (Out.optDoc p.1, p.2)
  | .deleteCheckoutPage i, s => let p := dbDeleteCheckoutPage s i; (Out.bool p.1, p.2)
  | .getCoupons u, s => (Out.docs (dbGetCoupons s u), s)
  | .getCoupon i, s => (Out.optDoc (dbGetCoupon s i), s)
  | .getCouponByCode c u, s => (Out.optDoc (dbGetCouponByCode s c u), s)
  | .createCoupon d, s => let p := dbCreateCoupon s d; (Out.doc p.1, p.2)
  | .updateCoupon i d, s => let p := dbUpdateCoupon s i d; (Out.optDoc p.1, p.2)
  | .deleteCoupon i, s => let p := dbDeleteCoupon s i; (Out.bool p.1, p.2)
  | .getCustomers u, s => (Out.docs (dbGetCustomers s u), s)
  | .getCustomer i, s => (Out.optDoc (dbGetCustomer s i), s)
  | .getCustomerByEmail e u, s => (Out.optDoc (dbGetCustomerByEmail s e u), s)
  | .createCustomer d, s => let p := dbCreateCustomer s d; (Out.doc p.1, p.2)
  | .updateCustomer i d, s => let p := dbUpdateCustomer s i d; (Out.optDoc p.1, p.2)
  | .getOrders u, s => (Out.ordersOut (dbGetOrders s u), s)
  | .getOrder i, s => (Out.optOrderOut (dbGetOrder s i), s)
  | .createOrder d, s => let p := dbCreateOrder s d; (Out.doc p.1, p.2)
  | .updateOrder i d, s => let p := dbUpdateOrder s i d; (Out.optDoc p.1, p.2)
  | .createOrderItem d, s => let p := dbCreateOrderItem s d; (Out.doc p.1, p.2)
  | .getOrderItems oid, s => (Out.pairs (dbGetOrderItems s oid), s)
  | .getEmailTemplates u, s => (Out.docs (dbGetEmailTemplates s u), s)
  | .getEmailTemplate i, s => (Out.optDoc (dbGetEmailTemplate s i), s)
  | .createEmailTemplate d, s => let p := dbCreateEmailTemplate s d; (Out.doc p.1, p.2)
  | .updateEmailTemplate i d, s => let p := dbUpdateEmailTemplate s i d; (Out.optDoc p.1, p.2)
  | .deleteEmailTemplate i, s => let p := dbDeleteEmailTemplate s i; (Out.bool p.1, p.2)
  | .createPixelEvent d, s => let p := dbCreatePixelEvent s d; (Out.doc p.1, p.2)
  | .getPixelEvents u lim, s => (Out.docs (dbGetPixelEvents s u lim), s)
  | .createAbandonedCart d, s => let p := dbCreateAbandonedCart s d; (Out.doc p.1, p.2)
  | .getAbandonedCarts u, s => (Out.docs (dbGetAbandonedCarts s u), s)
  | .updateAbandonedCart i d, s => let p := dbUpdateAbandonedCart s i d; (Out.optDoc p.1, p.2)

/-- A trace entry: the wall-clock instant at which the operation runs,
and the operation. -/
abbrev Trace := List (Int × Op)

def runFbTrace : Trace → St → List (Except Nat Out) × St
  | [], s => ([], s)
  | (t, op) :: rest, s =>
    let s0 : St := { s with now := t }
    match runFb op s0 with
    | .ok (o, s1) => let p := runFbTrace rest s1; (.ok o :: p.1, p.2)
    | .error e => let p := runFbTrace rest s0; (.error e :: p.1, p.2)

def runDbTrace : Trace → St → List Out × St
  | [], s => ([], s)
  | (t, op) :: rest, s =>
    let s0 : St := { s with now := t }
    let (o, s1) := runDb op s0
    let p := runDbTrace rest s1
    (o :: p.1, p.2)

/-- The constraint error (if any) Postgres raises for one contract
operation in a given relational state; reads raise none. -/
def dbConErr : Op → St → Option Nat
  | .createUser d, s => insConErr .users usersCols s d
  | .createProduct d, s => insConErr .products productsCols s d
  | .createCheckoutPage d, s => insConErr .checkoutPages checkoutPagesCols s d
  | .createCoupon d, s => insConErr .coupons couponsCols s d
  | .createCustomer d, s => insConErr .customers customersCols s d
  | .createOrder d, s => insConErr .orders ordersCols s d
  | .createOrderItem d, s => insConErr .orderItems orderItemsCols s d
  | .createEmailTemplate d, s => insConErr .emailTemplates emailTemplatesCols s d
  | .createPixelEvent d, s => insConErr .pixelEvents pixelEventsCols s d
  | .createAbandonedCart d, s => insConErr .abandonedCarts abandonedCartsCols s d
  | .updateUser i d, s => updConErr .users s i d
  | .updateProduct i d, s => updConErr .products s i d
  | .updateCheckoutPage i d, s => updConErr .checkoutPages s i d
  | .updateCoupon i d, s => updConErr .coupons s i d
  | .updateCustomer i d, s => updConErr .customers s i d
  | .updateOrder i d, s => updConErr .orders s i d
  | .updateEmailTemplate i d, s => updConErr .emailTemplates s i d
  | .updateAbandonedCart i d, s => updConErr .abandonedCarts s i d
  | .deleteProduct i, s => delConErr .products s i
  | .deleteCheckoutPage i, s => delConErr .checkoutPages s i
  | .deleteCoupon i, s => delConErr .coupons s i
  | .deleteEmailTemplate i, s => delConErr .emailTemplates s i
  | _, _ => none

/-- `runDb` with the schema's constraint errors restored: the relational
backend propagates them to the caller, as `DatabaseStorage` has no
try/catch around its queries. -/
def runDbE (op : Op) (s : St) : Except Nat (Out × St) :=
  match dbConErr op s with
  | some e => .error e
  | none => .ok (runDb op s)

def runDbTraceE : Trace → St → Except Nat (List Out × St)
  | [], s => .ok ([], s)
  | (t, op) :: rest, s =>
    match runDbE op { s with now := t } with
    | .error e => .error e
    | .ok p =>
      match runDbTraceE rest p.2 with
      | .error e => .error e
      | .ok q => .ok (p.1 :: q.1, q.2)

/-- Constraint-safety of a trace: no operation along the relational
execution trips a schema constraint. -/
def ConTrace : Trace → St → Bool
  | [], _ => true
  | (t, op) :: rest, s =>
    (dbConErr op { s with now := t }).isNone
      && ConTrace rest (runDb op { s with now := t }).2

/-!  Basic computation lemmas. -/

@[simp] theorem errBind {α β : Type} (e : Nat) (f : α → Except Nat β) :
    (Except.error e >>= f) = Except.error e := rfl

@[simp] theorem okBind {α β : Type} (a : α) (f : α → Except Nat β) :
    (Except.ok a >>= f : Except Nat β) = f a := rfl

@[simp] theorem catch5_err5 {α : Type} (d : α) :
    catch5 (Except.error 5) d = Except.ok d := rfl

@[simp] theorem catch5_ok {α : Type} (a d : α) :
    catch5 (Except.ok a) d = Except.ok a := rfl

theorem fbRead_absent {s : St} {c : CollName}
    (h : (Store.coll s.store c).present = false) : fbRead s c = .error 5 := by
  unfold fbRead
  rw [h]
  simp

theorem fbRead_present {s : St} {c : CollName}
    (h : (Store.coll s.store c).present = true) :
    fbRead s c = .ok (Store.coll s.store c).entries := by
  unfold fbRead
  rw [h]
  simp

@[simp] theorem dGet_dSet_self (d : Doc) (k : String) (v : Value) :
    dGet (dSet d k v) k = some v := by
  induction d with
  | nil => simp [dSet, dGet]
  | cons kv rest ih =>
    by_cases h : kv.1 = k
    · simp [dSet, dGet, h]
    · simp [dSet, dGet, h, ih]

theorem dGet_dSet_ne (d : Doc) {k k' : String} (v : Value) (h : k' ≠ k) :
    dGet (dSet d k' v) k = dGet d k := by
  induction d with
  | nil => simp [dSet, dGet, h]
  | cons kv rest ih =>
    by_cases h2 : kv.1 = k'
    · simp [dSet, dGet, h2, h]
    · simp only [dSet, h2, if_false]
      by_cases h3 : kv.1 = k
      · simp [dGet, h3]
      · simp [dGet, h3, ih]

/-!  C3: translation of the store's "collection not found" error (code 5). -/

/-- C3 counterexample: `getOrder` on a fresh document store (its `orders`
collection not yet created) propagates the code-5 infrastructure error to
the caller instead of converting it to an absent value — the source method
(lines 519-533) has no try/catch. -/
theorem C3_counterexample : fbGetOrder freshSt "o-1" = .error 5 := rfl

/-- C3 (amended): every list/get read path of the document backend except
`getOrder`, `getOrderItems` and `getEmailTemplate` converts the store's
"collection not found" error (code 5) into an empty list or an absent
value; those three paths have no catch and propagate the error. -/
theorem C3_code5_translation (s : St) (i e u g code oid : String) (lim : Option Nat) :
    ((Store.coll s.store .users).present = false →
        fbGetUser s i = .ok none ∧ fbGetUserByEmail s e = .ok none)
    ∧ ((Store.coll s.store .products).present = false →
        fbGetProducts s u = .ok [] ∧ fbGetProduct s i = .ok none)
    ∧ ((Store.coll s.store .checkoutPages).present = false →
        fbGetCheckoutPages s u = .ok [] ∧ fbGetCheckoutPage s i = .ok none
          ∧ fbGetCheckoutPageBySlug s g = .ok none)
    ∧ ((Store.coll s.store .coupons).present = false →
        fbGetCoupons s u = .ok [] ∧ fbGetCoupon s i = .ok none
          ∧ fbGetCouponByCode s code u = .ok none)
    ∧ ((Store.coll s.store .customers).present = false →
        fbGetCustomers s u = .ok [] ∧ fbGetCustomer s i = .ok none
          ∧ fbGetCustomerByEmail s e u = .ok none)
    ∧ ((Store.coll s.store .orders).present = false →
        fbGetOrders s u = .ok [] ∧ fbGetOrder s i = .error 5)
    ∧ ((Store.coll s.store .orderItems).present = false →
        fbGetOrderItems s oid = .error 5)
    ∧ ((Store.coll s.store .emailTemplates).present = false →
        fbGetEmailTemplates s u = .ok [] ∧ fbGetEmailTemplate s i = .error 5)
    ∧ ((Store.coll s.store .pixelEvents).present = false →
        fbGetPixelEvents s u lim = .ok [])
    ∧ ((Store.coll s.store .abandonedCarts).present = false →
        fbGetAbandonedCarts s u = .ok []) := by
  refine ⟨?_, ?_, ?_, ?_, ?_, ?_, ?_, ?_, ?_, ?_⟩
  · intro h
    constructor
    · simp [fbGetUser, fbGetById, fbRead_absent h]
    · simp [fbGetUserByEmail, fbFindOne, fbRead_absent h]
  · intro h
    constructor
    · simp [fbGetProducts, fbList, fbRead_absent h]
    · simp [fbGetProduct, fbGetById, fbRead_absent h]
  · intro h
    refine ⟨?_, ?_, ?_⟩
    · simp [fbGetCheckoutPages, fbRead_absent h]
    · simp [fbGetCheckoutPage, fbRead_absent h]
    · simp [fbGetCheckoutPageBySlug, fbRead_absent h]
  · intro h
    refine ⟨?_, ?_, ?_⟩
    · simp [fbGetCoupons, fbList, fbRead_absent h]
    · simp [fbGetCoupon, fbGetById, fbRead_absent h]
    · simp [fbGetCouponByCode, fbFindOne, fbRead_absent h]
  · intro h
    refine ⟨?_, ?_, ?_⟩
    · simp [fbGetCustomers, fbList, fbRead_absent h]
    · simp [fbGetCustomer, fbGetById, fbRead_absent h]
    · simp [fbGetCustomerByEmail, fbFindOne, fbRead_absent h]
  · intro h
    constructor
    · simp only [fbGetOrders, fbRead_absent h, catch5_err5, okBind]
      rfl
    · simp [fbGetOrder, fbRead_absent h]
  · intro h
    simp [fbGetOrderItems, fbRead_absent h]
  · intro h
    constructor
    · simp [fbGetEmailTemplates, fbList, fbRead_absent h]
    · simp [fbGetEmailTemplate, fbGetById, fbRead_absent h]
  · intro h
    simp [fbGetPixelEvents, fbList, fbRead_absent h]
  · intro h
    simp [fbGetAbandonedCarts, fbList, fbRead_absent h]

/-- Witness for `C3_code5_translation` on the fresh store: a caught path
returns an empty value while an uncaught path errors. -/
theorem C3_code5_translation_witness :
    fbGetProducts freshSt "u-1" = .ok []
      ∧ fbGetEmailTemplate freshSt "t-1" = .error 5 :=
  ⟨((C3_code5_translation freshSt "t-1" "e" "u-1" "g" "c" "o" none).2.1 rfl).1,
   ((C3_code5_translation freshSt "t-1" "e" "u-1" "g" "c" "o" none).2.2.2.2.2.2.2.1 rfl).2⟩

/-!  C4: default hydration on create, in both backends. -/

/-- C4: creating a product without `downloadLimit` yields `downloadLimit = 5`
and without `isActive` yields `isActive = true`, and creating a coupon
always yields `usedCount = 0`, in the document backend and in the
relational backend alike.  (The relational coupon clause assumes the input
has no `usedCount` field, which the contract's `InsertCoupon` type — the
insert schema omits `usedCount` — guarantees; the document backend sets it
unconditionally.) -/
theorem C4_default_hydration (s : St) (input : Doc) :
    (dGet input "downloadLimit" = none →
        dGet (fbCreateProduct s input).1 "downloadLimit" = some (.num 5)
          ∧ dGet (dbCreateProduct s input).1 "downloadLimit" = some (.num 5))
    ∧ (dGet input "isActive" = none →
        dGet (fbCreateProduct s input).1 "isActive" = some (.bool true)
          ∧ dGet (dbCreateProduct s input).1 "isActive" = some (.bool true))
    ∧ dGet (fbCreateCoupon s input).1 "usedCount" = some (.num 0)
    ∧ (dGet input "usedCount" = none →
        dGet (dbCreateCoupon s input).1 "usedCount" = some (.num 0)) := by
  refine ⟨?_, ?_, ?_, ?_⟩
  · intro h
    constructor
    · simp only [fbCreateProduct, fbCreate, applyFlds, List.foldl]
      rw [dGet_dSet_ne _ _ (by decide), dGet_dSet_self, h]
      rfl
    · simp [dbCreateProduct, dbInsert, productsCols, colId, colNN, col, colD,
        colCreated, dGet, dbValue, dbDefault, h]
  · intro h
    constructor
    · simp only [fbCreateProduct, fbCreate, applyFlds, List.foldl]
      rw [dGet_dSet_self, h]
      rfl
    · simp [dbCreateProduct, dbInsert, productsCols, colId, colNN, col, colD,
        colCreated, dGet, dbValue, dbDefault, h]
  · simp only [fbCreateCoupon, fbCreate, applyFlds, List.foldl]
    rw [dGet_dSet_ne _ _ (by decide), dGet_dSet_self]
  · intro h
    simp [dbCreateCoupon, dbInsert, couponsCols, colId, colNN, col, colD,
      colCreated, dGet, dbValue, dbDefault, h]

/-- Witness for `C4_default_hydration` at a concrete input omitting both
defaulted fields. -/
theorem C4_default_hydration_witness :
    dGet (fbCreateProduct emptySt [("userId", .str "u"), ("name", .str "B"),
        ("price", .str "9.99")]).1 "downloadLimit" = some (.num 5)
      ∧ dGet (dbCreateProduct emptySt [("userId", .str "u"), ("name", .str "B"),
        ("price", .str "9.99")]).1 "isActive" = some (.bool true) :=
  ⟨((C4_default_hydration emptySt _).1 (by decide)).1,
   ((C4_default_hydration emptySt _).2.1 (by decide)).2⟩

/-!
Observable normalization.

The two backends represent the same observable result differently in three
inessential ways: the document store returns its native timestamp type
where the relational backend returns a date; an optional field that the
relational row carries as an explicit NULL is simply absent from a
document; and object key order differs.  `normDoc` maps a result object to
a canonical form — timestamps converted to dates, null/undefined fields
dropped, keys sorted — so that observational equivalence becomes equality
of normal forms.
-/

def normV : Value → Value
  | .ts t => .date t
  | v => v

def normOf (v : Value) : Option Value :=
  let v' := normV v
  if v' = .null ∨ v' = .undef then none else some v'

def normGet (d : Doc) (k : String) : Option Value :=
  (dGet d k).bind normOf

def normEntry (kv : String × Value) : Option (String × Value) :=
  match normOf kv.2 with
  | none => none
  | some v => some (kv.1, v)

def dKeys (d : Doc) : List String := d.map Prod.fst

@[simp] theorem dGet_nil (k : String) : dGet [] k = none := rfl

@[simp] theorem dGet_cons_self (k0 : String) (v0 : Value) (rest : Doc) :
    dGet ((k0, v0) :: rest) k0 = some v0 := by
  simp [dGet]

theorem dGet_cons_ne {k0 k : String} (v0 : Value) (rest : Doc) (h : k0 ≠ k) :
    dGet ((k0, v0) :: rest) k = dGet rest k := by
  simp [dGet, h]

def dedupAux : List String → Doc → Doc
  | _, [] => []
  | seen, kv :: rest =>
    if kv.1 ∈ seen then dedupAux seen rest
    else kv :: dedupAux (kv.1 :: seen) rest

def dedupKeys (d : Doc) : Doc := dedupAux [] d

/-- Lexicographic comparison of character lists, written out so that it
evaluates inside the kernel (used only by the canonicalization `normDoc`;
any total order on keys would do). -/
def charListLt : List Char → List Char → Bool
  | [], [] => false
  | [], _ :: _ => true
  | _ :: _, [] => false
  | c :: cs, d :: ds =>
    if c.toNat < d.toNat then true
    else if d.toNat < c.toNat then false
    else charListLt cs ds

def strLtB (a b : String) : Bool := charListLt a.data b.data

theorem charListLt_irrefl : ∀ l, charListLt l l = false
  | [] => rfl
  | c :: cs => by
    rw [charListLt, if_neg (Nat.lt_irrefl _), if_neg (Nat.lt_irrefl _)]
    exact charListLt_irrefl cs

theorem charListLt_trans : ∀ l1 l2 l3, charListLt l1 l2 = true →
    charListLt l2 l3 = true → charListLt l1 l3 = true
  | [], [], _, h1, _ => by cases h1
  | [], _ :: _, [], _, h2 => by cases h2
  | [], _ :: _, _ :: _, _, _ => rfl
  | _ :: _, [], _, h1, _ => by cases h1
  | _ :: _, _ :: _, [], _, h2 => by cases h2
  | c :: cs, d :: ds, e :: es, h1, h2 => by
    rw [charListLt] at h1 h2 ⊢
    by_cases hcd : c.toNat < d.toNat
    · by_cases hde : d.toNat < e.toNat
      · rw [if_pos (Nat.lt_trans hcd hde)]
      · rw [if_neg hde] at h2
        by_cases hed : e.toNat < d.toNat
        · rw [if_pos hed] at h2
          cases h2
        · have hde2 : d.toNat = e.toNat :=
            Nat.le_antisymm (Nat.le_of_not_lt hed) (Nat.le_of_not_lt hde)
          rw [if_pos (hde2 ▸ hcd)]
    · rw [if_neg hcd] at h1
      by_cases hdc : d.toNat < c.toNat
      · rw [if_pos hdc] at h1
        cases h1
      · rw [if_neg hdc] at h1
        have hcd2 : c.toNat = d.toNat :=
          Nat.le_antisymm (Nat.le_of_not_lt hdc) (Nat.le_of_not_lt hcd)
        by_cases hde : d.toNat < e.toNat
        · rw [if_pos (hcd2.symm ▸ hde)]
        · rw [if_neg hde] at h2
          by_cases hed : e.toNat < d.toNat
          · rw [if_pos hed] at h2
            cases h2
          · rw [if_neg hed] at h2
            have hce : ¬ c.toNat < e.toNat := by
              rw [hcd2]
              exact hde
            have hec : ¬ e.toNat < c.toNat := by
              rw [hcd2]
              exact hed
            rw [if_neg hce, if_neg hec]
            exact charListLt_trans cs ds es h1 h2

theorem charListLt_asymm {l1 l2 : List Char} (h : charListLt l1 l2 = true) :
    charListLt l2 l1 = false := by
  cases hc : charListLt l2 l1 with
  | false => rfl
  | true =>
    have h2 := charListLt_trans _ _ _ h hc
    rw [charListLt_irrefl] at h2
    cases h2

theorem char_toNat_inj {c d : Char} (h : c.toNat = d.toNat) : c = d :=
  Char.eq_of_val_eq (UInt32.eq_of_toBitVec_eq (by
    have := congrArg (fun n => BitVec.ofNat 32 n) h
    simpa [Char.toNat, UInt32.toNat] using this))

theorem charListLt_conn : ∀ l1 l2, charListLt l1 l2 = false →
    charListLt l2 l1 = false → l1 = l2
  | [], [], _, _ => rfl
  | [], _ :: _, h1, _ => by cases h1
  | _ :: _, [], _, h2 => by cases h2
  | c :: cs, d :: ds, h1, h2 => by
    rw [charListLt] at h1 h2
    by_cases hcd : c.toNat < d.toNat
    · rw [if_pos hcd] at h1
      cases h1
    · by_cases hdc : d.toNat < c.toNat
      · rw [if_pos hdc] at h2
        cases h2
      · rw [if_neg hcd, if_neg hdc] at h1
        rw [if_neg hdc, if_neg hcd] at h2
        have hc : c = d := char_toNat_inj
          (Nat.le_antisymm (Nat.le_of_not_lt hdc) (Nat.le_of_not_lt hcd))
        rw [hc, charListLt_conn cs ds h1 h2]

theorem strLtB_trans {a b c : String} (h1 : strLtB a b = true)
    (h2 : strLtB b c = true) : strLtB a c = true :=
  charListLt_trans _ _ _ h1 h2

theorem strLtB_asymm {a b : String} (h : strLtB a b = true) : strLtB b a = false :=
  charListLt_asymm h

theorem strLtB_conn {a b : String} (h1 : strLtB a b = false)
    (h2 : strLtB b a = false) : a = b := by
  have hd := charListLt_conn _ _ h1 h2
  cases a with
  | mk da =>
    cases b with
    | mk db => exact congrArg String.mk hd

def insKeyAsc (x : String × Value) : Doc → Doc
  | [] => [x]
  | y :: ys => if strLtB x.1 y.1 then x :: y :: ys else y :: insKeyAsc x ys

def sortKeysAsc (d : Doc) : Doc := d.foldr insKeyAsc []

def normDoc (d : Doc) : Doc := sortKeysAsc ((dedupKeys d).filterMap normEntry)

theorem dGet_eq_none_iff (d : Doc) (k : String) :
    dGet d k = none ↔ k ∉ dKeys d := by
  induction d with
  | nil => simp [dGet, dKeys]
  | cons kv rest ih =>
    by_cases h : kv.1 = k
    · subst h
      simp [dGet, dKeys]
    · simp only [dGet, if_neg h, dKeys, List.map_cons, List.mem_cons]
      rw [ih]
      constructor
      · intro hn hc
        rcases hc with hc | hc
        · exact h hc.symm
        · exact hn hc
      · intro hn hc
        exact hn (Or.inr hc)

theorem mem_dKeys_of_dGet {d : Doc} {k : String} {v : Value}
    (h : dGet d k = some v) : k ∈ dKeys d := by
  by_contra hc
  rw [← dGet_eq_none_iff] at hc
  rw [h] at hc
  cases hc

theorem dGet_mem_of_nodup {d : Doc} (hnd : (dKeys d).Nodup) (k : String) (v : Value) :
    dGet d k = some v ↔ (k, v) ∈ d := by
  induction d with
  | nil => simp
  | cons kv rest ih =>
    obtain ⟨k0, v0⟩ := kv
    simp only [dKeys, List.map_cons, List.nodup_cons] at hnd
    by_cases h : k0 = k
    · subst h
      rw [dGet_cons_self]
      constructor
      · intro hv
        have hv' := Option.some.inj hv
        rw [← hv']
        exact List.mem_cons_self _ _
      · intro hv
        rcases List.mem_cons.mp hv with hv | hv
        · injection hv with h1 h2
          rw [h2]
        · exact absurd (List.mem_map_of_mem Prod.fst hv) (by simpa [dKeys] using hnd.1)
    · rw [dGet_cons_ne _ _ h, ih hnd.2]
      constructor
      · intro hv
        exact List.mem_cons_of_mem _ hv
      · intro hv
        rcases List.mem_cons.mp hv with hv | hv
        · injection hv with h1 h2
          exact absurd h1.symm h
        · exact hv

theorem dGet_dedupAux (seen : List String) (d : Doc) (k : String) :
    dGet (dedupAux seen d) k = if k ∈ seen then none else dGet d k := by
  induction d generalizing seen with
  | nil =>
    rw [dedupAux]
    by_cases hk : k ∈ seen <;> simp [dGet, hk]
  | cons kv rest ih =>
    obtain ⟨k0, v0⟩ := kv
    by_cases hs : k0 ∈ seen
    · rw [dedupAux, if_pos hs, ih]
      by_cases hk : k ∈ seen
      · simp [hk]
      · have hne : ¬(k0 = k) := fun h => hk (h ▸ hs)
        simp [hk, dGet, hne]
    · rw [dedupAux, if_neg hs]
      by_cases he : k0 = k
      · subst he
        simp [dGet, hs]
      · simp only [dGet, if_neg he]
        rw [ih]
        have hke : ¬(k = k0) := fun h => he h.symm
        by_cases hk : k ∈ seen
        · simp [hk, List.mem_cons, hke]
        · simp [hk, List.mem_cons, hke]

theorem dGet_dedupKeys (d : Doc) (k : String) : dGet (dedupKeys d) k = dGet d k := by
  rw [dedupKeys, dGet_dedupAux]
  simp

theorem dedupAux_nodup (seen : List String) (d : Doc) :
    (dKeys (dedupAux seen d)).Nodup ∧ ∀ x ∈ dKeys (dedupAux seen d), x ∉ seen := by
  induction d generalizing seen with
  | nil => simp [dedupAux, dKeys]
  | cons kv rest ih =>
    by_cases hs : kv.1 ∈ seen
    · rw [dedupAux, if_pos hs]
      exact ih seen
    · rw [dedupAux, if_neg hs]
      have ih2 := ih (kv.1 :: seen)
      refine ⟨?_, ?_⟩
      · simp only [dKeys, List.map_cons, List.nodup_cons]
        constructor
        · intro hc
          exact absurd (List.mem_cons_self kv.1 seen) (ih2.2 kv.1 hc)
        · exact ih2.1
      · intro x hx
        simp only [dKeys, List.map_cons, List.mem_cons] at hx
        rcases hx with hx | hx
        · exact hx ▸ hs
        · intro hc
          exact ih2.2 x hx (List.mem_cons_of_mem _ hc)

theorem dedupKeys_nodup (d : Doc) : (dKeys (dedupKeys d)).Nodup :=
  (dedupAux_nodup [] d).1

theorem insKeyAsc_perm (x : String × Value) (l : Doc) :
    List.Perm (insKeyAsc x l) (x :: l) := by
  induction l with
  | nil => simp [insKeyAsc]
  | cons y ys ih =>
    rw [insKeyAsc]
    by_cases h : strLtB x.1 y.1 = true
    · simp [h]
    · rw [if_neg h]
      exact List.Perm.trans (List.Perm.cons y ih) (List.Perm.swap x y ys)

theorem sortKeysAsc_perm (d : Doc) : List.Perm (sortKeysAsc d) d := by
  induction d with
  | nil => simp [sortKeysAsc]
  | cons x xs ih =>
    rw [sortKeysAsc, List.foldr_cons]
    exact List.Perm.trans (insKeyAsc_perm x _) (List.Perm.cons x ih)

def keyLE (a b : String × Value) : Prop := strLtB b.1 a.1 = false

theorem insKeyAsc_sorted {l : Doc} (hl : l.Pairwise keyLE) (x : String × Value) :
    (insKeyAsc x l).Pairwise keyLE := by
  induction l with
  | nil => simp [insKeyAsc, keyLE]
  | cons y ys ih =>
    rw [insKeyAsc]
    rcases List.pairwise_cons.mp hl with ⟨hy, hys⟩
    by_cases h : strLtB x.1 y.1 = true
    · rw [if_pos h]
      refine List.pairwise_cons.mpr ⟨?_, hl⟩
      intro z hz
      rcases List.mem_cons.mp hz with hz | hz
      · rw [hz, keyLE]
        exact strLtB_asymm h
      · rw [keyLE]
        cases hc : strLtB z.1 x.1 with
        | false => rfl
        | true =>
          have hzy := strLtB_trans hc h
          have hy2 := hy z hz
          rw [keyLE] at hy2
          rw [hy2] at hzy
          cases hzy
    · rw [if_neg h]
      refine List.pairwise_cons.mpr ⟨?_, ih hys⟩
      intro z hz
      have hperm := insKeyAsc_perm x ys
      have hz2 := hperm.mem_iff.mp hz
      rcases List.mem_cons.mp hz2 with hz2 | hz2
      · rw [hz2, keyLE]
        simpa using h
      · exact hy z hz2

theorem sortKeysAsc_sorted (d : Doc) : (sortKeysAsc d).Pairwise keyLE := by
  induction d with
  | nil => simp [sortKeysAsc]
  | cons x xs ih =>
    rw [sortKeysAsc, List.foldr_cons]
    exact insKeyAsc_sorted ih x

theorem dGet_perm_of_nodup {d1 d2 : Doc} (hp : List.Perm d1 d2)
    (hnd : (dKeys d1).Nodup) (k : String) : dGet d1 k = dGet d2 k := by
  have hnd2 : (dKeys d2).Nodup := (hp.map Prod.fst).nodup_iff.mp hnd
  cases h1 : dGet d1 k with
  | none =>
    rw [dGet_eq_none_iff] at h1
    cases h2 : dGet d2 k with
    | none => rfl
    | some v =>
      exact absurd ((hp.map Prod.fst).mem_iff.mpr (mem_dKeys_of_dGet h2)) h1
  | some v =>
    have hm := (dGet_mem_of_nodup hnd k v).mp h1
    exact ((dGet_mem_of_nodup hnd2 k v).mpr (hp.mem_iff.mp hm)).symm

theorem filterMap_normEntry_keys_sublist (d : Doc) :
    List.Sublist (dKeys (d.filterMap normEntry)) (dKeys d) := by
  induction d with
  | nil => simp [dKeys]
  | cons kv rest ih =>
    cases h : normEntry kv with
    | none =>
      simp only [List.filterMap_cons, h, dKeys, List.map_cons]
      exact List.Sublist.cons _ ih
    | some w =>
      have hk : w.1 = kv.1 := by
        unfold normEntry at h
        cases h2 : normOf kv.2 with
        | none => rw [h2] at h; cases h
        | some v' => rw [h2] at h; cases h; rfl
      simp only [List.filterMap_cons, h, dKeys, List.map_cons, hk]
      exact List.Sublist.cons₂ _ ih

theorem dGet_filterMap_normEntry {d : Doc} (hnd : (dKeys d).Nodup) (k : String) :
    dGet (d.filterMap normEntry) k = normGet d k := by
  induction d with
  | nil => simp [dGet, normGet]
  | cons kv rest ih =>
    obtain ⟨k0, v0⟩ := kv
    simp only [dKeys, List.map_cons, List.nodup_cons] at hnd
    by_cases he : k0 = k
    · subst he
      cases h : normOf v0 with
      | none =>
        have hne : normEntry (k0, v0) = none := by simp [normEntry, h]
        simp only [List.filterMap_cons, hne]
        have hrest : dGet rest k0 = none := by
          rw [dGet_eq_none_iff]
          simpa [dKeys] using hnd.1
        have hfm : dGet (rest.filterMap normEntry) k0 = none := by
          rw [dGet_eq_none_iff]
          intro hc
          exact (dGet_eq_none_iff rest k0).mp hrest
            ((filterMap_normEntry_keys_sublist rest).mem hc)
        rw [hfm]
        simp [normGet, dGet, h]
      | some v' =>
        have hne : normEntry (k0, v0) = some (k0, v') := by simp [normEntry, h]
        simp only [List.filterMap_cons, hne]
        simp [normGet, dGet, h]
    · cases h2 : normOf v0 with
      | none =>
        have h : normEntry (k0, v0) = none := by simp [normEntry, h2]
        simp only [List.filterMap_cons, h]
        rw [ih hnd.2]
        simp [normGet, dGet, he]
      | some v' =>
        have h : normEntry (k0, v0) = some (k0, v') := by simp [normEntry, h2]
        simp only [List.filterMap_cons, h]
        rw [dGet, if_neg he, ih hnd.2]
        simp [normGet, dGet, he]

theorem filterMap_normEntry_nodup {d : Doc} (hnd : (dKeys d).Nodup) :
    (dKeys (d.filterMap normEntry)).Nodup :=
  (filterMap_normEntry_keys_sublist d).nodup hnd

theorem sortKeysAsc_nodup {d : Doc} (hnd : (dKeys d).Nodup) :
    (dKeys (sortKeysAsc d)).Nodup :=
  ((sortKeysAsc_perm d).map Prod.fst).nodup_iff.mpr hnd

theorem dGet_normDoc (d : Doc) (k : String) : dGet (normDoc d) k = normGet d k := by
  rw [normDoc]
  rw [dGet_perm_of_nodup (sortKeysAsc_perm _)
    (sortKeysAsc_nodup (filterMap_normEntry_nodup (dedupKeys_nodup d)))]
  rw [dGet_filterMap_normEntry (dedupKeys_nodup d)]
  unfold normGet
  rw [dGet_dedupKeys]

theorem canonical_ext {d1 d2 : Doc} (hs1 : d1.Pairwise keyLE) (hn1 : (dKeys d1).Nodup)
    (hs2 : d2.Pairwise keyLE) (hn2 : (dKeys d2).Nodup)
    (h : ∀ k, dGet d1 k = dGet d2 k) : d1 = d2 := by
  induction d1 generalizing d2 with
  | nil =>
    cases d2 with
    | nil => rfl
    | cons kv rest =>
      obtain ⟨k2, v2⟩ := kv
      have hx := h k2
      rw [dGet_cons_self] at hx
      cases hx
  | cons kv rest ih =>
    obtain ⟨k1, v1⟩ := kv
    cases d2 with
    | nil =>
      have hx := h k1
      rw [dGet_cons_self] at hx
      cases hx
    | cons kv2 rest2 =>
      obtain ⟨k2, v2⟩ := kv2
      rcases List.pairwise_cons.mp hs1 with ⟨hd1, ht1⟩
      rcases List.pairwise_cons.mp hs2 with ⟨hd2, ht2⟩
      simp only [dKeys, List.map_cons, List.nodup_cons] at hn1 hn2
      have hkeq : k1 = k2 := by
        by_cases hlt : strLtB k1 k2 = true
        · by_contra hne
          have h1 := h k1
          rw [dGet_cons_self, dGet_cons_ne _ _ (fun hc => hne hc.symm)] at h1
          have hmem := mem_dKeys_of_dGet h1.symm
          rcases List.mem_map.mp hmem with ⟨z, hz, hz2⟩
          have hle := hd2 z hz
          rw [keyLE, hz2] at hle
          rw [hle] at hlt
          cases hlt
        · by_cases hgt : strLtB k2 k1 = true
          · by_contra hne
            have h2 := h k2
            rw [dGet_cons_self, dGet_cons_ne _ _ hne] at h2
            have hmem := mem_dKeys_of_dGet h2
            rcases List.mem_map.mp hmem with ⟨z, hz, hz2⟩
            have hle := hd1 z hz
            rw [keyLE, hz2] at hle
            rw [hle] at hgt
            cases hgt
          · exact strLtB_conn (by simpa using hlt) (by simpa using hgt)
      subst hkeq
      have hveq : v1 = v2 := by
        have h1 := h k1
        rw [dGet_cons_self, dGet_cons_self] at h1
        cases h1
        rfl
      subst hveq
      have hrest : ∀ k, dGet rest k = dGet rest2 k := by
        intro k
        by_cases hk : k = k1
        · subst hk
          have e1 : dGet rest k = none := by
            rw [dGet_eq_none_iff]
            simpa [dKeys] using hn1.1
          have e2 : dGet rest2 k = none := by
            rw [dGet_eq_none_iff]
            simpa [dKeys] using hn2.1
          rw [e1, e2]
        · have h1 := h k
          rw [dGet_cons_ne _ _ (fun hc => hk hc.symm),
            dGet_cons_ne _ _ (fun hc => hk hc.symm)] at h1
          exact h1
      rw [ih ht1 hn1.2 ht2 hn2.2 hrest]

theorem normDoc_ext_iff (d1 d2 : Doc) :
    normDoc d1 = normDoc d2 ↔ ∀ k, normGet d1 k = normGet d2 k := by
  constructor
  · intro h k
    rw [← dGet_normDoc, ← dGet_normDoc, h]
  · intro h
    refine canonical_ext (sortKeysAsc_sorted _)
      (sortKeysAsc_nodup (filterMap_normEntry_nodup (dedupKeys_nodup d1)))
      (sortKeysAsc_sorted _)
      (sortKeysAsc_nodup (filterMap_normEntry_nodup (dedupKeys_nodup d2))) ?_
    intro k
    rw [dGet_normDoc, dGet_normDoc]
    exact h k

/-!  Compatibility of `normGet` with the document-building operations. -/

theorem normGet_dSet (d : Doc) (k k' : String) (v : Value) :
    normGet (dSet d k v) k' = if k' = k then normOf v else normGet d k' := by
  by_cases h : k' = k
  · subst h
    rw [normGet, dGet_dSet_self, if_pos rfl]
    rfl
  · rw [normGet, dGet_dSet_ne d v (fun hc => h hc.symm), if_neg h, normGet]

theorem mem_dKeys_dSet (d : Doc) (k : String) (v : Value) (x : String) :
    x ∈ dKeys (dSet d k v) ↔ (x ∈ dKeys d ∨ x = k) := by
  induction d with
  | nil => simp [dSet, dKeys]
  | cons kv rest ih =>
    obtain ⟨k0, v0⟩ := kv
    by_cases h : k0 = k
    · subst h
      have e : dSet ((k0, v0) :: rest) k0 v = (k0, v) :: rest := by simp [dSet]
      rw [e]
      simp only [dKeys, List.map_cons, List.mem_cons]
      tauto
    · have e : dSet ((k0, v0) :: rest) k v = (k0, v0) :: dSet rest k v := by simp [dSet, h]
      rw [e]
      simp only [dKeys, List.map_cons, List.mem_cons]
      rw [show (List.map Prod.fst (dSet rest k v) : List String) = dKeys (dSet rest k v)
          from rfl, ih]
      simp only [dKeys]
      tauto

theorem dKeys_dSet_nodup {d : Doc} (hnd : (dKeys d).Nodup) (k : String) (v : Value) :
    (dKeys (dSet d k v)).Nodup := by
  induction d with
  | nil => simp [dSet, dKeys]
  | cons kv rest ih =>
    obtain ⟨k0, v0⟩ := kv
    simp only [dKeys, List.map_cons, List.nodup_cons] at hnd
    by_cases h : k0 = k
    · subst h
      have e : dSet ((k0, v0) :: rest) k0 v = (k0, v) :: rest := by simp [dSet]
      rw [e]
      simp only [dKeys, List.map_cons, List.nodup_cons]
      exact ⟨by simpa [dKeys] using hnd.1, hnd.2⟩
    · have e : dSet ((k0, v0) :: rest) k v = (k0, v0) :: dSet rest k v := by simp [dSet, h]
      rw [e]
      simp only [dKeys, List.map_cons, List.nodup_cons]
      refine ⟨?_, ih hnd.2⟩
      intro hc
      rw [show (List.map Prod.fst (dSet rest k v) : List String) = dKeys (dSet rest k v)
          from rfl, mem_dKeys_dSet] at hc
      rcases hc with hc | hc
      · exact absurd hc (by simpa [dKeys] using hnd.1)
      · exact h hc

theorem dSetMany_cons (d : Doc) (kv : String × Value) (p : Doc) :
    dSetMany d (kv :: p) = dSetMany (dSet d kv.1 kv.2) p := rfl

theorem normGet_dSetMany {p : Doc} (hp : (dKeys p).Nodup) (d : Doc) (k : String) :
    normGet (dSetMany d p) k =
      match dGet p k with
      | some v => normOf v
      | none => normGet d k := by
  induction p generalizing d with
  | nil => rfl
  | cons kv rest ih =>
    obtain ⟨k0, v0⟩ := kv
    simp only [dKeys, List.map_cons, List.nodup_cons] at hp
    rw [dSetMany_cons, ih hp.2]
    by_cases h : k = k0
    · subst h
      have hrest : dGet rest k = none := by
        rw [dGet_eq_none_iff]
        simpa [dKeys] using hp.1
      rw [hrest, dGet_cons_self, normGet_dSet, if_pos rfl]
    · rw [dGet_cons_ne _ _ (fun hc => h hc.symm)]
      cases hr : dGet rest k with
      | some v => rfl
      | none =>
        rw [normGet_dSet, if_neg h]

theorem dKeys_dSetMany_nodup {d : Doc} (hnd : (dKeys d).Nodup) (p : Doc) :
    (dKeys (dSetMany d p)).Nodup := by
  induction p generalizing d with
  | nil => exact hnd
  | cons kv rest ih =>
    rw [dSetMany_cons]
    exact ih (dKeys_dSet_nodup hnd kv.1 kv.2)

theorem dKeys_serialize_sublist (d : Doc) :
    List.Sublist (dKeys (serializeForFirestore d)) (dKeys d) :=
  List.Sublist.map Prod.fst (List.filter_sublist d)

theorem serialize_nodup {d : Doc} (hnd : (dKeys d).Nodup) :
    (dKeys (serializeForFirestore d)).Nodup :=
  (dKeys_serialize_sublist d).nodup hnd

theorem normGet_serialize {d : Doc} (hnd : (dKeys d).Nodup) (k : String) :
    normGet (serializeForFirestore d) k = normGet d k := by
  induction d with
  | nil => rfl
  | cons kv rest ih =>
    obtain ⟨k0, v0⟩ := kv
    simp only [dKeys, List.map_cons, List.nodup_cons] at hnd
    by_cases hu : v0 = Value.undef
    · subst hu
      have : serializeForFirestore ((k0, Value.undef) :: rest) = serializeForFirestore rest := by
        simp [serializeForFirestore]
      rw [this, ih hnd.2]
      by_cases h : k = k0
      · subst h
        have hrest : dGet rest k = none := by
          rw [dGet_eq_none_iff]
          simpa [dKeys] using hnd.1
        rw [normGet, hrest, normGet, dGet_cons_self]
        rfl
      · rw [normGet, normGet, dGet_cons_ne _ _ (fun hc => h hc.symm)]
    · have : serializeForFirestore ((k0, v0) :: rest)
          = (k0, v0) :: serializeForFirestore rest := by
        simp [serializeForFirestore, hu]
      rw [this]
      by_cases h : k = k0
      · subst h
        rw [normGet, dGet_cons_self, normGet, dGet_cons_self]
      · rw [normGet, normGet, dGet_cons_ne _ _ (fun hc => h hc.symm),
          dGet_cons_ne _ _ (fun hc => h hc.symm)]
        exact ih hnd.2

theorem dGet_storeTimestamps (d : Doc) (k : String) :
    dGet (storeTimestamps d) k
      = (dGet d k).map (fun v => match v with | .date t => Value.ts t | v => v) := by
  induction d with
  | nil => rfl
  | cons kv rest ih =>
    obtain ⟨k0, v0⟩ := kv
    by_cases h : k = k0
    · subst h
      rw [show storeTimestamps ((k, v0) :: rest)
          = (k, match v0 with | .date t => Value.ts t | v => v) :: storeTimestamps rest
          from rfl, dGet_cons_self, dGet_cons_self]
      rfl
    · rw [show storeTimestamps ((k0, v0) :: rest)
          = (k0, match v0 with | .date t => Value.ts t | v => v) :: storeTimestamps rest
          from rfl, dGet_cons_ne _ _ (fun hc => h hc.symm),
          dGet_cons_ne _ _ (fun hc => h hc.symm), ih]

theorem dKeys_storeTimestamps (d : Doc) : dKeys (storeTimestamps d) = dKeys d := by
  rw [storeTimestamps, dKeys, List.map_map, dKeys]
  rfl

theorem normGet_storeTimestamps (d : Doc) (k : String) :
    normGet (storeTimestamps d) k = normGet d k := by
  rw [normGet, normGet, dGet_storeTimestamps]
  cases dGet d k with
  | none => rfl
  | some v => cases v <;> rfl

/-!  Timestamp conversion on reads. -/

def dateishO : Option Value → Prop
  | none => True
  | some .null => True
  | some .undef => True
  | some (.date _) => True
  | some (.ts _) => True
  | some _ => False

theorem normOf_toDate_eq {o : Option Value} (h : dateishO o) :
    normOf (toDate o) = o.bind normOf := by
  cases o with
  | none => rfl
  | some v => cases v <;> first | rfl | exact absurd h (by simp [dateishO])

theorem toDate_dateish (o : Option Value) : dateishO (some (toDate o)) := by
  cases o with
  | none => simp [toDate, dateishO]
  | some v =>
    cases v with
    | str s => by_cases hs : s = "" <;> simp [toDate, hs, dateishO]
    | null => simp [toDate, dateishO]
    | undef => simp [toDate, dateishO]
    | num n => simp [toDate, dateishO]
    | bool b => simp [toDate, dateishO]
    | date t => simp [toDate, dateishO]
    | ts t => simp [toDate, dateishO]
    | json j => simp [toDate, dateishO]

def hydrateConv (conv : List String) (d : Doc) : Doc :=
  conv.foldl (fun acc k => dSet acc k (toDate (dGet acc k))) d

theorem hydrateConv_normGet (conv : List String) (d : Doc)
    (h : ∀ k ∈ conv, dateishO (dGet d k)) (k' : String) :
    normGet (hydrateConv conv d) k' = normGet d k' := by
  induction conv generalizing d with
  | nil => rfl
  | cons c0 rest ih =>
    rw [hydrateConv, List.foldl_cons]
    have hstep : ∀ k'', normGet (dSet d c0 (toDate (dGet d c0))) k'' = normGet d k'' := by
      intro k''
      rw [normGet_dSet]
      by_cases hk : k'' = c0
      · subst hk
        rw [if_pos rfl, normOf_toDate_eq (h k'' (List.mem_cons_self _ _)), normGet]
      · rw [if_neg hk]
    have hinv : ∀ k ∈ rest, dateishO (dGet (dSet d c0 (toDate (dGet d c0))) k) := by
      intro k hk
      by_cases he : k = c0
      · subst he
        rw [dGet_dSet_self]
        exact toDate_dateish _
      · rw [dGet_dSet_ne _ _ (fun hc => he hc.symm)]
        exact h k (List.mem_cons_of_mem _ hk)
    rw [show (rest.foldl (fun acc k => dSet acc k (toDate (dGet acc k)))
        (dSet d c0 (toDate (dGet d c0))))
        = hydrateConv rest (dSet d c0 (toDate (dGet d c0))) from rfl]
    rw [ih _ hinv, hstep]

/-!  Reading strings and sort keys through normalization. -/

def normStr (o : Option Value) : String :=
  match o.bind normOf with
  | some (.str s) => s
  | _ => ""

theorem asStr_eq_normStr (o : Option Value) : asStr o = normStr o := by
  cases o with
  | none => rfl
  | some v => cases v <;> rfl

def normKeyI (o : Option Value) : Int :=
  match o.bind normOf with
  | some (.date t) => t
  | _ => 0

theorem createdKey_eq_normKeyI (d : Doc) : createdKey d = normKeyI (dGet d "createdAt") := by
  rw [createdKey, normKeyI]
  cases dGet d "createdAt" with
  | none => rfl
  | some v => cases v <;> rfl

theorem normOf_eq_str {v : Value} {x : String} (h : normOf v = some (.str x)) :
    v = .str x := by
  cases v <;> simp [normOf, normV] at h <;> rw [h]

theorem dGet_str_iff_of_normGet {d1 d2 : Doc} {k : String}
    (h : normGet d1 k = normGet d2 k) (x : String) :
    dGet d1 k = some (.str x) ↔ dGet d2 k = some (.str x) := by
  constructor
  · intro h1
    have hh : normGet d2 k = some (.str x) := by
      rw [← h, normGet, h1]
      rfl
    rw [normGet] at hh
    cases h2 : dGet d2 k with
    | none => rw [h2] at hh; cases hh
    | some v =>
      rw [h2] at hh
      exact congrArg some (normOf_eq_str hh)
  · intro h2
    have hh : normGet d1 k = some (.str x) := by
      rw [h, normGet, h2]
      rfl
    rw [normGet] at hh
    cases h1 : dGet d1 k with
    | none => rw [h1] at hh; cases hh
    | some v =>
      rw [h1] at hh
      exact congrArg some (normOf_eq_str hh)

/-!
The backend simulation relation.

A document-store document and a relational row represent the same entity
when they normalize to the same object, are well-typed for the entity's
columns, and carry their entry key in their `id` field.
-/

def tyStored : ColTy → Value → Bool
  | _, .null => true
  | .tStr, .str _ => true
  | .tInt, .num _ => true
  | .tBool, .bool _ => true
  | .tDec, .str _ => true
  | .tDate, .date _ => true
  | .tDate, .ts _ => true
  | .tJson, .json _ => true
  | _, _ => false

def colFind (cols : List Col) (k : String) : Option Col :=
  cols.find? (fun c => c.name == k)

def StoredWf (cols : List Col) (d : Doc) : Prop :=
  (dKeys d).Nodup
  ∧ ∀ kv ∈ d, ∃ c, colFind cols kv.1 = some c ∧ tyStored c.ty kv.2 = true

def entryRel (cols : List Col) (x y : String × Doc) : Prop :=
  x.1 = y.1
  ∧ normDoc x.2 = normDoc y.2
  ∧ StoredWf cols x.2 ∧ StoredWf cols y.2
  ∧ dGet x.2 "id" = some (.str x.1) ∧ dGet y.2 "id" = some (.str y.1)

def Rel (a b : St) : Prop :=
  a.nextId = b.nextId ∧ a.now = b.now
  ∧ ∀ c : CollName,
      (Store.coll a.store c).present = true
      ∧ (Store.coll b.store c).present = true
      ∧ List.Forall₂ (entryRel (colsOf c)) (Store.coll a.store c).entries
          (Store.coll b.store c).entries

theorem entryRel_normGet {cols : List Col} {x y : String × Doc}
    (h : entryRel cols x y) (k : String) : normGet x.2 k = normGet y.2 k :=
  (normDoc_ext_iff _ _).mp h.2.1 k

theorem mem_of_dGet {d : Doc} {k : String} {v : Value} (h : dGet d k = some v) :
    (k, v) ∈ d := by
  induction d with
  | nil => cases h
  | cons kv rest ih =>
    obtain ⟨k0, v0⟩ := kv
    by_cases he : k0 = k
    · subst he
      rw [dGet_cons_self] at h
      exact List.mem_cons.mpr (Or.inl (by injection h with h2; rw [h2]))
    · rw [dGet_cons_ne _ _ he] at h
      exact List.mem_cons_of_mem _ (ih h)

theorem stored_ty {cols : List Col} {d : Doc} (hw : StoredWf cols d) {k : String}
    {v : Value} (h : dGet d k = some v) :
    ∃ c, colFind cols k = some c ∧ tyStored c.ty v = true :=
  hw.2 (k, v) (mem_of_dGet h)

def convOk (cols : List Col) (conv : List String) : Bool :=
  conv.all (fun k => match colFind cols k with
    | some c => c.ty == ColTy.tDate
    | none => false)
  && decide (("id" : String) ∉ conv)

theorem stored_dateish {cols : List Col} {d : Doc} (hw : StoredWf cols d)
    {k : String} {c : Col} (hc : colFind cols k = some c) (hty : c.ty = .tDate) :
    dateishO (dGet d k) := by
  cases h : dGet d k with
  | none => trivial
  | some v =>
    obtain ⟨c', hc', ht⟩ := stored_ty hw h
    rw [hc] at hc'
    injection hc' with hc2
    subst hc2
    rw [hty] at ht
    cases v <;> first | trivial | (simp [tyStored] at ht)

/-!  `Forall₂` transport along the query pipeline. -/

theorem forall₂_filter_congr {α β : Type} {R : α → β → Prop} {p : α → Bool} {q : β → Bool}
    {l1 : List α} {l2 : List β} (h : List.Forall₂ R l1 l2)
    (hpq : ∀ x y, R x y → p x = q y) :
    List.Forall₂ R (l1.filter p) (l2.filter q) := by
  induction h with
  | nil => exact List.Forall₂.nil
  | cons hxy htail ih =>
    rename_i x y t1 t2
    rw [List.filter_cons, List.filter_cons, ← hpq x y hxy]
    cases hp : p x with
    | true => simpa using List.Forall₂.cons hxy ih
    | false => simpa using ih

theorem forall₂_insertDesc {α : Type} {R : α → α → Prop} {key : α → Int}
    (hkey : ∀ x y, R x y → key x = key y) {x y : α} (hxy : R x y)
    {l1 l2 : List α} (h : List.Forall₂ R l1 l2) :
    List.Forall₂ R (insertDesc key x l1) (insertDesc key y l2) := by
  induction h with
  | nil => exact List.Forall₂.cons hxy List.Forall₂.nil
  | cons hab htail ih =>
    rename_i a b t1 t2
    rw [insertDesc, insertDesc, hkey x y hxy, hkey a b hab]
    by_cases hlt : key y < key b
    · rw [if_pos hlt, if_pos hlt]
      exact List.Forall₂.cons hab ih
    · rw [if_neg hlt, if_neg hlt]
      exact List.Forall₂.cons hxy (List.Forall₂.cons hab htail)

theorem forall₂_sortDesc {α : Type} {R : α → α → Prop} {key : α → Int}
    (hkey : ∀ x y, R x y → key x = key y) {l1 l2 : List α}
    (h : List.Forall₂ R l1 l2) :
    List.Forall₂ R (sortByKeyDesc key l1) (sortByKeyDesc key l2) := by
  induction h with
  | nil => exact List.Forall₂.nil
  | cons hxy htail ih =>
    rw [sortByKeyDesc, sortByKeyDesc]
    exact forall₂_insertDesc hkey hxy ih

theorem forall₂_take {α β : Type} {R : α → β → Prop} (n : Nat) {l1 : List α}
    {l2 : List β} (h : List.Forall₂ R l1 l2) :
    List.Forall₂ R (l1.take n) (l2.take n) := by
  induction h generalizing n with
  | nil => simp [List.Forall₂.nil]
  | cons hxy htail ih =>
    cases n with
    | zero => simp [List.Forall₂.nil]
    | succ m =>
      rw [List.take_cons_succ, List.take_cons_succ]
      exact List.Forall₂.cons hxy (ih m)

theorem map_eq_of_forall₂ {α β γ : Type} {R : α → β → Prop} {f : α → γ} {g : β → γ}
    {l1 : List α} {l2 : List β} (h : List.Forall₂ R l1 l2)
    (hfg : ∀ x y, R x y → f x = g y) : l1.map f = l2.map g := by
  induction h with
  | nil => rfl
  | cons hxy htail ih =>
    rename_i x y t1 t2
    rw [List.map_cons, List.map_cons, hfg x y hxy, ih]

theorem entriesFind_rel {cols : List Col} {l1 l2 : List (String × Doc)}
    (h : List.Forall₂ (entryRel cols) l1 l2) (i : String) :
    (entriesFind l1 i = none ∧ entriesFind l2 i = none)
    ∨ ∃ d1 d2, entriesFind l1 i = some d1 ∧ entriesFind l2 i = some d2
        ∧ entryRel cols (i, d1) (i, d2) := by
  induction h with
  | nil => exact Or.inl ⟨rfl, rfl⟩
  | cons hxy htail ih =>
    rename_i x y t1 t2
    obtain ⟨i1, d1⟩ := x
    obtain ⟨i2, d2⟩ := y
    have hkey : i1 = i2 := hxy.1
    subst hkey
    by_cases he : i1 = i
    · subst he
      rw [show entriesFind ((i1, d1) :: t1) i1 = some d1 from by simp [entriesFind],
        show entriesFind ((i1, d2) :: t2) i1 = some d2 from by simp [entriesFind]]
      exact Or.inr ⟨d1, d2, rfl, rfl, hxy⟩
    · rw [show entriesFind ((i1, d1) :: t1) i = entriesFind t1 i from by
          simp [entriesFind, he],
        show entriesFind ((i1, d2) :: t2) i = entriesFind t2 i from by
          simp [entriesFind, he]]
      exact ih

/-!  The relational `WHERE id = x` agrees with key lookup on rows whose
`id` column carries the entry key. -/

theorem whereEq_id_eq_filter_key {l : List (String × Doc)}
    (hid : ∀ e ∈ l, dGet e.2 "id" = some (.str e.1)) (i : String) :
    whereEq "id" (.str i) l = l.filter (fun e => decide (e.1 = i)) := by
  induction l with
  | nil => rfl
  | cons e rest ih =>
    have he := hid e (List.mem_cons_self _ _)
    have htl : ∀ x ∈ rest, dGet x.2 "id" = some (.str x.1) := fun x hx =>
      hid x (List.mem_cons_of_mem _ hx)
    rw [whereEq, List.filter_cons, List.filter_cons]
    have : (decide (dGet e.2 "id" = some (Value.str i)))
        = (decide (e.1 = i)) := by
      rw [he]
      by_cases hq : e.1 = i
      · subst hq
        simp
      · simp [hq]
    rw [this, ← whereEq, ih htl]

theorem entriesFind_eq_filter_head (l : List (String × Doc)) (i : String) :
    entriesFind l i = ((l.filter (fun e => decide (e.1 = i))).head?).map (fun e => e.2) := by
  induction l with
  | nil => rfl
  | cons e rest ih =>
    obtain ⟨k0, d0⟩ := e
    by_cases he : k0 = i
    · subst he
      simp [entriesFind, List.filter_cons]
    · simp [entriesFind, List.filter_cons, he, ih]

/-!  Read-path parity between the two backends. -/

theorem forall₂_mem_right {α β : Type} {R : α → β → Prop} {l1 : List α} {l2 : List β}
    (h : List.Forall₂ R l1 l2) {y : β} (hy : y ∈ l2) : ∃ x ∈ l1, R x y := by
  induction h with
  | nil => cases hy
  | cons hxy htail ih =>
    rcases List.mem_cons.mp hy with hy | hy
    · exact ⟨_, List.mem_cons_self _ _, hy ▸ hxy⟩
    · obtain ⟨x, hx, hr⟩ := ih hy
      exact ⟨x, List.mem_cons_of_mem _ hx, hr⟩

theorem whereEq_rel {cols : List Col} {k x : String} {l1 l2 : List (String × Doc)}
    (h : List.Forall₂ (entryRel cols) l1 l2) :
    List.Forall₂ (entryRel cols) (whereEq k (.str x) l1) (whereEq k (.str x) l2) :=
  forall₂_filter_congr h (fun e1 e2 he =>
    decide_eq_decide.mpr (dGet_str_iff_of_normGet (entryRel_normGet he k) x))

theorem normKeyI_congr {d1 d2 : Doc} {k : String}
    (h : normGet d1 k = normGet d2 k) : normKeyI (dGet d1 k) = normKeyI (dGet d2 k) := by
  unfold normKeyI
  rw [show (dGet d1 k).bind normOf = (dGet d2 k).bind normOf from h]

theorem normStr_congr {d1 d2 : Doc} {k : String}
    (h : normGet d1 k = normGet d2 k) : normStr (dGet d1 k) = normStr (dGet d2 k) := by
  unfold normStr
  rw [show (dGet d1 k).bind normOf = (dGet d2 k).bind normOf from h]

theorem entryRel_createdKey {cols : List Col} {x y : String × Doc}
    (h : entryRel cols x y) : createdKey x.2 = createdKey y.2 := by
  rw [createdKey_eq_normKeyI, createdKey_eq_normKeyI]
  exact normKeyI_congr (entryRel_normGet h "createdAt")

theorem sortCreated_rel {cols : List Col} {l1 l2 : List (String × Doc)}
    (h : List.Forall₂ (entryRel cols) l1 l2) :
    List.Forall₂ (entryRel cols)
      (sortByKeyDesc (fun e => createdKey e.2) l1)
      (sortByKeyDesc (fun e => createdKey e.2) l2) :=
  forall₂_sortDesc (fun x y hxy => entryRel_createdKey hxy) h

theorem fbHydrate_normGet {cols : List Col} {conv : List String} {idFirst : Bool}
    {i : String} {d : Doc} (hw : StoredWf cols d) (hid : dGet d "id" = some (.str i))
    (hc : convOk cols conv = true) (k : String) :
    normGet (fbHydrate idFirst conv i d) k = normGet d k := by
  have hcv := hc
  rw [convOk, Bool.and_eq_true] at hcv
  obtain ⟨hty, hnotid⟩ := hcv
  rw [List.all_eq_true] at hty
  rw [decide_eq_true_eq] at hnotid
  cases idFirst with
  | true =>
    rw [fbHydrate, if_pos rfl, normGet_dSetMany hw.1]
    cases hget : dGet d k with
    | some v =>
      show normOf v = normGet d k
      rw [normGet, hget]
      rfl
    | none =>
      show normGet [("id", Value.str i)] k = normGet d k
      by_cases hk : k = "id"
      · subst hk
        rw [hid] at hget
        cases hget
      · have h2 : dGet ([("id", Value.str i)] : Doc) k = none := by
          rw [dGet_cons_ne _ _ (fun hcx => hk hcx.symm)]
          rfl
        rw [normGet, h2, normGet, hget]
  | false =>
    rw [fbHydrate, if_neg (by simp)]
    have hbase : ∀ k', normGet (dSet d "id" (Value.str i)) k' = normGet d k' := by
      intro k'
      rw [normGet_dSet]
      by_cases h : k' = "id"
      · subst h
        rw [if_pos rfl, normGet, hid]
        rfl
      · rw [if_neg h]
    have hdate : ∀ k0 ∈ conv, dateishO (dGet (dSet d "id" (Value.str i)) k0) := by
      intro k0 hk0
      have hne : k0 ≠ "id" := fun hc2 => hnotid (hc2 ▸ hk0)
      rw [dGet_dSet_ne _ _ (fun hc2 => hne hc2.symm)]
      have := hty k0 hk0
      cases hcf : colFind cols k0 with
      | none => rw [hcf] at this; cases this
      | some cx =>
        rw [hcf] at this
        exact stored_dateish hw hcf (by simpa using this)
    rw [show (conv.foldl (fun acc k0 => dSet acc k0 (toDate (dGet acc k0)))
        (dSet d "id" (Value.str i))) = hydrateConv conv (dSet d "id" (Value.str i))
        from rfl]
    rw [hydrateConv_normGet _ _ hdate k, hbase k]

theorem entryRel_hydrate {cols : List Col} {conv : List String} {idFirst : Bool}
    {x y : String × Doc} (he : entryRel cols x y) (hc : convOk cols conv = true) :
    normDoc (fbHydrate idFirst conv x.1 x.2) = normDoc y.2 := by
  rw [normDoc_ext_iff]
  intro k
  rw [fbHydrate_normGet he.2.2.1 he.2.2.2.2.1 hc k]
  exact entryRel_normGet he k

theorem entryRel_hydrate_asStr {cols : List Col} {conv : List String} {idFirst : Bool}
    {x y : String × Doc} (he : entryRel cols x y) (hc : convOk cols conv = true)
    (k : String) :
    asStr (dGet (fbHydrate idFirst conv x.1 x.2) k) = asStr (dGet y.2 k) := by
  rw [asStr_eq_normStr, asStr_eq_normStr]
  have h1 := @fbHydrate_normGet cols conv idFirst x.1 x.2 he.2.2.1 he.2.2.2.2.1 hc k
  exact (normStr_congr h1).trans (normStr_congr (entryRel_normGet he k))

theorem dbGetById_eq_entriesFind {a b : St} (hR : Rel a b) (c : CollName) (i : String) :
    dbGetById c b i = entriesFind (dbRows b c) i := by
  have hid : ∀ e ∈ dbRows b c, dGet e.2 "id" = some (.str e.1) := by
    intro e hee
    obtain ⟨xx, hx1, hx2⟩ := forall₂_mem_right (hR.2.2 c).2.2 hee
    exact hx2.2.2.2.2.2
  rw [dbGetById, whereEq_id_eq_filter_key hid, ← entriesFind_eq_filter_head]

/-- Parity of the simple by-id read. -/
theorem getById_parity {a b : St} (hR : Rel a b) (c : CollName) (idFirst : Bool)
    (conv : List String) (hasCatch : Bool) (i : String)
    (hc : convOk (colsOf c) conv = true) :
    ∃ r, fbGetById c idFirst conv hasCatch a i = .ok r
      ∧ r.map normDoc = (dbGetById c b i).map normDoc := by
  have hread := fbRead_present (hR.2.2 c).1
  have hrel := (hR.2.2 c).2.2
  rw [dbGetById_eq_entriesFind hR c i]
  rcases entriesFind_rel hrel i with ⟨h1, h2⟩ | ⟨d1, d2, h1, h2, he⟩
  · refine ⟨none, ?_, by rw [show entriesFind (dbRows b c) i = none from h2]⟩
    rw [fbGetById, hread]
    cases hasCatch <;> simp [h1]
  · refine ⟨some (fbHydrate idFirst conv i d1), ?_, ?_⟩
    · rw [fbGetById, hread]
      cases hasCatch <;> simp [h1]
    · rw [show entriesFind (dbRows b c) i = some d2 from h2]
      exact congrArg some (entryRel_hydrate he hc)

theorem foldFilters_rel {cols : List Col} {filters : List (String × Value)}
    (hstr : ∀ f ∈ filters, ∃ x, f.2 = Value.str x)
    {l1 l2 : List (String × Doc)} (h : List.Forall₂ (entryRel cols) l1 l2) :
    List.Forall₂ (entryRel cols)
      (filters.foldl (fun acc kv => whereEq kv.1 kv.2 acc) l1)
      (filters.foldl (fun acc kv => whereEq kv.1 kv.2 acc) l2) := by
  induction filters generalizing l1 l2 with
  | nil => exact h
  | cons f rest ih =>
    obtain ⟨x, hx⟩ := hstr f (List.mem_cons_self _ _)
    rw [List.foldl_cons, List.foldl_cons]
    refine ih (fun g hg => hstr g (List.mem_cons_of_mem _ hg)) ?_
    rw [hx]
    exact whereEq_rel h

theorem forall₂_head? {α β : Type} {R : α → β → Prop} {l1 : List α} {l2 : List β}
    (h : List.Forall₂ R l1 l2) :
    (l1.head? = none ∧ l2.head? = none)
    ∨ ∃ x y, l1.head? = some x ∧ l2.head? = some y ∧ R x y := by
  cases h with
  | nil => exact Or.inl ⟨rfl, rfl⟩
  | cons hxy htail => exact Or.inr ⟨_, _, rfl, rfl, hxy⟩

/-- Parity of the secondary-key single lookups. -/
theorem findOne_parity {a b : St} (hR : Rel a b) (c : CollName)
    (filters : List (String × Value)) (idFirst : Bool) (conv : List String)
    (hstr : ∀ f ∈ filters, ∃ x, f.2 = Value.str x)
    (hc : convOk (colsOf c) conv = true) :
    ∃ r, fbFindOne c filters idFirst conv a = .ok r
      ∧ r.map normDoc = (dbFindOne c filters b).map normDoc := by
  have hread := fbRead_present (hR.2.2 c).1
  have hrel := @foldFilters_rel (colsOf c) filters hstr _ _ (hR.2.2 c).2.2
  rcases forall₂_head? hrel with ⟨h1, h2⟩ | ⟨x, y, h1, h2, he⟩
  · refine ⟨none, ?_, ?_⟩
    · rw [fbFindOne, hread]
      simp [h1]
    · rw [dbFindOne, show (filters.foldl (fun acc kv => whereEq kv.1 kv.2 acc)
          (dbRows b c)).head? = none from h2]
      rfl
  · refine ⟨some (fbHydrate idFirst conv x.1 x.2), ?_, ?_⟩
    · rw [fbFindOne, hread]
      simp [h1]
    · rw [dbFindOne, show (filters.foldl (fun acc kv => whereEq kv.1 kv.2 acc)
          (dbRows b c)).head? = some y from h2]
      exact congrArg some (entryRel_hydrate he hc)

/-- Parity of the list reads. -/
theorem list_parity {a b : St} (hR : Rel a b) (c : CollName) (idFirst : Bool)
    (conv : List String) (ordered : Bool) (k x : String) (lim : Option Nat)
    (hc : convOk (colsOf c) conv = true) :
    Except.map (fun l => l.map normDoc) (fbList c idFirst conv ordered a k (.str x) lim)
      = Except.ok ((dbList c ordered b k (.str x) lim).map normDoc) := by
  have hread := fbRead_present (hR.2.2 c).1
  have hrel := @whereEq_rel (colsOf c) k x _ _ (hR.2.2 c).2.2
  have hsorted : List.Forall₂ (entryRel (colsOf c))
      (if ordered then sortByKeyDesc (fun e => createdKey e.2)
        (whereEq k (.str x) (Store.coll a.store c).entries)
       else whereEq k (.str x) (Store.coll a.store c).entries)
      (if ordered then sortByKeyDesc (fun e => createdKey e.2)
        (whereEq k (.str x) (Store.coll b.store c).entries)
       else whereEq k (.str x) (Store.coll b.store c).entries) := by
    cases ordered with
    | true => simpa using sortCreated_rel hrel
    | false => simpa using hrel
  have hltd : List.Forall₂ (entryRel (colsOf c))
      (match lim with
       | none => (if ordered then sortByKeyDesc (fun e => createdKey e.2)
            (whereEq k (.str x) (Store.coll a.store c).entries)
          else whereEq k (.str x) (Store.coll a.store c).entries)
       | some n => (if ordered then sortByKeyDesc (fun e => createdKey e.2)
            (whereEq k (.str x) (Store.coll a.store c).entries)
          else whereEq k (.str x) (Store.coll a.store c).entries).take n)
      (match lim with
       | none => (if ordered then sortByKeyDesc (fun e => createdKey e.2)
            (whereEq k (.str x) (Store.coll b.store c).entries)
          else whereEq k (.str x) (Store.coll b.store c).entries)
       | some n => (if ordered then sortByKeyDesc (fun e => createdKey e.2)
            (whereEq k (.str x) (Store.coll b.store c).entries)
          else whereEq k (.str x) (Store.coll b.store c).entries).take n) := by
    cases lim with
    | none => exact hsorted
    | some n => exact forall₂_take n hsorted
  rw [fbList, hread]
  refine congrArg Except.ok ?_
  simp only [dbList]
  rw [List.map_map, List.map_map]
  exact map_eq_of_forall₂ hltd (fun e1 e2 he => entryRel_hydrate he hc)

/-!
Well-formed inputs and create coherence.

`wfInsert` mirrors the contract's `Insert<Entity>` input types and the
relational schema's integrity conditions: unique keys, keys drawn from the
insert schema, values typed for their column (or `undefined`; explicit
`null` only for nullable non-defaulted columns, since the relational
backend would store NULL where the document backend applies the default),
and required (not-null, no-default) columns present.
-/

def tyIns : ColTy → Value → Bool
  | .tStr, .str _ => true
  | .tDec, .str _ => true
  | .tInt, .num _ => true
  | .tBool, .bool _ => true
  | .tDate, .date _ => true
  | .tJson, .json _ => true
  | _, _ => false

def nullableNoDflt (cols : List Col) (k : String) : Bool :=
  match colFind cols k with
  | some c => !c.nn && c.dflt.isNone
  | none => false

def insTyOk (cols : List Col) (k : String) (v : Value) : Bool :=
  match colFind cols k with
  | some c => tyIns c.ty v
  | none => false

def wfInsert (cols : List Col) (ins : List String) (input : Doc) : Bool :=
  decide (dKeys input).Nodup
  && input.all (fun kv => decide (kv.1 ∈ ins)
      && (decide (kv.2 = Value.undef)
          || (decide (kv.2 = Value.null) && nullableNoDflt cols kv.1)
          || insTyOk cols kv.1 kv.2))
  && cols.all (fun c => !(c.nn && c.dflt.isNone)
      || (match dGet input c.name with
          | some v => decide (v ≠ Value.undef) && decide (v ≠ Value.null)
          | none => false))

def fldKey : FbFld → String
  | .fix k _ => k
  | .orElse k _ => k

def fldAt (flds : List FbFld) (k : String) : Option FbFld :=
  flds.find? (fun f => fldKey f == k)

/-- Coherence of a `FirebaseStorage.createX` default configuration with the
entity's relational column table: the hand-written defaults coincide with
the schema defaults, column by column.  Each entity's instance is checked
by `decide`. -/
def createCoh (cfg : CreateCfg) (cols : List Col) (ins : List String) : Bool :=
  decide (("id" : String) ∉ ins)
  && decide (("createdAt" : String) ∉ ins)
  && decide ((cfg.fields.map fldKey).Nodup)
  && decide ((cols.map Col.name).Nodup)
  && ins.all (fun k0 => decide (k0 ∈ cols.map Col.name))
  && cfg.fields.all (fun f => decide (fldKey f ∈ cols.map Col.name))
  && decide (("id" : String) ∈ cols.map Col.name)
  && (!cfg.hasCreatedAt || decide (("createdAt" : String) ∈ cols.map Col.name))
  && cols.all (fun c =>
      if c.name = "id" then
        decide (c.dflt = some Dflt.genId) && decide (c.ty = ColTy.tStr)
          && decide (fldAt cfg.fields "id" = none)
      else if c.name = "createdAt" then
        decide (c.dflt = some Dflt.now) && decide (c.ty = ColTy.tDate)
          && cfg.hasCreatedAt && decide (fldAt cfg.fields "createdAt" = none)
      else match c.dflt, fldAt cfg.fields c.name with
        | some (Dflt.val v), some (FbFld.fix _ w) =>
            decide (v = w) && decide (c.name ∉ ins) && tyStored c.ty v
        | some (Dflt.val v), some (FbFld.orElse _ w) =>
            decide (v = w) && tyStored c.ty v
        | none, none => true
        | _, _ => false)

/-!  Characterizations of lookups in built documents and rows. -/

theorem colFind_eq_none_iff (cols : List Col) (k : String) :
    colFind cols k = none ↔ k ∉ cols.map Col.name := by
  rw [colFind, List.find?_eq_none]
  constructor
  · intro h hc
    rcases List.mem_map.mp hc with ⟨c, hc1, hc2⟩
    exact h c hc1 (by simp [hc2])
  · intro h c hc hp
    exact h (List.mem_map.mpr ⟨c, hc, by simpa using hp⟩)

theorem colFind_some_name {cols : List Col} {k : String} {c : Col}
    (h : colFind cols k = some c) : c.name = k ∧ c ∈ cols := by
  have hm := List.mem_of_find?_eq_some h
  have hp := List.find?_some h
  exact ⟨by simpa using hp, hm⟩

theorem colFind_of_mem {cols : List Col} (hnd : (cols.map Col.name).Nodup)
    {c : Col} (hc : c ∈ cols) : colFind cols c.name = some c := by
  induction cols with
  | nil => cases hc
  | cons c0 rest ih =>
    simp only [List.map_cons, List.nodup_cons] at hnd
    rcases List.mem_cons.mp hc with hc | hc
    · subst hc
      simp [colFind, List.find?]
    · have hne : ¬((fun f => f.name == c.name) c0 = true) := by
        simp only [beq_iff_eq]
        intro he
        exact hnd.1 (by rw [he]; exact List.mem_map.mpr ⟨c, hc, rfl⟩)
      rw [colFind]
      exact (List.find?_cons_of_neg rest hne).trans (ih hnd.2 hc)

theorem fldAt_eq_none_iff (flds : List FbFld) (k : String) :
    fldAt flds k = none ↔ k ∉ flds.map fldKey := by
  rw [fldAt, List.find?_eq_none]
  constructor
  · intro h hc
    rcases List.mem_map.mp hc with ⟨f, hf1, hf2⟩
    exact h f hf1 (by simp [hf2])
  · intro h f hf hp
    exact h (List.mem_map.mpr ⟨f, hf, by simpa using hp⟩)

theorem fldAt_some_key {flds : List FbFld} {k : String} {f : FbFld}
    (h : fldAt flds k = some f) : fldKey f = k ∧ f ∈ flds := by
  have hm := List.mem_of_find?_eq_some h
  have hp := List.find?_some h
  exact ⟨by simpa using hp, hm⟩

theorem dGet_applyFlds {flds : List FbFld} (hnd : (flds.map fldKey).Nodup)
    (input base : Doc) (k : String) :
    dGet (applyFlds input flds base) k =
      match fldAt flds k with
      | some (.fix _ v) => some v
      | some (.orElse _ v) => some (nullish (dGet input k) v)
      | none => dGet base k := by
  induction flds generalizing base with
  | nil => rfl
  | cons f rest ih =>
    simp only [List.map_cons, List.nodup_cons] at hnd
    have hstep : applyFlds input (f :: rest) base
        = applyFlds input rest (match f with
          | .fix k0 v => dSet base k0 v
          | .orElse k0 v => dSet base k0 (nullish (dGet input k0) v)) := by
      cases f <;> rfl
    rw [hstep, ih hnd.2]
    by_cases he : fldKey f = k
    · have hrest : fldAt rest k = none := by
        rw [fldAt_eq_none_iff]
        intro hc
        exact hnd.1 (he ▸ hc)
      have hat : fldAt (f :: rest) k = some f := by
        rw [fldAt]
        exact List.find?_cons_of_pos _ (by simp [he])
      rw [hrest, hat]
      cases f with
      | fix k0 v =>
        have hk0 : k0 = k := by simpa [fldKey] using he
        subst hk0
        rw [dGet_dSet_self]
      | orElse k0 v =>
        have hk0 : k0 = k := by simpa [fldKey] using he
        subst hk0
        rw [dGet_dSet_self]
    · have hat : fldAt (f :: rest) k = fldAt rest k := by
        rw [fldAt, List.find?_cons_of_neg _ (by simp [he])]
        rfl
      rw [hat]
      cases hrest : fldAt rest k with
      | some g => cases g <;> rfl
      | none =>
        cases f with
        | fix k0 v =>
          have hk0 : k0 ≠ k := by simpa [fldKey] using he
          rw [dGet_dSet_ne _ _ hk0]
        | orElse k0 v =>
          have hk0 : k0 ≠ k := by simpa [fldKey] using he
          rw [dGet_dSet_ne _ _ hk0]

theorem dGet_serialize_raw {d : Doc} (hnd : (dKeys d).Nodup) (k : String) :
    dGet (serializeForFirestore d) k
      = (dGet d k).bind (fun v => if v = Value.undef then none else some v) := by
  induction d with
  | nil => rfl
  | cons kv rest ih =>
    obtain ⟨k0, v0⟩ := kv
    simp only [dKeys, List.map_cons, List.nodup_cons] at hnd
    by_cases hu : v0 = Value.undef
    · subst hu
      have e : serializeForFirestore ((k0, Value.undef) :: rest)
          = serializeForFirestore rest := by simp [serializeForFirestore]
      rw [e, ih hnd.2]
      by_cases h : k = k0
      · subst h
        have hrest : dGet rest k = none := by
          rw [dGet_eq_none_iff]
          simpa [dKeys] using hnd.1
        rw [hrest, dGet_cons_self]
        rfl
      · rw [dGet_cons_ne _ _ (fun hc => h hc.symm)]
    · have e : serializeForFirestore ((k0, v0) :: rest)
          = (k0, v0) :: serializeForFirestore rest := by simp [serializeForFirestore, hu]
      rw [e]
      by_cases h : k = k0
      · subst h
        rw [dGet_cons_self, dGet_cons_self]
        simp [hu]
      · rw [dGet_cons_ne _ _ (fun hc => h hc.symm),
          dGet_cons_ne _ _ (fun hc => h hc.symm), ih hnd.2]

theorem dGet_dbRow (cols : List Col) (s : St) (input : Doc) (k : String) :
    dGet (cols.map (fun col => (col.name, dbValue s input col))) k
      = (colFind cols k).map (dbValue s input) := by
  induction cols with
  | nil => rfl
  | cons c rest ih =>
    rw [List.map_cons]
    by_cases h : c.name = k
    · subst h
      rw [dGet_cons_self, colFind, List.find?_cons_of_pos _ (by simp)]
      rfl
    · rw [dGet_cons_ne _ _ h, colFind, List.find?_cons_of_neg _ (by simp [h])]
      exact ih

theorem tyIns_tyStored {t : ColTy} {v : Value} (h : tyIns t v = true) :
    tyStored t v = true := by
  cases t <;> cases v <;> first | rfl | (simp [tyIns] at h)

theorem tyStored_transfer {t : ColTy} {u v : Value} (hu : tyStored t u = true)
    (h : normOf u = normOf v) (hv : v ≠ Value.undef) : tyStored t v = true := by
  cases t <;> cases u <;> cases v <;>
    first
      | rfl
      | (exact absurd rfl hv)
      | (exact Bool.noConfusion hu)
      | (simp [normOf, normV] at h)

/-!  Accessors for `wfInsert` and `createCoh`. -/

theorem wfInsert_nodup {cols : List Col} {ins : List String} {input : Doc}
    (h : wfInsert cols ins input = true) : (dKeys input).Nodup := by
  simp only [wfInsert, Bool.and_eq_true, decide_eq_true_eq] at h
  exact h.1.1

theorem wfInsert_keys {cols : List Col} {ins : List String} {input : Doc}
    (h : wfInsert cols ins input = true) {kv : String × Value} (hm : kv ∈ input) :
    kv.1 ∈ ins := by
  simp only [wfInsert, Bool.and_eq_true, List.all_eq_true] at h
  have := h.1.2 kv hm
  simp only [Bool.and_eq_true, decide_eq_true_eq] at this
  exact this.1

theorem wfInsert_val {cols : List Col} {ins : List String} {input : Doc}
    (h : wfInsert cols ins input = true) {kv : String × Value} (hm : kv ∈ input) :
    kv.2 = Value.undef
    ∨ (kv.2 = Value.null ∧ nullableNoDflt cols kv.1 = true)
    ∨ insTyOk cols kv.1 kv.2 = true := by
  simp only [wfInsert, Bool.and_eq_true, List.all_eq_true] at h
  have := h.1.2 kv hm
  simp only [Bool.and_eq_true, Bool.or_eq_true, decide_eq_true_eq] at this
  rcases this.2 with (h1 | h2) | h3
  · exact Or.inl h1
  · exact Or.inr (Or.inl h2)
  · exact Or.inr (Or.inr h3)

theorem wfInsert_req {cols : List Col} {ins : List String} {input : Doc}
    (h : wfInsert cols ins input = true) {c : Col} (hc : c ∈ cols)
    (hnn : c.nn = true) (hd : c.dflt = none) :
    ∃ v, dGet input c.name = some v ∧ v ≠ Value.undef ∧ v ≠ Value.null := by
  simp only [wfInsert, Bool.and_eq_true, List.all_eq_true] at h
  have := h.2 c hc
  rw [hnn, hd] at this
  simp only [Option.isNone_none, Bool.and_true, Bool.not_true, Bool.false_or] at this
  cases hget : dGet input c.name with
  | none => rw [hget] at this; cases this
  | some v =>
    rw [hget] at this
    simp only [Bool.and_eq_true, decide_eq_true_eq] at this
    exact ⟨v, rfl, this.1, this.2⟩

theorem wfInsert_get_none {cols : List Col} {ins : List String} {input : Doc}
    (h : wfInsert cols ins input = true) {k : String} (hk : k ∉ ins) :
    dGet input k = none := by
  cases hget : dGet input k with
  | none => rfl
  | some v => exact absurd (wfInsert_keys h (mem_of_dGet hget)) hk

theorem coh_parts {cfg : CreateCfg} {cols : List Col} {ins : List String}
    (h : createCoh cfg cols ins = true) :
    ("id" : String) ∉ ins ∧ ("createdAt" : String) ∉ ins
    ∧ (cfg.fields.map fldKey).Nodup ∧ (cols.map Col.name).Nodup
    ∧ (∀ k0 ∈ ins, k0 ∈ cols.map Col.name)
    ∧ (∀ f ∈ cfg.fields, fldKey f ∈ cols.map Col.name)
    ∧ ("id" : String) ∈ cols.map Col.name
    ∧ (cfg.hasCreatedAt = true → ("createdAt" : String) ∈ cols.map Col.name) := by
  simp only [createCoh, Bool.and_eq_true, List.all_eq_true, decide_eq_true_eq,
    Bool.or_eq_true, Bool.not_eq_true'] at h
  refine ⟨h.1.1.1.1.1.1.1.1, h.1.1.1.1.1.1.1.2, h.1.1.1.1.1.1.2, h.1.1.1.1.1.2,
    h.1.1.1.1.2, h.1.1.1.2, h.1.1.2, ?_⟩
  intro hca
  rcases h.1.2 with h0 | h0
  · rw [hca] at h0; cases h0
  · exact h0

theorem coh_col_cases {cfg : CreateCfg} {cols : List Col} {ins : List String}
    (h : createCoh cfg cols ins = true) {c : Col} (hc : c ∈ cols) :
    (c.name = "id" ∧ c.dflt = some Dflt.genId ∧ c.ty = ColTy.tStr
      ∧ fldAt cfg.fields "id" = none)
    ∨ (c.name = "createdAt" ∧ c.dflt = some Dflt.now ∧ c.ty = ColTy.tDate
      ∧ cfg.hasCreatedAt = true ∧ fldAt cfg.fields "createdAt" = none)
    ∨ (c.name ≠ "id" ∧ c.name ≠ "createdAt"
      ∧ ((∃ v, c.dflt = some (Dflt.val v) ∧ tyStored c.ty v = true
            ∧ ((∃ k0, fldAt cfg.fields c.name = some (FbFld.fix k0 v) ∧ c.name ∉ ins)
                ∨ ∃ k0, fldAt cfg.fields c.name = some (FbFld.orElse k0 v)))
          ∨ (c.dflt = none ∧ fldAt cfg.fields c.name = none))) := by
  simp only [createCoh, Bool.and_eq_true, List.all_eq_true] at h
  have hcol := h.2 c hc
  by_cases hid : c.name = "id"
  · rw [if_pos hid] at hcol
    simp only [Bool.and_eq_true, decide_eq_true_eq] at hcol
    exact Or.inl ⟨hid, hcol.1.1, hcol.1.2, hcol.2⟩
  · rw [if_neg hid] at hcol
    by_cases hcr : c.name = "createdAt"
    · rw [if_pos hcr] at hcol
      simp only [Bool.and_eq_true, decide_eq_true_eq] at hcol
      exact Or.inr (Or.inl ⟨hcr, hcol.1.1.1, hcol.1.1.2, hcol.1.2, hcol.2⟩)
    · rw [if_neg hcr] at hcol
      refine Or.inr (Or.inr ⟨hid, hcr, ?_⟩)
      cases hd : c.dflt with
      | none =>
        rw [hd] at hcol
        cases hat : fldAt cfg.fields c.name with
        | none => exact Or.inr ⟨rfl, rfl⟩
        | some f => rw [hat] at hcol; cases f <;> cases hcol
      | some dv =>
        rw [hd] at hcol
        cases dv with
        | val v =>
          cases hat : fldAt cfg.fields c.name with
          | none => rw [hat] at hcol; cases hcol
          | some f =>
            rw [hat] at hcol
            cases f with
            | fix k0 w =>
              simp only [Bool.and_eq_true, decide_eq_true_eq] at hcol
              obtain ⟨⟨hvw, hni⟩, hty⟩ := hcol
              subst hvw
              exact Or.inl ⟨v, rfl, hty, Or.inl ⟨k0, rfl, hni⟩⟩
            | orElse k0 w =>
              simp only [Bool.and_eq_true, decide_eq_true_eq] at hcol
              obtain ⟨hvw, hty⟩ := hcol
              subst hvw
              exact Or.inl ⟨v, rfl, hty, Or.inr ⟨k0, rfl⟩⟩
        | genId =>
          cases hat : fldAt cfg.fields c.name with
          | none => rw [hat] at hcol; cases hcol
          | some f => rw [hat] at hcol; cases f <;> cases hcol
        | now =>
          cases hat : fldAt cfg.fields c.name with
          | none => rw [hat] at hcol; cases hcol
          | some f => rw [hat] at hcol; cases f <;> cases hcol

/-!  The document produced by `fbCreate`, field by field. -/

theorem dGet_fbCreate_fix {cfg : CreateCfg} (hfnd : (cfg.fields.map fldKey).Nodup)
    (a : St) (input : Doc) {k k0 : String} {v : Value}
    (hat : fldAt cfg.fields k = some (FbFld.fix k0 v)) :
    dGet (fbCreate cfg a input).1 k = some v := by
  simp only [fbCreate]
  rw [dGet_applyFlds hfnd, hat]

theorem dGet_fbCreate_orElse {cfg : CreateCfg} (hfnd : (cfg.fields.map fldKey).Nodup)
    (a : St) (input : Doc) {k k0 : String} {v : Value}
    (hat : fldAt cfg.fields k = some (FbFld.orElse k0 v)) :
    dGet (fbCreate cfg a input).1 k = some (nullish (dGet input k) v) := by
  simp only [fbCreate]
  rw [dGet_applyFlds hfnd, hat]

theorem dGet_fbCreate_created {cfg : CreateCfg} (hfnd : (cfg.fields.map fldKey).Nodup)
    (a : St) (input : Doc) (hat : fldAt cfg.fields "createdAt" = none)
    (hcc : cfg.hasCreatedAt = true) :
    dGet (fbCreate cfg a input).1 "createdAt" = some (Value.date a.now) := by
  simp only [fbCreate]
  rw [if_pos hcc, dGet_applyFlds hfnd, hat, dGet_dSet_self]

theorem dGet_fbCreate_id {cfg : CreateCfg} (hfnd : (cfg.fields.map fldKey).Nodup)
    (a : St) (input : Doc) (hat : fldAt cfg.fields "id" = none) :
    dGet (fbCreate cfg a input).1 "id" = some (Value.str (genId a.nextId)) := by
  simp only [fbCreate]
  by_cases hcc : cfg.hasCreatedAt = true
  · rw [if_pos hcc, dGet_applyFlds hfnd, hat,
      dGet_dSet_ne _ _ (by simp), dGet_dSet_self]
  · rw [if_neg hcc, dGet_applyFlds hfnd, hat, dGet_dSet_self]

theorem dGet_fbCreate_plain {cfg : CreateCfg} (hfnd : (cfg.fields.map fldKey).Nodup)
    (a : St) (input : Doc) {k : String} (hat : fldAt cfg.fields k = none)
    (hki : k ≠ "id") (hkc : cfg.hasCreatedAt = true → k ≠ "createdAt") :
    dGet (fbCreate cfg a input).1 k = dGet input k := by
  simp only [fbCreate]
  by_cases hcc : cfg.hasCreatedAt = true
  · rw [if_pos hcc, dGet_applyFlds hfnd, hat,
      dGet_dSet_ne _ _ (fun hc => hkc hcc hc.symm), dGet_dSet_ne _ _ (fun hc => hki hc.symm)]
  · rw [if_neg hcc, dGet_applyFlds hfnd, hat, dGet_dSet_ne _ _ (fun hc => hki hc.symm)]

theorem mem_dKeys_applyFlds {input : Doc} {flds : List FbFld} {base : Doc} {x : String}
    (h : x ∈ dKeys (applyFlds input flds base)) :
    x ∈ dKeys base ∨ x ∈ flds.map fldKey := by
  induction flds generalizing base with
  | nil => exact Or.inl h
  | cons f rest ih =>
    have hstep : applyFlds input (f :: rest) base
        = applyFlds input rest (match f with
          | .fix k0 v => dSet base k0 v
          | .orElse k0 v => dSet base k0 (nullish (dGet input k0) v)) := by
      cases f <;> rfl
    rw [hstep] at h
    rcases ih h with h2 | h2
    · cases f with
      | fix k0 v =>
        rcases (mem_dKeys_dSet base k0 v x).mp h2 with h3 | h3
        · exact Or.inl h3
        · exact Or.inr (by simp [fldKey, h3])
      | orElse k0 v =>
        rcases (mem_dKeys_dSet base k0 _ x).mp h2 with h3 | h3
        · exact Or.inl h3
        · exact Or.inr (by simp [fldKey, h3])
    · exact Or.inr (List.mem_cons_of_mem _ h2)

theorem dKeys_applyFlds_nodup {input : Doc} {flds : List FbFld} {base : Doc}
    (h : (dKeys base).Nodup) : (dKeys (applyFlds input flds base)).Nodup := by
  induction flds generalizing base with
  | nil => exact h
  | cons f rest ih =>
    have hstep : applyFlds input (f :: rest) base
        = applyFlds input rest (match f with
          | .fix k0 v => dSet base k0 v
          | .orElse k0 v => dSet base k0 (nullish (dGet input k0) v)) := by
      cases f <;> rfl
    rw [hstep]
    cases f with
    | fix k0 v => exact ih (dKeys_dSet_nodup h k0 v)
    | orElse k0 v => exact ih (dKeys_dSet_nodup h k0 _)

theorem fbCreate_ret_nodup {cfg : CreateCfg} {a : St} {input : Doc}
    (h : (dKeys input).Nodup) : (dKeys (fbCreate cfg a input).1).Nodup := by
  simp only [fbCreate]
  refine dKeys_applyFlds_nodup ?_
  by_cases hcc : cfg.hasCreatedAt = true
  · rw [if_pos hcc]
    exact dKeys_dSet_nodup (dKeys_dSet_nodup h _ _) _ _
  · rw [if_neg hcc]
    exact dKeys_dSet_nodup h _ _

theorem mem_dKeys_fbCreate_ret {cfg : CreateCfg} {a : St} {input : Doc} {x : String}
    (h : x ∈ dKeys (fbCreate cfg a input).1) :
    x ∈ dKeys input ∨ x = "id" ∨ (cfg.hasCreatedAt = true ∧ x = "createdAt")
      ∨ x ∈ cfg.fields.map fldKey := by
  simp only [fbCreate] at h
  rcases mem_dKeys_applyFlds h with h2 | h2
  · by_cases hcc : cfg.hasCreatedAt = true
    · rw [if_pos hcc] at h2
      rcases (mem_dKeys_dSet _ _ _ x).mp h2 with h3 | h3
      · rcases (mem_dKeys_dSet _ _ _ x).mp h3 with h4 | h4
        · exact Or.inl h4
        · exact Or.inr (Or.inl h4)
      · exact Or.inr (Or.inr (Or.inl ⟨hcc, h3⟩))
    · rw [if_neg hcc] at h2
      rcases (mem_dKeys_dSet _ _ _ x).mp h2 with h3 | h3
      · exact Or.inl h3
      · exact Or.inr (Or.inl h3)
  · exact Or.inr (Or.inr (Or.inr h2))

theorem dbValue_eq_default {s : St} {input : Doc} {c : Col}
    (h : dGet input c.name = none) : dbValue s input c = dbDefault s c := by
  rw [dbValue, h]

theorem dbValue_eq_default_undef {s : St} {input : Doc} {c : Col}
    (h : dGet input c.name = some Value.undef) : dbValue s input c = dbDefault s c := by
  rw [dbValue, h]
  rfl

theorem dbValue_eq_val {s : St} {input : Doc} {c : Col} {v : Value}
    (h : dGet input c.name = some v) (hv : v ≠ Value.undef) : dbValue s input c = v := by
  rw [dbValue, h]
  show (if v = Value.undef then dbDefault s c else v) = v
  rw [if_neg hv]

theorem dbDefault_val {s : St} {c : Col} {v : Value}
    (h : c.dflt = some (Dflt.val v)) : dbDefault s c = v := by
  rw [dbDefault, h]

theorem dbDefault_genId {s : St} {c : Col} (h : c.dflt = some Dflt.genId) :
    dbDefault s c = Value.str (genId s.nextId) := by
  rw [dbDefault, h]

theorem dbDefault_now {s : St} {c : Col} (h : c.dflt = some Dflt.now) :
    dbDefault s c = Value.date s.now := by
  rw [dbDefault, h]

theorem dbDefault_none {s : St} {c : Col} (h : c.dflt = none) :
    dbDefault s c = Value.null := by
  rw [dbDefault, h]

theorem wfInsert_val2 {cols : List Col} {ins : List String} {input : Doc}
    (h : wfInsert cols ins input = true) {k : String} {v : Value}
    (hget : dGet input k = some v) :
    v = Value.undef ∨ (v = Value.null ∧ nullableNoDflt cols k = true)
      ∨ insTyOk cols k v = true :=
  wfInsert_val h (mem_of_dGet hget)

theorem insTyOk_elim {cols : List Col} {k : String} {v : Value}
    (h : insTyOk cols k v = true) {c : Col} (hcf : colFind cols k = some c) :
    tyIns c.ty v = true := by
  rw [insTyOk, hcf] at h
  exact h

theorem nullableNoDflt_elim {cols : List Col} {k : String}
    (h : nullableNoDflt cols k = true) {c : Col} (hcf : colFind cols k = some c) :
    c.nn = false ∧ c.dflt = none := by
  rw [nullableNoDflt, hcf] at h
  simp only [Bool.and_eq_true, Bool.not_eq_true', Option.isNone_iff_eq_none] at h
  exact h

theorem tyIns_ne {t : ColTy} {v : Value} (h : tyIns t v = true) :
    v ≠ Value.null ∧ v ≠ Value.undef := by
  cases t <;> cases v <;> simp_all [tyIns]

theorem nullish_solid {x : Value} (h1 : x ≠ Value.null) (h2 : x ≠ Value.undef)
    (v : Value) : nullish (some x) v = x := by
  cases x <;> first | rfl | (exact absurd rfl h1) | (exact absurd rfl h2)

/-- The heart of create-parity: for a well-formed insert input and a
coherent default configuration, the document returned by the document
backend and the row returned by the relational backend agree field by
field after normalization. -/
theorem create_ret_normGet {cfg : CreateCfg} {cols : List Col} {ins : List String}
    {input : Doc} {a b : St}
    (hco : createCoh cfg cols ins = true) (hwf : wfInsert cols ins input = true)
    (hnid : a.nextId = b.nextId) (hnow : a.now = b.now) (k : String) :
    normGet (fbCreate cfg a input).1 k
      = normGet (cols.map (fun col => (col.name, dbValue b input col))) k := by
  obtain ⟨hid_ins, hcr_ins, hfnd, hcnd, hins_sub, hfld_sub, hid_mem, hcr_mem⟩ := coh_parts hco
  rw [normGet, normGet, dGet_dbRow]
  cases hcf : colFind cols k with
  | none =>
    have hkn : k ∉ cols.map Col.name := (colFind_eq_none_iff cols k).mp hcf
    have hat : fldAt cfg.fields k = none := by
      cases hat0 : fldAt cfg.fields k with
      | none => rfl
      | some f =>
        obtain ⟨hfk, hfm⟩ := fldAt_some_key hat0
        exact absurd (hfk ▸ hfld_sub f hfm) hkn
    have hki : k ≠ "id" := fun hc => hkn (hc ▸ hid_mem)
    have hkc : cfg.hasCreatedAt = true → k ≠ "createdAt" :=
      fun hcc hc => hkn (hc ▸ hcr_mem hcc)
    have hkins : k ∉ ins := fun hc => hkn (hins_sub k hc)
    rw [dGet_fbCreate_plain hfnd a input hat hki hkc, wfInsert_get_none hwf hkins]
    rfl
  | some c =>
    obtain ⟨hcn, hcm⟩ := colFind_some_name hcf
    subst hcn
    simp only [Option.map_some', Option.some_bind]
    rcases coh_col_cases hco hcm with ⟨hn, hd, hty, hatid⟩ | ⟨hn, hd, hty, hcc, hatcr⟩
      | ⟨hn1, hn2, hrest⟩
    · rw [hn, dGet_fbCreate_id hfnd a input hatid]
      have hdb : dbValue b input c = Value.str (genId b.nextId) := by
        rw [dbValue_eq_default (by rw [hn]; exact wfInsert_get_none hwf hid_ins),
          dbDefault_genId hd]
      rw [hdb, hnid]
      rfl
    · rw [hn, dGet_fbCreate_created hfnd a input hatcr hcc]
      have hdb : dbValue b input c = Value.date b.now := by
        rw [dbValue_eq_default (by rw [hn]; exact wfInsert_get_none hwf hcr_ins),
          dbDefault_now hd]
      rw [hdb, hnow]
      rfl
    · rcases hrest with ⟨v, hd, htyv, hform⟩ | ⟨hd, hat⟩
      · rcases hform with ⟨k0, hat, hnins⟩ | ⟨k0, hat⟩
        · rw [dGet_fbCreate_fix hfnd a input hat]
          have hdb : dbValue b input c = v := by
            rw [dbValue_eq_default (wfInsert_get_none hwf hnins), dbDefault_val hd]
          rw [hdb]
          rfl
        · rw [dGet_fbCreate_orElse hfnd a input hat]
          cases hin : dGet input c.name with
          | none =>
            have hdb : dbValue b input c = v := by
              rw [dbValue_eq_default hin, dbDefault_val hd]
            rw [hdb]
            rfl
          | some x =>
            rcases wfInsert_val2 hwf hin with hx | ⟨hx, hnul⟩ | hok
            · subst hx
              have hdb : dbValue b input c = v := by
                rw [dbValue_eq_default_undef hin, dbDefault_val hd]
              rw [hdb]
              rfl
            · obtain ⟨-, hdn⟩ := nullableNoDflt_elim hnul hcf
              rw [hd] at hdn
              cases hdn
            · obtain ⟨hxn, hxu⟩ := tyIns_ne (insTyOk_elim hok hcf)
              rw [nullish_solid hxn hxu, dbValue_eq_val hin hxu]
              rfl
      · rw [dGet_fbCreate_plain hfnd a input hat hn1 (fun _ => hn2)]
        cases hin : dGet input c.name with
        | none =>
          have hdb : dbValue b input c = Value.null := by
            rw [dbValue_eq_default hin, dbDefault_none hd]
          rw [hdb]
          rfl
        | some x =>
          by_cases hxu : x = Value.undef
          · subst hxu
            have hdb : dbValue b input c = Value.null := by
              rw [dbValue_eq_default_undef hin, dbDefault_none hd]
            rw [hdb]
            rfl
          · rw [dbValue_eq_val hin hxu]
            rfl

/-!  Well-formedness of both created records, and the new store entries. -/

theorem coh_fldAt_id {cfg : CreateCfg} {cols : List Col} {ins : List String}
    (hco : createCoh cfg cols ins = true) : fldAt cfg.fields "id" = none := by
  obtain ⟨-, -, -, -, -, -, hid_mem, -⟩ := coh_parts hco
  cases hcf : colFind cols "id" with
  | none => exact absurd hid_mem ((colFind_eq_none_iff _ _).mp hcf)
  | some c =>
    obtain ⟨hcn, hcm⟩ := colFind_some_name hcf
    rcases coh_col_cases hco hcm with ⟨-, -, -, hat⟩ | ⟨hn, -, -, -, -⟩ | ⟨hn1, -, -⟩
    · exact hat
    · exact absurd (hcn ▸ hn) (by decide)
    · exact absurd hcn hn1

theorem dbValue_ty {cfg : CreateCfg} {cols : List Col} {ins : List String} {input : Doc}
    (hco : createCoh cfg cols ins = true) (hwf : wfInsert cols ins input = true)
    {c : Col} (hc : c ∈ cols) (s : St) :
    tyStored c.ty (dbValue s input c) = true := by
  obtain ⟨-, -, -, hcnd, -, -, -, -⟩ := coh_parts hco
  have hdflt : tyStored c.ty (dbDefault s c) = true := by
    rcases coh_col_cases hco hc with ⟨-, hd, hty, -⟩ | ⟨-, hd, hty, -, -⟩ | ⟨-, -, hrest⟩
    · rw [dbDefault_genId hd, hty]
      rfl
    · rw [dbDefault_now hd, hty]
      rfl
    · rcases hrest with ⟨v, hd, htyv, -⟩ | ⟨hd, -⟩
      · rw [dbDefault_val hd]
        exact htyv
      · rw [dbDefault_none hd]
        cases c.ty <;> rfl
  cases hin : dGet input c.name with
  | none =>
    rw [dbValue_eq_default hin]
    exact hdflt
  | some x =>
    rcases wfInsert_val2 hwf hin with hx | ⟨hx, -⟩ | hok
    · subst hx
      rw [dbValue_eq_default_undef hin]
      exact hdflt
    · subst hx
      rw [dbValue_eq_val hin (fun hc2 => Value.noConfusion hc2)]
      cases c.ty <;> rfl
    · have hty := insTyOk_elim hok (colFind_of_mem hcnd hc)
      rw [dbValue_eq_val hin (tyIns_ne hty).2]
      exact tyIns_tyStored hty

theorem dKeys_dbRow (cols : List Col) (s : St) (input : Doc) :
    dKeys (cols.map (fun col => (col.name, dbValue s input col))) = cols.map Col.name := by
  rw [dKeys, List.map_map]
  rfl

theorem dbRow_wf {cfg : CreateCfg} {cols : List Col} {ins : List String} {input : Doc}
    (hco : createCoh cfg cols ins = true) (hwf : wfInsert cols ins input = true) (b : St) :
    StoredWf cols (cols.map (fun col => (col.name, dbValue b input col))) := by
  obtain ⟨-, -, -, hcnd, -, -, -, -⟩ := coh_parts hco
  constructor
  · rw [dKeys_dbRow]
    exact hcnd
  · intro kv hm
    rcases List.mem_map.mp hm with ⟨c, hc, rfl⟩
    exact ⟨c, colFind_of_mem hcnd hc, dbValue_ty hco hwf hc b⟩

theorem dbRow_id {cfg : CreateCfg} {cols : List Col} {ins : List String} {input : Doc}
    (hco : createCoh cfg cols ins = true) (hwf : wfInsert cols ins input = true) (b : St) :
    dGet (cols.map (fun col => (col.name, dbValue b input col))) "id"
      = some (Value.str (genId b.nextId)) := by
  obtain ⟨hid_ins, -, -, -, -, -, hid_mem, -⟩ := coh_parts hco
  rw [dGet_dbRow]
  cases hcf : colFind cols "id" with
  | none => exact absurd hid_mem ((colFind_eq_none_iff _ _).mp hcf)
  | some c =>
    obtain ⟨hcn, hcm⟩ := colFind_some_name hcf
    rcases coh_col_cases hco hcm with ⟨-, hd, -, -⟩ | ⟨hn, -, -, -, -⟩ | ⟨hn1, -, -⟩
    · rw [Option.map_some',
        dbValue_eq_default (by rw [hcn]; exact wfInsert_get_none hwf hid_ins),
        dbDefault_genId hd]
    · exact absurd (hcn ▸ hn) (by decide)
    · exact absurd hcn hn1

theorem fbCreate_keys_sub {cfg : CreateCfg} {cols : List Col} {ins : List String}
    {input : Doc} {a : St} {x : String}
    (hco : createCoh cfg cols ins = true) (hwf : wfInsert cols ins input = true)
    (h : x ∈ dKeys (fbCreate cfg a input).1) : x ∈ cols.map Col.name := by
  obtain ⟨-, -, -, -, hins_sub, hfld_sub, hid_mem, hcr_mem⟩ := coh_parts hco
  rcases mem_dKeys_fbCreate_ret h with h2 | h2 | ⟨hcc, h2⟩ | h2
  · rcases List.mem_map.mp h2 with ⟨kv, hm, rfl⟩
    exact hins_sub _ (wfInsert_keys hwf hm)
  · exact h2 ▸ hid_mem
  · exact h2 ▸ hcr_mem hcc
  · rcases List.mem_map.mp h2 with ⟨f, hm, rfl⟩
    exact hfld_sub f hm

theorem fbCreate_stored_nodup {cfg : CreateCfg} {a : St} {input : Doc}
    (h : (dKeys input).Nodup) :
    (dKeys (storeTimestamps (serializeForFirestore (fbCreate cfg a input).1))).Nodup := by
  rw [dKeys_storeTimestamps]
  exact serialize_nodup (fbCreate_ret_nodup h)

theorem fbCreate_stored_normGet {cfg : CreateCfg} {a : St} {input : Doc}
    (h : (dKeys input).Nodup) (k : String) :
    normGet (storeTimestamps (serializeForFirestore (fbCreate cfg a input).1)) k
      = normGet (fbCreate cfg a input).1 k := by
  rw [normGet_storeTimestamps, normGet_serialize (fbCreate_ret_nodup h)]

theorem fbCreate_stored_id {cfg : CreateCfg} {cols : List Col} {ins : List String}
    {input : Doc} (hco : createCoh cfg cols ins = true)
    (hwf : wfInsert cols ins input = true) (a : St) :
    dGet (storeTimestamps (serializeForFirestore (fbCreate cfg a input).1)) "id"
      = some (Value.str (genId a.nextId)) := by
  obtain ⟨-, -, hfnd, -, -, -, -, -⟩ := coh_parts hco
  rw [dGet_storeTimestamps, dGet_serialize_raw (fbCreate_ret_nodup (wfInsert_nodup hwf)),
    dGet_fbCreate_id hfnd a input (coh_fldAt_id hco)]
  rfl

theorem fbCreate_stored_ne_undef {cfg : CreateCfg} {a : St} {input : Doc}
    {k : String} {v : Value} (hnd : (dKeys input).Nodup)
    (h : dGet (storeTimestamps (serializeForFirestore (fbCreate cfg a input).1)) k
          = some v) :
    v ≠ Value.undef := by
  rw [dGet_storeTimestamps, dGet_serialize_raw (fbCreate_ret_nodup hnd)] at h
  cases hg : dGet (fbCreate cfg a input).1 k with
  | none =>
    rw [hg] at h
    exact Option.noConfusion h
  | some u =>
    rw [hg] at h
    by_cases hu : u = Value.undef
    · rw [hu] at h
      exact Option.noConfusion h
    · rw [Option.some_bind, if_neg hu, Option.map_some'] at h
      injection h with h2
      intro hv
      rw [hv] at h2
      cases u <;> first | (exact Value.noConfusion h2) | (exact hu rfl)

theorem fbCreate_stored_wf {cfg : CreateCfg} {cols : List Col} {ins : List String}
    {input : Doc} (hco : createCoh cfg cols ins = true)
    (hwf : wfInsert cols ins input = true) (a : St) :
    StoredWf cols (storeTimestamps (serializeForFirestore (fbCreate cfg a input).1)) := by
  have hnd := wfInsert_nodup hwf
  have hndS : (dKeys (storeTimestamps (serializeForFirestore
      (fbCreate cfg a input).1))).Nodup := fbCreate_stored_nodup hnd
  refine ⟨hndS, ?_⟩
  intro kv hm
  obtain ⟨k, v⟩ := kv
  have hget : dGet (storeTimestamps (serializeForFirestore (fbCreate cfg a input).1)) k
      = some v := (dGet_mem_of_nodup hndS k v).mpr hm
  have hkmem : k ∈ cols.map Col.name := by
    refine @fbCreate_keys_sub cfg cols ins input a k hco hwf ?_
    have hk := mem_dKeys_of_dGet hget
    rw [dKeys_storeTimestamps] at hk
    exact (dKeys_serialize_sublist _).subset hk
  obtain ⟨c, hcf⟩ : ∃ c, colFind cols k = some c := by
    cases hcf : colFind cols k with
    | none => exact absurd hkmem ((colFind_eq_none_iff _ _).mp hcf)
    | some c => exact ⟨c, rfl⟩
  refine ⟨c, hcf, ?_⟩
  have hty := dbValue_ty hco hwf (colFind_some_name hcf).2 a
  have h1 : normGet (storeTimestamps (serializeForFirestore (fbCreate cfg a input).1)) k
      = normOf v := by
    rw [normGet, hget]
    rfl
  have h2 := @fbCreate_stored_normGet cfg a input hnd k
  have h3 := @create_ret_normGet cfg cols ins input a a hco hwf rfl rfl k
  have h4 : normGet (cols.map (fun col => (col.name, dbValue a input col))) k
      = normOf (dbValue a input c) := by
    rw [normGet, dGet_dbRow, hcf]
    rfl
  have hnormEq : normOf (dbValue a input c) = normOf v := by
    rw [← h4, ← h3, ← h2, h1]
  exact tyStored_transfer hty hnormEq (fbCreate_stored_ne_undef hnd hget)

/-!  Relation preservation by the store primitives. -/

theorem coll_setColl_self (s : Store) (c : CollName) (k : Coll) :
    Store.coll (Store.setColl s c k) c = k := by
  cases c <;> rfl

theorem coll_setColl_ne (s : Store) {c c0 : CollName} (h : c0 ≠ c) (k : Coll) :
    Store.coll (Store.setColl s c k) c0 = Store.coll s c0 := by
  cases c <;> cases c0 <;> first | rfl | (exact absurd rfl h)

theorem entriesSet_rel {cols : List Col} :
    ∀ {l1 l2 : List (String × Doc)}, List.Forall₂ (entryRel cols) l1 l2 →
    ∀ {i1 i2 : String} {d1 d2 : Doc}, entryRel cols (i1, d1) (i2, d2) →
    List.Forall₂ (entryRel cols) (entriesSet l1 i1 d1) (entriesSet l2 i2 d2) := by
  intro l1
  induction l1 with
  | nil =>
    intro l2 h i1 i2 d1 d2 hd
    cases h
    exact List.Forall₂.cons hd List.Forall₂.nil
  | cons x t1 ih =>
    intro l2 h i1 i2 d1 d2 hd
    cases h with
    | cons hxy ht =>
      rename_i y t2
      obtain ⟨x1, xd⟩ := x
      obtain ⟨y1, yd⟩ := y
      have hkey : x1 = y1 := hxy.1
      have hi12 : i1 = i2 := hd.1
      simp only [entriesSet]
      by_cases hx : x1 = i1
      · have hy : y1 = i2 := hi12 ▸ hkey.symm.trans hx
        rw [if_pos hx, if_pos hy]
        have hd1 : entryRel cols (x1, d1) (y1, d2) := by
          rw [hx, hy]
          exact hd
        exact List.Forall₂.cons hd1 ht
      · have hy : ¬(y1 = i2) := fun hc => hx (hkey.trans (hc.trans hi12.symm))
        rw [if_neg hx, if_neg hy]
        exact List.Forall₂.cons hxy (ih ht hd)

theorem rel_bump {a b : St} (h : Rel a b) :
    Rel { a with nextId := a.nextId + 1 } { b with nextId := b.nextId + 1 } := by
  obtain ⟨h1, h2, h3⟩ := h
  exact ⟨by rw [h1], h2, h3⟩

theorem rel_stWrite {a b : St} (h : Rel a b) (c : CollName) {i1 i2 : String}
    {d1 d2 : Doc} (hd : entryRel (colsOf c) (i1, d1) (i2, d2)) :
    Rel (stWrite a c i1 d1) (stWrite b c i2 d2) := by
  obtain ⟨h1, h2, h3⟩ := h
  refine ⟨h1, h2, fun c0 => ?_⟩
  obtain ⟨hpa, hpb, hf⟩ := h3 c0
  by_cases hc : c0 = c
  · subst hc
    simp only [stWrite]
    rw [coll_setColl_self, coll_setColl_self]
    exact ⟨rfl, rfl, entriesSet_rel hf hd⟩
  · simp only [stWrite]
    rw [coll_setColl_ne _ hc, coll_setColl_ne _ hc]
    exact ⟨hpa, hpb, hf⟩

theorem rel_stRemove {a b : St} (h : Rel a b) (c : CollName) (i : String) :
    Rel (stRemove a c i) (stRemove b c i) := by
  obtain ⟨h1, h2, h3⟩ := h
  refine ⟨h1, h2, fun c0 => ?_⟩
  obtain ⟨hpa, hpb, hf⟩ := h3 c0
  by_cases hc : c0 = c
  · subst hc
    simp only [stRemove]
    rw [coll_setColl_self, coll_setColl_self]
    refine ⟨hpa, hpb, forall₂_filter_congr hf ?_⟩
    intro x y hxy
    rw [show x.1 = y.1 from hxy.1]
  · simp only [stRemove]
    rw [coll_setColl_ne _ hc, coll_setColl_ne _ hc]
    exact ⟨hpa, hpb, hf⟩

/-- Create-parity, op level: from related states and a well-formed insert,
the two backends return documents with the same normal form and move to
related states. -/
theorem create_parity_op {cfg : CreateCfg} {cols : List Col} {ins : List String}
    {input : Doc} {a b : St}
    (hco : createCoh cfg cols ins = true) (hwf : wfInsert cols ins input = true)
    (hrel : Rel a b) (hcols : colsOf cfg.coll = cols) :
    normDoc (fbCreate cfg a input).1 = normDoc (dbInsert cfg.coll cols b input).1
    ∧ Rel (fbCreate cfg a input).2 (dbInsert cfg.coll cols b input).2 := by
  obtain ⟨hnid, hnow, hcolls⟩ := hrel
  have hidrow := dbRow_id hco hwf b
  have hi : asStr (dGet (cols.map (fun col => (col.name, dbValue b input col))) "id")
      = genId b.nextId := by
    rw [hidrow]
    rfl
  constructor
  · refine (normDoc_ext_iff _ _).mpr (fun k => ?_)
    exact create_ret_normGet hco hwf hnid hnow k
  · have hentry : entryRel cols
        (genId a.nextId,
          storeTimestamps (serializeForFirestore (fbCreate cfg a input).1))
        (genId b.nextId, cols.map (fun col => (col.name, dbValue b input col))) := by
      refine ⟨by rw [hnid], ?_, fbCreate_stored_wf hco hwf a, dbRow_wf hco hwf b,
        fbCreate_stored_id hco hwf a, hidrow⟩
      refine (normDoc_ext_iff _ _).mpr (fun k => ?_)
      rw [fbCreate_stored_normGet (wfInsert_nodup hwf) k]
      exact create_ret_normGet hco hwf hnid hnow k
    have hstep : Rel { a with nextId := a.nextId + 1 } { b with nextId := b.nextId + 1 } :=
      rel_bump ⟨hnid, hnow, hcolls⟩
    have hd : entryRel (colsOf cfg.coll)
        (genId a.nextId,
          storeTimestamps (serializeForFirestore (fbCreate cfg a input).1))
        (genId b.nextId, cols.map (fun col => (col.name, dbValue b input col))) := by
      rw [hcols]
      exact hentry
    rw [show (dbInsert cfg.coll cols b input).2
        = stWrite { b with nextId := b.nextId + 1 } cfg.coll (genId b.nextId)
            (cols.map (fun col => (col.name, dbValue b input col))) from by
      simp only [dbInsert]
      rw [hi]]
    exact rel_stWrite hstep cfg.coll hd

/-!  Update parity.  `wfUpdate` mirrors `Partial<Insert<Entity>>`: a patch
draws its keys from the insert schema and its values from the column types
(`undefined` allowed anywhere, explicit `null` only on nullable columns). -/

def nullableCol (cols : List Col) (k : String) : Bool :=
  match colFind cols k with
  | some c => !c.nn
  | none => false

def wfUpdate (cols : List Col) (ins : List String) (patch : Doc) : Bool :=
  decide (dKeys patch).Nodup
  && patch.all (fun kv => decide (kv.1 ∈ ins)
      && (decide (kv.2 = Value.undef)
          || (decide (kv.2 = Value.null) && nullableCol cols kv.1)
          || insTyOk cols kv.1 kv.2))

theorem wfUpdate_nodup {cols : List Col} {ins : List String} {patch : Doc}
    (h : wfUpdate cols ins patch = true) : (dKeys patch).Nodup := by
  simp only [wfUpdate, Bool.and_eq_true, decide_eq_true_eq] at h
  exact h.1

theorem wfUpdate_val {cols : List Col} {ins : List String} {patch : Doc}
    (h : wfUpdate cols ins patch = true) {kv : String × Value} (hm : kv ∈ patch) :
    kv.2 = Value.undef
    ∨ (kv.2 = Value.null ∧ nullableCol cols kv.1 = true)
    ∨ insTyOk cols kv.1 kv.2 = true := by
  simp only [wfUpdate, Bool.and_eq_true, List.all_eq_true] at h
  have := h.2 kv hm
  simp only [Bool.and_eq_true, Bool.or_eq_true, decide_eq_true_eq] at this
  rcases this.2 with (h1 | h2) | h3
  · exact Or.inl h1
  · exact Or.inr (Or.inl h2)
  · exact Or.inr (Or.inr h3)

theorem wfUpdate_keys {cols : List Col} {ins : List String} {patch : Doc}
    (h : wfUpdate cols ins patch = true) {kv : String × Value} (hm : kv ∈ patch) :
    kv.1 ∈ ins := by
  simp only [wfUpdate, Bool.and_eq_true, List.all_eq_true] at h
  have := h.2 kv hm
  simp only [Bool.and_eq_true, decide_eq_true_eq] at this
  exact this.1

theorem wfUpdate_get_none {cols : List Col} {ins : List String} {patch : Doc}
    (h : wfUpdate cols ins patch = true) {k : String} (hk : k ∉ ins) :
    dGet patch k = none := by
  cases hget : dGet patch k with
  | none => rfl
  | some v => exact absurd (wfUpdate_keys h (mem_of_dGet hget)) hk

theorem dGet_dSetMany {p : Doc} (hp : (dKeys p).Nodup) (d : Doc) (k : String) :
    dGet (dSetMany d p) k =
      match dGet p k with
      | some v => some v
      | none => dGet d k := by
  induction p generalizing d with
  | nil => rfl
  | cons kv rest ih =>
    obtain ⟨k0, v0⟩ := kv
    simp only [dKeys, List.map_cons, List.nodup_cons] at hp
    rw [dSetMany_cons, ih hp.2]
    by_cases h : k = k0
    · subst h
      have hrest : dGet rest k = none := by
        rw [dGet_eq_none_iff]
        simpa [dKeys] using hp.1
      rw [hrest, dGet_cons_self, dGet_dSet_self]
    · rw [dGet_cons_ne _ _ (fun hc => h hc.symm)]
      cases hr : dGet rest k with
      | some v => rfl
      | none => rw [dGet_dSet_ne _ _ (fun hc => h hc.symm)]

theorem dSetMany_wf {cols : List Col} {d p : Doc} (hd : StoredWf cols d)
    (hp : ∀ kv ∈ p, ∃ c, colFind cols kv.1 = some c ∧ tyStored c.ty kv.2 = true)
    (hpnd : (dKeys p).Nodup) : StoredWf cols (dSetMany d p) := by
  refine ⟨dKeys_dSetMany_nodup hd.1 p, ?_⟩
  intro kv hm
  obtain ⟨k, v⟩ := kv
  have hget : dGet (dSetMany d p) k = some v :=
    (dGet_mem_of_nodup (dKeys_dSetMany_nodup hd.1 p) k v).mpr hm
  rw [dGet_dSetMany hpnd] at hget
  cases hpg : dGet p k with
  | some w =>
    rw [hpg] at hget
    have hvw : w = v := Option.some.inj hget
    exact hvw ▸ hp (k, w) (mem_of_dGet hpg)
  | none =>
    rw [hpg] at hget
    exact hd.2 (k, v) (mem_of_dGet hget)

/-- The write-side timestamp translation on a single value. -/
def tsW : Value → Value
  | .date t => .ts t
  | v => v

theorem storeTimestamps_eq_map (d : Doc) :
    storeTimestamps d = d.map (fun kv => (kv.1, tsW kv.2)) := by
  rw [storeTimestamps]
  refine List.map_congr_left ?_
  intro kv hm
  cases hv : kv.2 <;> simp [tsW, hv]

theorem dGet_storeTimestamps2 (d : Doc) (k : String) :
    dGet (storeTimestamps d) k = (dGet d k).map tsW := by
  rw [dGet_storeTimestamps]
  cases dGet d k with
  | none => rfl
  | some v => cases v <;> rfl

theorem tyStored_tsW {t : ColTy} {v : Value} (h : tyStored t v = true) :
    tyStored t (tsW v) = true := by
  cases t <;> cases v <;> first | rfl | (exact h) | (exact Bool.noConfusion h)

theorem patchD_typed {cols : List Col} {ins : List String} {patch : Doc}
    (hw : wfUpdate cols ins patch = true) :
    ∀ kv ∈ serializeForFirestore patch,
      ∃ c, colFind cols kv.1 = some c ∧ tyStored c.ty kv.2 = true := by
  intro kv hm
  obtain ⟨k, v⟩ := kv
  rw [serializeForFirestore] at hm
  have hm2 := List.mem_filter.mp hm
  have hvu : v ≠ Value.undef := by simpa using hm2.2
  rcases wfUpdate_val hw hm2.1 with hx | ⟨hx, hnul⟩ | hok
  · exact absurd hx hvu
  · obtain ⟨c, hcf⟩ : ∃ c, colFind cols k = some c := by
      unfold nullableCol at hnul
      cases hcf : colFind cols k with
      | none => rw [hcf] at hnul; cases hnul
      | some c => exact ⟨c, rfl⟩
    refine ⟨c, hcf, ?_⟩
    rw [show v = Value.null from hx]
    cases c.ty <;> rfl
  · obtain ⟨c, hcf⟩ : ∃ c, colFind cols k = some c := by
      unfold insTyOk at hok
      cases hcf : colFind cols k with
      | none => rw [hcf] at hok; cases hok
      | some c => exact ⟨c, rfl⟩
    exact ⟨c, hcf, tyIns_tyStored (insTyOk_elim hok hcf)⟩

theorem patchF_typed {cols : List Col} {ins : List String} {patch : Doc}
    (hw : wfUpdate cols ins patch = true) :
    ∀ kv ∈ storeTimestamps (serializeForFirestore patch),
      ∃ c, colFind cols kv.1 = some c ∧ tyStored c.ty kv.2 = true := by
  intro kv hm
  rw [storeTimestamps_eq_map] at hm
  rcases List.mem_map.mp hm with ⟨⟨k, v⟩, hm2, rfl⟩
  obtain ⟨c, hcf, hty⟩ := patchD_typed hw (k, v) hm2
  exact ⟨c, hcf, tyStored_tsW hty⟩

theorem update_merge_normGet {cols : List Col} {ins : List String} {patch : Doc}
    (hw : wfUpdate cols ins patch = true) {d row : Doc}
    (hnorm : normDoc d = normDoc row) (k : String) :
    normGet (dSetMany d (storeTimestamps (serializeForFirestore patch))) k
      = normGet (dSetMany row (serializeForFirestore patch)) k := by
  have hnd := wfUpdate_nodup hw
  have hndF : (dKeys (storeTimestamps (serializeForFirestore patch))).Nodup := by
    rw [dKeys_storeTimestamps]
    exact serialize_nodup hnd
  rw [normGet_dSetMany hndF, normGet_dSetMany (serialize_nodup hnd), dGet_storeTimestamps2]
  cases hg : dGet (serializeForFirestore patch) k with
  | none => exact (normDoc_ext_iff _ _).mp hnorm k
  | some v =>
    show normOf (tsW v) = normOf v
    cases v <;> rfl

theorem update_entryRel {cols : List Col} {ins : List String} {patch : Doc}
    (hw : wfUpdate cols ins patch = true) (hid : ("id" : String) ∉ ins)
    {i : String} {d row : Doc} (he : entryRel cols (i, d) (i, row)) :
    entryRel cols (i, dSetMany d (storeTimestamps (serializeForFirestore patch)))
      (i, dSetMany row (serializeForFirestore patch)) := by
  obtain ⟨-, hnorm, hwd, hwrow, hidd, hidrow⟩ := he
  have hnd := wfUpdate_nodup hw
  have hndF : (dKeys (storeTimestamps (serializeForFirestore patch))).Nodup := by
    rw [dKeys_storeTimestamps]
    exact serialize_nodup hnd
  have hpnone : dGet (storeTimestamps (serializeForFirestore patch)) "id" = none := by
    rw [dGet_storeTimestamps, dGet_serialize_raw hnd, wfUpdate_get_none hw hid]
    rfl
  have hpnoneD : dGet (serializeForFirestore patch) "id" = none := by
    rw [dGet_serialize_raw hnd, wfUpdate_get_none hw hid]
    rfl
  refine ⟨rfl, ?_, dSetMany_wf hwd (patchF_typed hw) hndF,
    dSetMany_wf hwrow (patchD_typed hw) (serialize_nodup hnd), ?_, ?_⟩
  · rw [normDoc_ext_iff]
    intro k
    exact update_merge_normGet hw hnorm k
  · rw [dGet_dSetMany hndF, hpnone]
    exact hidd
  · rw [dGet_dSetMany (serialize_nodup hnd), hpnoneD]
    exact hidrow

/-- Update-parity, op level. -/
theorem update_parity_op {cfg : UpdCfg} {cols : List Col} {ins : List String}
    {patch : Doc} {a b : St}
    (hw : wfUpdate cols ins patch = true) (hid : ("id" : String) ∉ ins)
    (hrel : Rel a b) (hcols : colsOf cfg.coll = cols)
    (hc : convOk cols cfg.conv = true) (i : String) :
    ∃ r, fbUpdate cfg a i patch = .ok r
      ∧ r.1.map normDoc = (dbUpdate cfg.coll b i patch).1.map normDoc
      ∧ Rel r.2 (dbUpdate cfg.coll b i patch).2 := by
  have hread := fbRead_present (hrel.2.2 cfg.coll).1
  rcases entriesFind_rel (hrel.2.2 cfg.coll).2.2 i with ⟨h1, h2⟩ | ⟨d, row, h1, h2, he⟩
  · refine ⟨(none, a), ?_, ?_, ?_⟩
    · rw [fbUpdate, hread]
      simp [h1]
    · rw [dbUpdate, show entriesFind (dbRows b cfg.coll) i = none from h2]
    · rw [dbUpdate, show entriesFind (dbRows b cfg.coll) i = none from h2]
      exact hrel
  · have he2 : entryRel cols (i, d) (i, row) := by
      rw [← hcols]
      exact he
    have hmerged := update_entryRel hw hid he2
    refine ⟨(some (fbHydrate cfg.idFirst cfg.conv i
        (dSetMany d (storeTimestamps (serializeForFirestore patch)))),
      stWrite a cfg.coll i (dSetMany d (storeTimestamps (serializeForFirestore patch)))),
      ?_, ?_, ?_⟩
    · rw [fbUpdate, hread]
      simp [h1]
    · rw [dbUpdate, show entriesFind (dbRows b cfg.coll) i = some row from h2]
      exact congrArg some (entryRel_hydrate hmerged hc)
    · rw [dbUpdate, show entriesFind (dbRows b cfg.coll) i = some row from h2]
      refine rel_stWrite hrel cfg.coll ?_
      rw [hcols]
      exact hmerged

/-!  Delete parity. -/

theorem entriesFind_none_keys {l : List (String × Doc)} {i : String}
    (h : entriesFind l i = none) : ∀ e ∈ l, e.1 ≠ i := by
  induction l with
  | nil => intro e he; cases he
  | cons x rest ih =>
    obtain ⟨k, d⟩ := x
    intro e he
    by_cases hk : k = i
    · rw [entriesFind, if_pos hk] at h
      cases h
    · rw [entriesFind, if_neg hk] at h
      rcases List.mem_cons.mp he with he | he
      · rw [he]
        exact hk
      · exact ih h e he

theorem any_id_eq_isSome_entriesFind {l : List (String × Doc)}
    (hid : ∀ e ∈ l, dGet e.2 "id" = some (.str e.1)) (i : String) :
    (l.any (fun e => decide (dGet e.2 "id" = some (Value.str i))))
      = (entriesFind l i).isSome := by
  induction l with
  | nil => rfl
  | cons x rest ih =>
    obtain ⟨k, d⟩ := x
    have hkd := hid (k, d) (List.mem_cons_self _ _)
    rw [List.any_cons]
    by_cases hk : k = i
    · subst hk
      rw [entriesFind, if_pos rfl]
      simp [hkd]
    · rw [entriesFind, if_neg hk]
      have : decide (dGet (k, d).2 "id" = some (Value.str i)) = false := by
        simp only [decide_eq_false_iff_not]
        rw [hkd]
        intro hc
        exact hk (by injection hc with h2; injection h2)
      rw [this, Bool.false_or]
      exact ih (fun e he => hid e (List.mem_cons_of_mem _ he))

/-- Delete-parity, op level. -/
theorem delete_parity_op (c : CollName) {a b : St} (hrel : Rel a b) (i : String) :
    ∃ r, fbDelete c a i = .ok r
      ∧ r.1 = (dbDelete c b i).1 ∧ Rel r.2 (dbDelete c b i).2 := by
  have hread := fbRead_present (hrel.2.2 c).1
  have hidb : ∀ e ∈ dbRows b c, dGet e.2 "id" = some (.str e.1) := by
    intro e hee
    obtain ⟨xx, hx1, hx2⟩ := forall₂_mem_right (hrel.2.2 c).2.2 hee
    exact hx2.2.2.2.2.2
  rcases entriesFind_rel (hrel.2.2 c).2.2 i with ⟨h1, h2⟩ | ⟨d, row, h1, h2, he⟩
  · have hfilter : (Store.coll b.store c).entries.filter (fun e => decide (e.1 ≠ i))
        = (Store.coll b.store c).entries := by
      rw [List.filter_eq_self]
      intro e hee
      simp only [decide_eq_true_eq]
      exact entriesFind_none_keys h2 e hee
    refine ⟨(false, a), ?_, ?_, ?_⟩
    · rw [fbDelete, hread]
      simp [h1]
    · simp only [dbDelete]
      rw [any_id_eq_isSome_entriesFind hidb,
        show entriesFind (dbRows b c) i = none from h2]
      rfl
    · obtain ⟨hn1, hn2, hcolls⟩ := hrel
      refine ⟨hn1, hn2, fun c0 => ?_⟩
      obtain ⟨hpa, hpb, hf⟩ := hcolls c0
      by_cases hc0 : c0 = c
      · subst hc0
        simp only [dbDelete, stRemove]
        rw [coll_setColl_self]
        exact ⟨hpa, hpb, by rw [hfilter]; exact hf⟩
      · simp only [dbDelete, stRemove]
        rw [coll_setColl_ne _ hc0]
        exact ⟨hpa, hpb, hf⟩
  · refine ⟨(true, stRemove a c i), ?_, ?_, ?_⟩
    · rw [fbDelete, hread]
      simp [h1]
    · simp only [dbDelete]
      rw [any_id_eq_isSome_entriesFind hidb,
        show entriesFind (dbRows b c) i = some row from h2]
      rfl
    · exact rel_stRemove hrel c i

/-!  Parity of the composite read paths (checkout pages, orders, order
items), which chain a primary query with per-row follow-up fetches. -/

theorem normDoc_dSet_same {d : Doc} {k0 : String} {v : Value}
    (h : dGet d k0 = some v) : normDoc (dSet d k0 v) = normDoc d := by
  rw [normDoc_ext_iff]
  intro k
  rw [normGet_dSet]
  by_cases hk : k = k0
  · rw [if_pos hk, hk, normGet, h]
    rfl
  · rw [if_neg hk]

theorem hydrate_product_mapM {a b : St} (hrel : Rel a b) (c : CollName)
    (conv : List String) (hc : convOk (colsOf c) conv = true) :
    ∀ {l1 l2 : List (String × Doc)},
      List.Forall₂ (entryRel (colsOf c)) l1 l2 →
      ∃ vs, (l1.mapM (fun e => do
          let page := fbHydrate false conv e.1 e.2
          let product ← fbGetProduct a (asStr (dGet page "productId"))
          Except.ok (page, product)) : Except Nat (List (Doc × Option Doc))) = .ok vs
        ∧ vs.map (fun p => (normDoc p.1, Option.map normDoc p.2))
          = l2.map (fun e => (normDoc e.2,
              Option.map normDoc (dbGetById .products b (asStr (dGet e.2 "productId"))))) := by
  intro l1
  induction l1 with
  | nil =>
    intro l2 h
    cases h
    exact ⟨[], rfl, rfl⟩
  | cons e1 t1 ih =>
    intro l2 h
    cases h with
    | cons he ht =>
      rename_i e2 t2
      obtain ⟨vs, hvs, hmap⟩ := ih ht
      have hpid : asStr (dGet (fbHydrate false conv e1.1 e1.2) "productId")
          = asStr (dGet e2.2 "productId") :=
        @entryRel_hydrate_asStr (colsOf c) conv false e1 e2 he hc "productId"
      obtain ⟨r, hok, hnorm⟩ := getById_parity hrel .products false ["createdAt"] true
        (asStr (dGet (fbHydrate false conv e1.1 e1.2) "productId")) (by decide)
      have hok2 : fbGetProduct a
          (asStr (dGet (fbHydrate false conv e1.1 e1.2) "productId")) = .ok r := hok
      refine ⟨(fbHydrate false conv e1.1 e1.2, r) :: vs, ?_, ?_⟩
      · rw [List.mapM_cons]
        simp only [hok2, okBind, hvs]
        rfl
      · rw [List.map_cons, List.map_cons, hmap]
        refine congrArg (fun q => q :: _) ?_
        refine Prod.ext ?_ ?_
        · exact @entryRel_hydrate (colsOf c) conv false e1 e2 he hc
        · show r.map normDoc = _
          rw [hnorm, hpid]

/-- Parity of `getCheckoutPages`. -/
theorem checkoutPages_parity {a b : St} (hrel : Rel a b) (u : String) :
    Except.map (fun l => l.map (fun p => (normDoc p.1, Option.map normDoc p.2)))
        (fbGetCheckoutPages a u)
      = .ok ((dbGetCheckoutPages b u).map
          (fun p => (normDoc p.1, Option.map normDoc p.2))) := by
  have hread := fbRead_present (hrel.2.2 .checkoutPages).1
  have hsrt := sortCreated_rel (@whereEq_rel (colsOf .checkoutPages) "userId" u _ _
    (hrel.2.2 .checkoutPages).2.2)
  obtain ⟨vs, hvs, hmap⟩ := hydrate_product_mapM hrel .checkoutPages ["createdAt"]
    (by decide) hsrt
  rw [fbGetCheckoutPages, hread]
  simp only [okBind, hvs, catch5_ok]
  rw [show (Except.ok vs : Except Nat (List (Doc × Option Doc)))
      = Except.ok (vs : List (Doc × Option Doc)) from rfl]
  simp only [Except.map]
  refine congrArg Except.ok ?_
  rw [hmap, dbGetCheckoutPages, List.map_map]
  rfl

/-- Parity of `getCheckoutPage`. -/
theorem checkoutPage_parity {a b : St} (hrel : Rel a b) (i : String) :
    Except.map (Option.map (fun p => (normDoc p.1, Option.map normDoc p.2)))
        (fbGetCheckoutPage a i)
      = .ok ((dbGetCheckoutPage b i).map
          (fun p => (normDoc p.1, Option.map normDoc p.2))) := by
  have hread := fbRead_present (hrel.2.2 .checkoutPages).1
  rcases entriesFind_rel (hrel.2.2 .checkoutPages).2.2 i with ⟨h1, h2⟩ | ⟨d, row, h1, h2, he⟩
  · rw [fbGetCheckoutPage, hread]
    simp only [okBind, h1, catch5_ok]
    rw [dbGetCheckoutPage, dbGetById_eq_entriesFind hrel .checkoutPages i,
      show entriesFind (dbRows b .checkoutPages) i = none from h2]
    rfl
  · have hpid := @entryRel_hydrate_asStr (colsOf .checkoutPages) ["createdAt"] false
      (i, d) (i, row) he (by decide) "productId"
    obtain ⟨r, hok, hnorm⟩ := getById_parity hrel .products false ["createdAt"] true
      (asStr (dGet (fbHydrate false ["createdAt"] i d) "productId")) (by decide)
    have hok2 : fbGetProduct a
        (asStr (dGet (fbHydrate false ["createdAt"] i d) "productId")) = .ok r := hok
    rw [fbGetCheckoutPage, hread]
    simp only [okBind, h1, hok2, catch5_ok]
    rw [dbGetCheckoutPage, dbGetById_eq_entriesFind hrel .checkoutPages i,
      show entriesFind (dbRows b .checkoutPages) i = some row from h2]
    simp only [Except.map, Option.map_some']
    refine congrArg Except.ok (congrArg some (Prod.ext ?_ ?_))
    · exact @entryRel_hydrate (colsOf .checkoutPages) ["createdAt"] false (i, d) (i, row)
        he (by decide)
    · show r.map normDoc = _
      rw [hnorm, hpid]

/-- Parity of `getCheckoutPageBySlug`. -/
theorem checkoutPageBySlug_parity {a b : St} (hrel : Rel a b) (slug : String) :
    Except.map (Option.map (fun p => (normDoc p.1, Option.map normDoc p.2)))
        (fbGetCheckoutPageBySlug a slug)
      = .ok ((dbGetCheckoutPageBySlug b slug).map
          (fun p => (normDoc p.1, Option.map normDoc p.2))) := by
  have hread := fbRead_present (hrel.2.2 .checkoutPages).1
  have hw := @whereEq_rel (colsOf .checkoutPages) "slug" slug _ _
    (hrel.2.2 .checkoutPages).2.2
  rcases forall₂_head? hw with ⟨h1, h2⟩ | ⟨e1, e2, h1, h2, he⟩
  · rw [fbGetCheckoutPageBySlug, hread]
    simp only [okBind, h1, catch5_ok]
    rw [dbGetCheckoutPageBySlug, dbFindOne,
      show (([("slug", Value.str slug)] : List (String × Value)).foldl
          (fun acc kv => whereEq kv.1 kv.2 acc) (dbRows b .checkoutPages)).head?
        = none from h2]
    rfl
  · have hpid := @entryRel_hydrate_asStr (colsOf .checkoutPages) ["createdAt"] false
      e1 e2 he (by decide) "productId"
    obtain ⟨r, hok, hnorm⟩ := getById_parity hrel .products false ["createdAt"] true
      (asStr (dGet (fbHydrate false ["createdAt"] e1.1 e1.2) "productId")) (by decide)
    have hok2 : fbGetProduct a
        (asStr (dGet (fbHydrate false ["createdAt"] e1.1 e1.2) "productId")) = .ok r := hok
    rw [fbGetCheckoutPageBySlug, hread]
    simp only [okBind, h1, hok2, catch5_ok]
    rw [dbGetCheckoutPageBySlug, dbFindOne,
      show (([("slug", Value.str slug)] : List (String × Value)).foldl
          (fun acc kv => whereEq kv.1 kv.2 acc) (dbRows b .checkoutPages)).head?
        = some e2 from h2]
    simp only [Except.map, Option.map_some']
    refine congrArg Except.ok (congrArg some (Prod.ext ?_ ?_))
    · exact @entryRel_hydrate (colsOf .checkoutPages) ["createdAt"] false e1 e2 he (by decide)
    · show r.map normDoc = _
      rw [hnorm, hpid]

/-- Parity of `getOrderItems`. -/
theorem orderItems_parity {a b : St} (hrel : Rel a b) (oid : String) :
    Except.map (fun l => l.map (fun p => (normDoc p.1, Option.map normDoc p.2)))
        (fbGetOrderItems a oid)
      = .ok ((dbGetOrderItems b oid).map
          (fun p => (normDoc p.1, Option.map normDoc p.2))) := by
  have hread := fbRead_present (hrel.2.2 .orderItems).1
  have hw := @whereEq_rel (colsOf .orderItems) "orderId" oid _ _
    (hrel.2.2 .orderItems).2.2
  obtain ⟨vs, hvs, hmap⟩ := hydrate_product_mapM hrel .orderItems ["tokenExpiresAt"]
    (by decide) hw
  rw [fbGetOrderItems, hread]
  simp only [okBind, hvs]
  simp only [Except.map]
  refine congrArg Except.ok ?_
  rw [hmap, dbGetOrderItems, List.map_map]
  rfl

theorem orders_items_norm {cols : List Col} {l1 l2 : List (String × Doc)}
    (h : List.Forall₂ (entryRel cols) l1 l2) :
    (l1.map (fun ie => dSet ie.2 "id" (Value.str ie.1))).map normDoc
      = (l2.map (fun ie => ie.2)).map normDoc := by
  rw [List.map_map, List.map_map]
  refine map_eq_of_forall₂ h (fun e1 e2 he => ?_)
  show normDoc (dSet e1.2 "id" (Value.str e1.1)) = normDoc e2.2
  rw [normDoc_dSet_same he.2.2.2.2.1]
  exact he.2.1

theorem orders_mapM {a b : St} (hrel : Rel a b) :
    ∀ {l1 l2 : List (String × Doc)},
      List.Forall₂ (entryRel (colsOf .orders)) l1 l2 →
      ∃ vs, (l1.mapM (fun e => do
          let order := fbHydrate false ["createdAt"] e.1 e.2
          let customer ← fbGetCustomer a (asStr (dGet order "customerId"))
          let itemsEs ← fbRead a .orderItems
          let items := (whereEq "orderId" (Value.str e.1) itemsEs).map
            (fun ie => dSet ie.2 "id" (Value.str ie.1))
          Except.ok (order, customer, items))
            : Except Nat (List (Doc × Option Doc × List Doc))) = .ok vs
        ∧ vs.map (fun q => (normDoc q.1, Option.map normDoc q.2.1, q.2.2.map normDoc))
          = l2.map (fun e => (normDoc e.2,
              Option.map normDoc (dbGetById .customers b (asStr (dGet e.2 "customerId"))),
              ((whereEq "orderId" (Value.str (asStr (dGet e.2 "id")))
                  (dbRows b .orderItems)).map (fun ie => ie.2)).map normDoc)) := by
  intro l1
  induction l1 with
  | nil =>
    intro l2 h
    cases h
    exact ⟨[], rfl, rfl⟩
  | cons e1 t1 ih =>
    intro l2 h
    cases h with
    | cons he ht =>
      rename_i e2 t2
      obtain ⟨vs, hvs, hmap⟩ := ih ht
      have hcid : asStr (dGet (fbHydrate false ["createdAt"] e1.1 e1.2) "customerId")
          = asStr (dGet e2.2 "customerId") :=
        @entryRel_hydrate_asStr (colsOf .orders) ["createdAt"] false e1 e2 he
          (by decide) "customerId"
      obtain ⟨r, hok, hnorm⟩ := getById_parity hrel .customers false ["createdAt"] true
        (asStr (dGet (fbHydrate false ["createdAt"] e1.1 e1.2) "customerId")) (by decide)
      have hok2 : fbGetCustomer a
          (asStr (dGet (fbHydrate false ["createdAt"] e1.1 e1.2) "customerId")) = .ok r := hok
      have hreadI := fbRead_present (hrel.2.2 .orderItems).1
      have hkey : asStr (dGet e2.2 "id") = e1.1 := by
        rw [he.2.2.2.2.2, show e1.1 = e2.1 from he.1]
        rfl
      have hitems := @whereEq_rel (colsOf .orderItems) "orderId" e1.1 _ _
        (hrel.2.2 .orderItems).2.2
      refine ⟨(fbHydrate false ["createdAt"] e1.1 e1.2, r,
        (whereEq "orderId" (Value.str e1.1) (Store.coll a.store .orderItems).entries).map
          (fun ie => dSet ie.2 "id" (Value.str ie.1))) :: vs, ?_, ?_⟩
      · rw [List.mapM_cons]
        simp only [hvs]
        simp only [hok2, okBind, hreadI]
        rfl
      · rw [List.map_cons, List.map_cons, hmap]
        refine congrArg (fun q => q :: _) ?_
        refine Prod.ext ?_ (Prod.ext ?_ ?_)
        · exact @entryRel_hydrate (colsOf .orders) ["createdAt"] false e1 e2 he (by decide)
        · show r.map normDoc = _
          rw [hnorm, hcid]
        · show ((whereEq "orderId" (Value.str e1.1)
              (Store.coll a.store .orderItems).entries).map
                (fun ie => dSet ie.2 "id" (Value.str ie.1))).map normDoc = _
          rw [hkey]
          exact orders_items_norm hitems

/-- Parity of `getOrders`. -/
theorem orders_parity {a b : St} (hrel : Rel a b) (u : String) :
    Except.map (fun l => l.map
        (fun q => (normDoc q.1, Option.map normDoc q.2.1, q.2.2.map normDoc)))
        (fbGetOrders a u)
      = .ok ((dbGetOrders b u).map
          (fun q => (normDoc q.1, Option.map normDoc q.2.1, q.2.2.map normDoc))) := by
  have hread := fbRead_present (hrel.2.2 .orders).1
  have hsrt := sortCreated_rel (@whereEq_rel (colsOf .orders) "userId" u _ _
    (hrel.2.2 .orders).2.2)
  obtain ⟨vs, hvs, hmap⟩ := orders_mapM hrel hsrt
  rw [fbGetOrders, hread]
  simp only [okBind, hvs, catch5_ok]
  simp only [Except.map]
  refine congrArg Except.ok ?_
  rw [hmap, dbGetOrders, List.map_map]
  rfl

theorem exceptMap_ok {α β : Type} {f : α → β} {x : Except Nat α} {y : β}
    (h : Except.map f x = .ok y) : ∃ v, x = .ok v ∧ f v = y := by
  cases x with
  | error e => simp [Except.map] at h
  | ok v =>
    refine ⟨v, rfl, ?_⟩
    simpa [Except.map] using h

/-- Parity of `getOrder`. -/
theorem order_parity {a b : St} (hrel : Rel a b) (i : String) :
    Except.map (Option.map (fun q => (normDoc q.1, Option.map normDoc q.2.1,
        q.2.2.map (fun p => (normDoc p.1, Option.map normDoc p.2)))))
        (fbGetOrder a i)
      = .ok ((dbGetOrder b i).map
          (fun q => (normDoc q.1, Option.map normDoc q.2.1,
            q.2.2.map (fun p => (normDoc p.1, Option.map normDoc p.2))))) := by
  have hread := fbRead_present (hrel.2.2 .orders).1
  rcases entriesFind_rel (hrel.2.2 .orders).2.2 i with ⟨h1, h2⟩ | ⟨d, row, h1, h2, he⟩
  · rw [fbGetOrder, hread]
    simp only [okBind, h1]
    rw [dbGetOrder, dbGetById_eq_entriesFind hrel .orders i,
      show entriesFind (dbRows b .orders) i = none from h2]
    rfl
  · have hcid := @entryRel_hydrate_asStr (colsOf .orders) ["createdAt"] false
      (i, d) (i, row) he (by decide) "customerId"
    obtain ⟨r, hok, hnorm⟩ := getById_parity hrel .customers false ["createdAt"] true
      (asStr (dGet (fbHydrate false ["createdAt"] i d) "customerId")) (by decide)
    have hok2 : fbGetCustomer a
        (asStr (dGet (fbHydrate false ["createdAt"] i d) "customerId")) = .ok r := hok
    obtain ⟨items, hitemsOk, hitemsNorm⟩ := exceptMap_ok (orderItems_parity hrel i)
    have hkey : asStr (dGet row "id") = i := by
      rw [he.2.2.2.2.2]
      rfl
    rw [fbGetOrder, hread]
    simp only [okBind, h1, hok2, hitemsOk]
    rw [dbGetOrder, dbGetById_eq_entriesFind hrel .orders i,
      show entriesFind (dbRows b .orders) i = some row from h2]
    simp only [Except.map, Option.map_some']
    refine congrArg Except.ok (congrArg some (Prod.ext ?_ (Prod.ext ?_ ?_)))
    · exact @entryRel_hydrate (colsOf .orders) ["createdAt"] false (i, d) (i, row)
        he (by decide)
    · show r.map normDoc = _
      rw [hnorm, hcid]
    · show items.map (fun p => (normDoc p.1, Option.map normDoc p.2)) = _
      rw [hitemsNorm, hkey, dbGetOrderItems, List.map_map]

/-!  Contract-level well-formed inputs.

`insOf` is the key set of the entity's `createInsertSchema(table).omit(...)`
from the shared schema file; `WfOp` says an operation's payload conforms to
the contract's `Insert<Entity>` / `Partial<Insert<Entity>>` input type (and
to the relational schema's integrity conditions, which the contract's
callers respect). -/

def omitOf : CollName → List String
  | .users => ["id"]
  | .products => ["id", "createdAt"]
  | .checkoutPages => ["id", "createdAt"]
  | .coupons => ["id", "usedCount", "createdAt"]
  | .customers => ["id", "createdAt"]
  | .orders => ["id", "createdAt"]
  | .orderItems => ["id"]
  | .emailTemplates => ["id"]
  | .pixelEvents => ["id", "createdAt"]
  | .abandonedCarts => ["id", "createdAt"]

def insOf (c : CollName) : List String :=
  ((colsOf c).map Col.name).filter (fun k => decide (k ∉ omitOf c))

def WfOp : Op → Bool
  | .createUser d => wfInsert usersCols (insOf .users) d
  | .createProduct d => wfInsert productsCols (insOf .products) d
  | .createCheckoutPage d => wfInsert checkoutPagesCols (insOf .checkoutPages) d
  | .createCoupon d => wfInsert couponsCols (insOf .coupons) d
  | .createCustomer d => wfInsert customersCols (insOf .customers) d
  | .createOrder d => wfInsert ordersCols (insOf .orders) d
  | .createOrderItem d => wfInsert orderItemsCols (insOf .orderItems) d
  | .createEmailTemplate d => wfInsert emailTemplatesCols (insOf .emailTemplates) d
  | .createPixelEvent d => wfInsert pixelEventsCols (insOf .pixelEvents) d
  | .createAbandonedCart d => wfInsert abandonedCartsCols (insOf .abandonedCarts) d
  | .updateUser _ d => wfUpdate usersCols (insOf .users) d
  | .updateProduct _ d => wfUpdate productsCols (insOf .products) d
  | .updateCheckoutPage _ d => wfUpdate checkoutPagesCols (insOf .checkoutPages) d
  | .updateCoupon _ d => wfUpdate couponsCols (insOf .coupons) d
  | .updateCustomer _ d => wfUpdate customersCols (insOf .customers) d
  | .updateOrder _ d => wfUpdate ordersCols (insOf .orders) d
  | .updateEmailTemplate _ d => wfUpdate emailTemplatesCols (insOf .emailTemplates) d
  | .updateAbandonedCart _ d => wfUpdate abandonedCartsCols (insOf .abandonedCarts) d
  | _ => true

def WfTrace (tr : Trace) : Bool := tr.all (fun e => WfOp e.2)

/-- The observation made of an operation result: documents up to the
null-vs-absent and `Date`-vs-store-timestamp representation differences
(spec: "same fields, same ordering, same absence semantics"). -/
def normOut : Out → Out
  | .bool v => .bool v
  | .doc d => .doc (normDoc d)
  | .optDoc o => .optDoc (o.map normDoc)
  | .docs l => .docs (l.map normDoc)
  | .optPair p => .optPair (p.map (fun q => (normDoc q.1, q.2.map normDoc)))
  | .pairs l => .pairs (l.map (fun q => (normDoc q.1, q.2.map normDoc)))
  | .ordersOut l => .ordersOut (l.map (fun q =>
      (normDoc q.1, q.2.1.map normDoc, q.2.2.map normDoc)))
  | .optOrderOut o => .optOrderOut (o.map (fun q =>
      (normDoc q.1, q.2.1.map normDoc,
        q.2.2.map (fun p => (normDoc p.1, p.2.map normDoc)))))

/-- One step of backend parity: from related states, a well-formed
operation succeeds on the document backend, returns an observably
identical result, and leaves the states related. -/
theorem op_parity {a b : St} (hrel : Rel a b) (op : Op) (hwf : WfOp op = true) :
    ∃ p, runFb op a = .ok p
      ∧ normOut p.1 = normOut (runDb op b).1
      ∧ Rel p.2 (runDb op b).2 := by
  cases op with
  | getUser i =>
    obtain ⟨r, hok, hnorm⟩ := getById_parity hrel .users true [] true i (by decide)
    refine ⟨(Out.optDoc r, a), ?_, ?_, hrel⟩
    · show (fbGetUser a i).map (fun r => (Out.optDoc r, a)) = _
      rw [show fbGetUser a i = .ok r from hok]
      rfl
    · show Out.optDoc (r.map normDoc) = Out.optDoc ((dbGetUser b i).map normDoc)
      rw [hnorm]
      rfl
  | getUserByEmail e =>
    obtain ⟨r, hok, hnorm⟩ := findOne_parity hrel .users [("email", .str e)] true []
      (by intro f hf; rcases List.mem_singleton.mp hf with rfl; exact ⟨e, rfl⟩) (by decide)
    refine ⟨(Out.optDoc r, a), ?_, ?_, hrel⟩
    · show (fbGetUserByEmail a e).map (fun r => (Out.optDoc r, a)) = _
      rw [show fbGetUserByEmail a e = .ok r from hok]
      rfl
    · show Out.optDoc (r.map normDoc) = Out.optDoc ((dbGetUserByEmail b e).map normDoc)
      rw [hnorm]
      rfl
  | createUser d =>
    obtain ⟨hnorm, hrel2⟩ := @create_parity_op
      { coll := CollName.users, hasCreatedAt := false,
        fields := [FbFld.orElse "primaryColor" (Value.str "#2563eb"),
                   FbFld.orElse "domainVerified" (Value.bool false)] }
      usersCols (insOf CollName.users) d a b (by decide) hwf hrel rfl
    exact ⟨(Out.doc (fbCreateUser a d).1, (fbCreateUser a d).2), rfl,
      congrArg Out.doc hnorm, hrel2⟩
  | updateUser i d =>
    obtain ⟨r, hok, hnorm, hrel2⟩ := @update_parity_op
      { coll := CollName.users, idFirst := true, conv := [] } usersCols
      (insOf CollName.users) d a b hwf (by decide) hrel rfl (by decide) i
    refine ⟨(Out.optDoc r.1, r.2), ?_, ?_, hrel2⟩
    · show (fbUpdateUser a i d).map (fun p => (Out.optDoc p.1, p.2)) = _
      rw [show fbUpdateUser a i d = .ok r from hok]
      rfl
    · show Out.optDoc (r.1.map normDoc) = Out.optDoc ((dbUpdateUser b i d).1.map normDoc)
      rw [hnorm]
      rfl
  | getProducts u =>
    obtain ⟨l, hok, hl⟩ := exceptMap_ok (list_parity hrel .products false ["createdAt"]
      true "userId" u none (by decide))
    refine ⟨(Out.docs l, a), ?_, ?_, hrel⟩
    · show (fbGetProducts a u).map (fun r => (Out.docs r, a)) = _
      rw [show fbGetProducts a u = .ok l from hok]
      rfl
    · show Out.docs (l.map normDoc) = Out.docs ((dbGetProducts b u).map normDoc)
      rw [hl]
      rfl
  | getProduct i =>
    obtain ⟨r, hok, hnorm⟩ := getById_parity hrel .products false ["createdAt"] true i
      (by decide)
    refine ⟨(Out.optDoc r, a), ?_, ?_, hrel⟩
    · show (fbGetProduct a i).map (fun r => (Out.optDoc r, a)) = _
      rw [show fbGetProduct a i = .ok r from hok]
      rfl
    · show Out.optDoc (r.map normDoc) = Out.optDoc ((dbGetProduct b i).map normDoc)
      rw [hnorm]
      rfl
  | createProduct d =>
    obtain ⟨hnorm, hrel2⟩ := @create_parity_op
      { coll := CollName.products, hasCreatedAt := true,
        fields := [FbFld.orElse "downloadLimit" (Value.num 5),
                   FbFld.orElse "isActive" (Value.bool true)] }
      productsCols (insOf CollName.products) d a b (by decide) hwf hrel rfl
    exact ⟨(Out.doc (fbCreateProduct a d).1, (fbCreateProduct a d).2), rfl,
      congrArg Out.doc hnorm, hrel2⟩
  | updateProduct i d =>
    obtain ⟨r, hok, hnorm, hrel2⟩ := @update_parity_op
      { coll := CollName.products, idFirst := false, conv := ["createdAt"] } productsCols
      (insOf CollName.products) d a b hwf (by decide) hrel rfl (by decide) i
    refine ⟨(Out.optDoc r.1, r.2), ?_, ?_, hrel2⟩
    · show (fbUpdateProduct a i d).map (fun p => (Out.optDoc p.1, p.2)) = _
      rw [show fbUpdateProduct a i d = .ok r from hok]
      rfl
    · show Out.optDoc (r.1.map normDoc)
        = Out.optDoc ((dbUpdateProduct b i d).1.map normDoc)
      rw [hnorm]
      rfl
  | deleteProduct i =>
    obtain ⟨r, hok, hbool, hrel2⟩ := delete_parity_op .products hrel i
    refine ⟨(Out.bool r.1, r.2), ?_, ?_, hrel2⟩
    · show (fbDeleteProduct a i).map (fun p => (Out.bool p.1, p.2)) = _
      rw [show fbDeleteProduct a i = .ok r from hok]
      rfl
    · show Out.bool r.1 = Out.bool (dbDeleteProduct b i).1
      rw [hbool]
      rfl
  | getCheckoutPages u =>
    obtain ⟨l, hok, hl⟩ := exceptMap_ok (checkoutPages_parity hrel u)
    refine ⟨(Out.pairs l, a), ?_, ?_, hrel⟩
    · show (fbGetCheckoutPages a u).map (fun r => (Out.pairs r, a)) = _
      rw [show fbGetCheckoutPages a u = .ok l from hok]
      rfl
    · show Out.pairs (l.map (fun q => (normDoc q.1, q.2.map normDoc)))
        = Out.pairs ((dbGetCheckoutPages b u).map
            (fun q => (normDoc q.1, q.2.map normDoc)))
      rw [hl]
  | getCheckoutPage i =>
    obtain ⟨r, hok, hr⟩ := exceptMap_ok (checkoutPage_parity hrel i)
    refine ⟨(Out.optPair r, a), ?_, ?_, hrel⟩
    · show (fbGetCheckoutPage a i).map (fun r => (Out.optPair r, a)) = _
      rw [show fbGetCheckoutPage a i = .ok r from hok]
      rfl
    · show Out.optPair (r.map (fun q => (normDoc q.1, q.2.map normDoc)))
        = Out.optPair ((dbGetCheckoutPage b i).map
            (fun q => (normDoc q.1, q.2.map normDoc)))
      rw [hr]
  | getCheckoutPageBySlug g =>
    obtain ⟨r, hok, hr⟩ := exceptMap_ok (checkoutPageBySlug_parity hrel g)
    refine ⟨(Out.optPair r, a), ?_, ?_, hrel⟩
    · show (fbGetCheckoutPageBySlug a g).map (fun r => (Out.optPair r, a)) = _
      rw [show fbGetCheckoutPageBySlug a g = .ok r from hok]
      rfl
    · show Out.optPair (r.map (fun q => (normDoc q.1, q.2.map normDoc)))
        = Out.optPair ((dbGetCheckoutPageBySlug b g).map
            (fun q => (normDoc q.1, q.2.map normDoc)))
      rw [hr]
  | createCheckoutPage d =>
    obtain ⟨hnorm, hrel2⟩ := @create_parity_op
      { coll := CollName.checkoutPages, hasCreatedAt := true,
        fields := [FbFld.orElse "template" (Value.str "publisher"),
                   FbFld.orElse "blocks" (Value.json "[]"),
                   FbFld.orElse "customStyles" (Value.json "\x7b\x7d"),
                   FbFld.orElse "isPublished" (Value.bool false)] }
      checkoutPagesCols (insOf CollName.checkoutPages) d a b (by decide) hwf hrel rfl
    exact ⟨(Out.doc (fbCreateCheckoutPage a d).1, (fbCreateCheckoutPage a d).2), rfl,
      congrArg Out.doc hnorm, hrel2⟩
  | updateCheckoutPage i d =>
    obtain ⟨r, hok, hnorm, hrel2⟩ := @update_parity_op
      { coll := CollName.checkoutPages, idFirst := false, conv := ["createdAt"] }
      checkoutPagesCols (insOf CollName.checkoutPages) d a b hwf (by decide) hrel rfl
      (by decide) i
    refine ⟨(Out.optDoc r.1, r.2), ?_, ?_, hrel2⟩
    · show (fbUpdateCheckoutPage a i d).map (fun p => (Out.optDoc p.1, p.2)) = _
      rw [show fbUpdateCheckoutPage a i d = .ok r from hok]
      rfl
    · show Out.optDoc (r.1.map normDoc)
        = Out.optDoc ((dbUpdateCheckoutPage b i d).1.map normDoc)
      rw [hnorm]
      rfl
  | deleteCheckoutPage i =>
    obtain ⟨r, hok, hbool, hrel2⟩ := delete_parity_op .checkoutPages hrel i
    refine ⟨(Out.bool r.1, r.2), ?_, ?_, hrel2⟩
    · show (fbDeleteCheckoutPage a i).map (fun p => (Out.bool p.1, p.2)) = _
      rw [show fbDeleteCheckoutPage a i = .ok r from hok]
      rfl
    · show Out.bool r.1 = Out.bool (dbDeleteCheckoutPage b i).1
      rw [hbool]
      rfl
  | getCoupons u =>
    obtain ⟨l, hok, hl⟩ := exceptMap_ok (list_parity hrel .coupons false
      ["createdAt", "expiresAt"] true "userId" u none (by decide))
    refine ⟨(Out.docs l, a), ?_, ?_, hrel⟩
    · show (fbGetCoupons a u).map (fun r => (Out.docs r, a)) = _
      rw [show fbGetCoupons a u = .ok l from hok]
      rfl
    · show Out.docs (l.map normDoc) = Out.docs ((dbGetCoupons b u).map normDoc)
      rw [hl]
      rfl
  | getCoupon i =>
    obtain ⟨r, hok, hnorm⟩ := getById_parity hrel .coupons false
      ["createdAt", "expiresAt"] true i (by decide)
    refine ⟨(Out.optDoc r, a), ?_, ?_, hrel⟩
    · show (fbGetCoupon a i).map (fun r => (Out.optDoc r, a)) = _
      rw [show fbGetCoupon a i = .ok r from hok]
      rfl
    · show Out.optDoc (r.map normDoc) = Out.optDoc ((dbGetCoupon b i).map normDoc)
      rw [hnorm]
      rfl
  | getCouponByCode code u =>
    obtain ⟨r, hok, hnorm⟩ := findOne_parity hrel .coupons
      [("code", .str code), ("userId", .str u)] false ["createdAt", "expiresAt"]
      (by
        intro f hf
        rcases List.mem_cons.mp hf with rfl | hf
        · exact ⟨code, rfl⟩
        · rcases List.mem_singleton.mp hf with rfl
          exact ⟨u, rfl⟩) (by decide)
    refine ⟨(Out.optDoc r, a), ?_, ?_, hrel⟩
    · show (fbGetCouponByCode a code u).map (fun r => (Out.optDoc r, a)) = _
      rw [show fbGetCouponByCode a code u = .ok r from hok]
      rfl
    · show Out.optDoc (r.map normDoc)
        = Out.optDoc ((dbGetCouponByCode b code u).map normDoc)
      rw [hnorm]
      rfl
  | createCoupon d =>
    obtain ⟨hnorm, hrel2⟩ := @create_parity_op
      { coll := CollName.coupons, hasCreatedAt := true,
        fields := [FbFld.fix "usedCount" (Value.num 0),
                   FbFld.orElse "isActive" (Value.bool true)] }
      couponsCols (insOf CollName.coupons) d a b (by decide) hwf hrel rfl
    exact ⟨(Out.doc (fbCreateCoupon a d).1, (fbCreateCoupon a d).2), rfl,
      congrArg Out.doc hnorm, hrel2⟩
  | updateCoupon i d =>
    obtain ⟨r, hok, hnorm, hrel2⟩ := @update_parity_op
      { coll := CollName.coupons, idFirst := false, conv := ["createdAt", "expiresAt"] }
      couponsCols (insOf CollName.coupons) d a b hwf (by decide) hrel rfl (by decide) i
    refine ⟨(Out.optDoc r.1, r.2), ?_, ?_, hrel2⟩
    · show (fbUpdateCoupon a i d).map (fun p => (Out.optDoc p.1, p.2)) = _
      rw [show fbUpdateCoupon a i d = .ok r from hok]
      rfl
    · show Out.optDoc (r.1.map normDoc)
        = Out.optDoc ((dbUpdateCoupon b i d).1.map normDoc)
      rw [hnorm]
      rfl
  | deleteCoupon i =>
    obtain ⟨r, hok, hbool, hrel2⟩ := delete_parity_op .coupons hrel i
    refine ⟨(Out.bool r.1, r.2), ?_, ?_, hrel2⟩
    · show (fbDeleteCoupon a i).map (fun p => (Out.bool p.1, p.2)) = _
      rw [show fbDeleteCoupon a i = .ok r from hok]
      rfl
    · show Out.bool r.1 = Out.bool (dbDeleteCoupon b i).1
      rw [hbool]
      rfl
  | getCustomers u =>
    obtain ⟨l, hok, hl⟩ := exceptMap_ok (list_parity hrel .customers false ["createdAt"]
      true "userId" u none (by decide))
    refine ⟨(Out.docs l, a), ?_, ?_, hrel⟩
    · show (fbGetCustomers a u).map (fun r => (Out.docs r, a)) = _
      rw [show fbGetCustomers a u = .ok l from hok]
      rfl
    · show Out.docs (l.map normDoc) = Out.docs ((dbGetCustomers b u).map normDoc)
      rw [hl]
      rfl
  | getCustomer i =>
    obtain ⟨r, hok, hnorm⟩ := getById_parity hrel .customers false ["createdAt"] true i
      (by decide)
    refine ⟨(Out.optDoc r, a), ?_, ?_, hrel⟩
    · show (fbGetCustomer a i).map (fun r => (Out.optDoc r, a)) = _
      rw [show fbGetCustomer a i = .ok r from hok]
      rfl
    · show Out.optDoc (r.map normDoc) = Out.optDoc ((dbGetCustomer b i).map normDoc)
      rw [hnorm]
      rfl
  | getCustomerByEmail e u =>
    obtain ⟨r, hok, hnorm⟩ := findOne_parity hrel .customers
      [("email", .str e), ("userId", .str u)] false ["createdAt"]
      (by
        intro f hf
        rcases List.mem_cons.mp hf with rfl | hf
        · exact ⟨e, rfl⟩
        · rcases List.mem_singleton.mp hf with rfl
          exact ⟨u, rfl⟩) (by decide)
    refine ⟨(Out.optDoc r, a), ?_, ?_, hrel⟩
    · show (fbGetCustomerByEmail a e u).map (fun r => (Out.optDoc r, a)) = _
      rw [show fbGetCustomerByEmail a e u = .ok r from hok]
      rfl
    · show Out.optDoc (r.map normDoc)
        = Out.optDoc ((dbGetCustomerByEmail b e u).map normDoc)
      rw [hnorm]
      rfl
  | createCustomer d =>
    obtain ⟨hnorm, hrel2⟩ := @create_parity_op
      { coll := CollName.customers, hasCreatedAt := true, fields := [] }
      customersCols (insOf CollName.customers) d a b (by decide) hwf hrel rfl
    exact ⟨(Out.doc (fbCreateCustomer a d).1, (fbCreateCustomer a d).2), rfl,
      congrArg Out.doc hnorm, hrel2⟩
  | updateCustomer i d =>
    obtain ⟨r, hok, hnorm, hrel2⟩ := @update_parity_op
      { coll := CollName.customers, idFirst := false, conv := ["createdAt"] }
      customersCols (insOf CollName.customers) d a b hwf (by decide) hrel rfl
      (by decide) i
    refine ⟨(Out.optDoc r.1, r.2), ?_, ?_, hrel2⟩
    · show (fbUpdateCustomer a i d).map (fun p => (Out.optDoc p.1, p.2)) = _
      rw [show fbUpdateCustomer a i d = .ok r from hok]
      rfl
    · show Out.optDoc (r.1.map normDoc)
        = Out.optDoc ((dbUpdateCustomer b i d).1.map normDoc)
      rw [hnorm]
      rfl
  | getOrders u =>
    obtain ⟨l, hok, hl⟩ := exceptMap_ok (orders_parity hrel u)
    refine ⟨(Out.ordersOut l, a), ?_, ?_, hrel⟩
    · show (fbGetOrders a u).map (fun r => (Out.ordersOut r, a)) = _
      rw [show fbGetOrders a u = .ok l from hok]
      rfl
    · show Out.ordersOut (l.map (fun q => (normDoc q.1, q.2.1.map normDoc,
          q.2.2.map normDoc)))
        = Out.ordersOut ((dbGetOrders b u).map
            (fun q => (normDoc q.1, q.2.1.map normDoc, q.2.2.map normDoc)))
      rw [hl]
  | getOrder i =>
    obtain ⟨r, hok, hr⟩ := exceptMap_ok (order_parity hrel i)
    refine ⟨(Out.optOrderOut r, a), ?_, ?_, hrel⟩
    · show (fbGetOrder a i).map (fun r => (Out.optOrderOut r, a)) = _
      rw [show fbGetOrder a i = .ok r from hok]
      rfl
    · show Out.optOrderOut (r.map (fun q => (normDoc q.1, q.2.1.map normDoc,
          q.2.2.map (fun p => (normDoc p.1, p.2.map normDoc)))))
        = Out.optOrderOut ((dbGetOrder b i).map
            (fun q => (normDoc q.1, q.2.1.map normDoc,
              q.2.2.map (fun p => (normDoc p.1, p.2.map normDoc)))))
      rw [hr]
  | createOrder d =>
    obtain ⟨hnorm, hrel2⟩ := @create_parity_op
      { coll := CollName.orders, hasCreatedAt := true,
        fields := [FbFld.orElse "status" (Value.str "pending"),
                   FbFld.orElse "discount" (Value.str "0")] }
      ordersCols (insOf CollName.orders) d a b (by decide) hwf hrel rfl
    exact ⟨(Out.doc (fbCreateOrder a d).1, (fbCreateOrder a d).2), rfl,
      congrArg Out.doc hnorm, hrel2⟩
  | updateOrder i d =>
    obtain ⟨r, hok, hnorm, hrel2⟩ := @update_parity_op
      { coll := CollName.orders, idFirst := false, conv := ["createdAt"] }
      ordersCols (insOf CollName.orders) d a b hwf (by decide) hrel rfl (by decide) i
    refine ⟨(Out.optDoc r.1, r.2), ?_, ?_, hrel2⟩
    · show (fbUpdateOrder a i d).map (fun p => (Out.optDoc p.1, p.2)) = _
      rw [show fbUpdateOrder a i d = .ok r from hok]
      rfl
    · show Out.optDoc (r.1.map normDoc)
        = Out.optDoc ((dbUpdateOrder b i d).1.map normDoc)
      rw [hnorm]
      rfl
  | createOrderItem d =>
    obtain ⟨hnorm, hrel2⟩ := @create_parity_op
      { coll := CollName.orderItems, hasCreatedAt := false,
        fields := [FbFld.orElse "itemType" (Value.str "main"),
                   FbFld.orElse "downloadCount" (Value.num 0)] }
      orderItemsCols (insOf CollName.orderItems) d a b (by decide) hwf hrel rfl
    exact ⟨(Out.doc (fbCreateOrderItem a d).1, (fbCreateOrderItem a d).2), rfl,
      congrArg Out.doc hnorm, hrel2⟩
  | getOrderItems oid =>
    obtain ⟨l, hok, hl⟩ := exceptMap_ok (orderItems_parity hrel oid)
    refine ⟨(Out.pairs l, a), ?_, ?_, hrel⟩
    · show (fbGetOrderItems a oid).map (fun r => (Out.pairs r, a)) = _
      rw [show fbGetOrderItems a oid = .ok l from hok]
      rfl
    · show Out.pairs (l.map (fun q => (normDoc q.1, q.2.map normDoc)))
        = Out.pairs ((dbGetOrderItems b oid).map
            (fun q => (normDoc q.1, q.2.map normDoc)))
      rw [hl]
  | getEmailTemplates u =>
    obtain ⟨l, hok, hl⟩ := exceptMap_ok (list_parity hrel .emailTemplates false []
      false "userId" u none (by decide))
    refine ⟨(Out.docs l, a), ?_, ?_, hrel⟩
    · show (fbGetEmailTemplates a u).map (fun r => (Out.docs r, a)) = _
      rw [show fbGetEmailTemplates a u = .ok l from hok]
      rfl
    · show Out.docs (l.map normDoc) = Out.docs ((dbGetEmailTemplates b u).map normDoc)
      rw [hl]
      rfl
  | getEmailTemplate i =>
    obtain ⟨r, hok, hnorm⟩ := getById_parity hrel .emailTemplates true [] false i
      (by decide)
    refine ⟨(Out.optDoc r, a), ?_, ?_, hrel⟩
    · show (fbGetEmailTemplate a i).map (fun r => (Out.optDoc r, a)) = _
      rw [show fbGetEmailTemplate a i = .ok r from hok]
      rfl
    · show Out.optDoc (r.map normDoc)
        = Out.optDoc ((dbGetEmailTemplate b i).map normDoc)
      rw [hnorm]
      rfl
  | createEmailTemplate d =>
    obtain ⟨hnorm, hrel2⟩ := @create_parity_op
      { coll := CollName.emailTemplates, hasCreatedAt := false,
        fields := [FbFld.orElse "isActive" (Value.bool true)] }
      emailTemplatesCols (insOf CollName.emailTemplates) d a b (by decide) hwf hrel rfl
    exact ⟨(Out.doc (fbCreateEmailTemplate a d).1, (fbCreateEmailTemplate a d).2), rfl,
      congrArg Out.doc hnorm, hrel2⟩
  | updateEmailTemplate i d =>
    obtain ⟨r, hok, hnorm, hrel2⟩ := @update_parity_op
      { coll := CollName.emailTemplates, idFirst := true, conv := [] }
      emailTemplatesCols (insOf CollName.emailTemplates) d a b hwf (by decide) hrel rfl
      (by decide) i
    refine ⟨(Out.optDoc r.1, r.2), ?_, ?_, hrel2⟩
    · show (fbUpdateEmailTemplate a i d).map (fun p => (Out.optDoc p.1, p.2)) = _
      rw [show fbUpdateEmailTemplate a i d = .ok r from hok]
      rfl
    · show Out.optDoc (r.1.map normDoc)
        = Out.optDoc ((dbUpdateEmailTemplate b i d).1.map normDoc)
      rw [hnorm]
      rfl
  | deleteEmailTemplate i =>
    obtain ⟨r, hok, hbool, hrel2⟩ := delete_parity_op .emailTemplates hrel i
    refine ⟨(Out.bool r.1, r.2), ?_, ?_, hrel2⟩
    · show (fbDeleteEmailTemplate a i).map (fun p => (Out.bool p.1, p.2)) = _
      rw [show fbDeleteEmailTemplate a i = .ok r from hok]
      rfl
    · show Out.bool r.1 = Out.bool (dbDeleteEmailTemplate b i).1
      rw [hbool]
      rfl
  | createPixelEvent d =>
    obtain ⟨hnorm, hrel2⟩ := @create_parity_op
      { coll := CollName.pixelEvents, hasCreatedAt := true,
        fields := [FbFld.orElse "actionSource" (Value.str "website"),
                   FbFld.orElse "sentToServer" (Value.bool false)] }
      pixelEventsCols (insOf CollName.pixelEvents) d a b (by decide) hwf hrel rfl
    exact ⟨(Out.doc (fbCreatePixelEvent a d).1, (fbCreatePixelEvent a d).2), rfl,
      congrArg Out.doc hnorm, hrel2⟩
  | getPixelEvents u lim =>
    obtain ⟨l, hok, hl⟩ := exceptMap_ok (list_parity hrel .pixelEvents false
      ["createdAt", "eventTime"] true "userId" u (some (lim.getD 100)) (by decide))
    refine ⟨(Out.docs l, a), ?_, ?_, hrel⟩
    · show (fbGetPixelEvents a u lim).map (fun r => (Out.docs r, a)) = _
      rw [show fbGetPixelEvents a u lim = .ok l from hok]
      rfl
    · show Out.docs (l.map normDoc)
        = Out.docs ((dbGetPixelEvents b u lim).map normDoc)
      rw [hl]
      rfl
  | createAbandonedCart d =>
    obtain ⟨hnorm, hrel2⟩ := @create_parity_op
      { coll := CollName.abandonedCarts, hasCreatedAt := true,
        fields := [FbFld.orElse "recoveryEmailSent" (Value.bool false)] }
      abandonedCartsCols (insOf CollName.abandonedCarts) d a b (by decide) hwf hrel rfl
    exact ⟨(Out.doc (fbCreateAbandonedCart a d).1, (fbCreateAbandonedCart a d).2), rfl,
      congrArg Out.doc hnorm, hrel2⟩
  | getAbandonedCarts u =>
    obtain ⟨l, hok, hl⟩ := exceptMap_ok (list_parity hrel .abandonedCarts false
      ["createdAt", "recoveredAt"] true "userId" u none (by decide))
    refine ⟨(Out.docs l, a), ?_, ?_, hrel⟩
    · show (fbGetAbandonedCarts a u).map (fun r => (Out.docs r, a)) = _
      rw [show fbGetAbandonedCarts a u = .ok l from hok]
      rfl
    · show Out.docs (l.map normDoc)
        = Out.docs ((dbGetAbandonedCarts b u).map normDoc)
      rw [hl]
      rfl
  | updateAbandonedCart i d =>
    obtain ⟨r, hok, hnorm, hrel2⟩ := @update_parity_op
      { coll := CollName.abandonedCarts, idFirst := false,
        conv := ["createdAt", "recoveredAt"] }
      abandonedCartsCols (insOf CollName.abandonedCarts) d a b hwf (by decide) hrel rfl
      (by decide) i
    refine ⟨(Out.optDoc r.1, r.2), ?_, ?_, hrel2⟩
    · show (fbUpdateAbandonedCart a i d).map (fun p => (Out.optDoc p.1, p.2)) = _
      rw [show fbUpdateAbandonedCart a i d = .ok r from hok]
      rfl
    · show Out.optDoc (r.1.map normDoc)
        = Out.optDoc ((dbUpdateAbandonedCart b i d).1.map normDoc)
      rw [hnorm]
      rfl

theorem rel_setNow {a b : St} (h : Rel a b) (t : Int) :
    Rel { a with now := t } { b with now := t } := by
  obtain ⟨h1, h2, h3⟩ := h
  exact ⟨h1, rfl, h3⟩

/-- Trace-level backend parity, by induction over the trace. -/
theorem trace_parity {tr : Trace} : ∀ {a b : St}, Rel a b → WfTrace tr = true →
    (runFbTrace tr a).1.map (Except.map normOut)
      = (runDbTrace tr b).1.map (fun o => Except.ok (normOut o))
    ∧ Rel (runFbTrace tr a).2 (runDbTrace tr b).2 := by
  induction tr with
  | nil =>
    intro a b hrel hwf
    exact ⟨rfl, hrel⟩
  | cons e rest ih =>
    intro a b hrel hwf
    obtain ⟨t, op⟩ := e
    simp only [WfTrace, List.all_cons, Bool.and_eq_true] at hwf
    have hrel0 := rel_setNow hrel t
    obtain ⟨p, hok, hnorm, hrel1⟩ := op_parity hrel0 op hwf.1
    obtain ⟨o, s1⟩ := p
    have hfb : runFbTrace ((t, op) :: rest) a
        = (.ok o :: (runFbTrace rest s1).1, (runFbTrace rest s1).2) := by
      rw [runFbTrace, hok]
    have hdb : runDbTrace ((t, op) :: rest) b
        = ((runDb op { b with now := t }).1
            :: (runDbTrace rest (runDb op { b with now := t }).2).1,
          (runDbTrace rest (runDb op { b with now := t }).2).2) := by
      rw [runDbTrace]
    obtain ⟨hmap, hrel2⟩ := ih hrel1 (by
      rw [WfTrace]
      exact hwf.2)
    constructor
    · rw [hfb, hdb, List.map_cons, List.map_cons, hmap]
      refine congrArg (fun q => q :: _) ?_
      show Except.ok (normOut o) = Except.ok (normOut (runDb op { b with now := t }).1)
      rw [hnorm]
    · rw [hfb, hdb]
      exact hrel2

theorem rel_empty : Rel emptySt emptySt :=
  ⟨rfl, rfl, fun c => ⟨by cases c <;> rfl, by cases c <;> rfl,
    by cases c <;> exact List.Forall₂.nil⟩⟩

/-- An insert payload with an explicit `null` for the defaulted
`downloadLimit` column: the document backend's `?? 5` treats `null` as
absent and stores `5`, while the relational backend stores SQL `NULL`. -/
def c2badInput : Doc :=
  [("userId", Value.str "u-1"), ("name", Value.str "Book"),
   ("price", Value.str "9.99"), ("downloadLimit", Value.null)]

/-- C2 counterexample: one `createProduct` call, issued to both backends in
the same state, returns observably different products — the document
backend answers `downloadLimit = 5`, the relational backend `NULL` — so
the two backends are not observably identical on all create/read/update/
delete sequences. -/
theorem C2_counterexample :
    normGet (fbCreateProduct emptySt c2badInput).1 "downloadLimit" = some (Value.num 5)
    ∧ normGet (dbCreateProduct emptySt c2badInput).1 "downloadLimit" = none
    ∧ normOut (Out.doc (fbCreateProduct emptySt c2badInput).1)
        ≠ normOut (Out.doc (dbCreateProduct emptySt c2badInput).1) := by
  decide

/-- `runDbE` agrees with the per-primitive fallible operations; stated for
one representative of each family (the other collections are the same
match arms of `dbConErr`). -/
theorem runDbE_createProduct (d : Doc) (s : St) :
    runDbE (Op.createProduct d) s
      = (dbInsertE CollName.products productsCols s d).map
          (fun p => (Out.doc p.1, p.2)) := by
  rw [runDbE, dbInsertE]
  show (match insConErr CollName.products productsCols s d with
      | some e => Except.error e
      | none => Except.ok (runDb (Op.createProduct d) s))
    = _
  cases insConErr CollName.products productsCols s d <;> rfl

theorem runDbE_updateProduct (i : String) (d : Doc) (s : St) :
    runDbE (Op.updateProduct i d) s
      = (dbUpdateE CollName.products s i d).map
          (fun p => (Out.optDoc p.1, p.2)) := by
  rw [runDbE, dbUpdateE]
  show (match updConErr CollName.products s i d with
      | some e => Except.error e
      | none => Except.ok (runDb (Op.updateProduct i d) s))
    = _
  cases updConErr CollName.products s i d <;> rfl

theorem runDbE_deleteProduct (i : String) (s : St) :
    runDbE (Op.deleteProduct i) s
      = (dbDeleteE CollName.products s i).map
          (fun p => (Out.bool p.1, p.2)) := by
  rw [runDbE, dbDeleteE]
  show (match delConErr CollName.products s i with
      | some e => Except.error e
      | none => Except.ok (runDb (Op.deleteProduct i) s))
    = _
  cases delConErr CollName.products s i <;> rfl

theorem runDbTraceE_eq_of_con :
    ∀ (tr : Trace) (s : St), ConTrace tr s = true →
      runDbTraceE tr s = .ok (runDbTrace tr s) := by
  intro tr
  induction tr with
  | nil => intro s _; rfl
  | cons e rest ih =>
    intro s hcon
    obtain ⟨t, op⟩ := e
    rw [ConTrace, Bool.and_eq_true] at hcon
    obtain ⟨h1, h2⟩ := hcon
    have hnone : dbConErr op { s with now := t } = none :=
      Option.isNone_iff_eq_none.mp h1
    have he : runDbE op { s with now := t }
        = .ok (runDb op { s with now := t }) := by
      rw [runDbE, hnone]
    rw [runDbTraceE, he]
    show (match runDbTraceE rest (runDb op { s with now := t }).2 with
        | Except.error e => Except.error e
        | Except.ok q =>
            Except.ok ((runDb op { s with now := t }).1 :: q.1, q.2))
      = Except.ok (runDbTrace ((t, op) :: rest) s)
    rw [ih _ h2]
    rfl

/-- C2 (amended): over a provisioned store, for every sequence of
create/read/update/delete operations whose payloads conform to the
contract's insert/update input types (unique keys drawn from the insert
schema, schema-typed values, required columns present, and no explicit
`null` for a defaulted or not-null column — the inputs every
schema-validated caller produces) and which never trips a constraint of
the relational schema (no duplicate `users.email`, no dangling foreign
key, no delete of a still-referenced row — on such operations Postgres
raises a 23505/23503 error that `DatabaseStorage` propagates while
`FirebaseStorage`, which enforces no constraints, succeeds), the
relational backend — modeled with those constraint errors — completes
without error and the two backends return observably identical results:
same fields, same ordering, same absence semantics, documents compared
after normalizing the store-timestamp representation and null-vs-absent;
the shared deterministic id supply makes results literally equal after
normalization. -/
theorem C2_backend_parity (tr : Trace) (a b : St) (hrel : Rel a b)
    (hwf : WfTrace tr = true) (hcon : ConTrace tr b = true) :
    ∃ p, runDbTraceE tr b = .ok p
      ∧ (runFbTrace tr a).1.map (Except.map normOut)
          = p.1.map (fun o => Except.ok (normOut o))
      ∧ Rel (runFbTrace tr a).2 p.2 :=
  ⟨runDbTrace tr b, runDbTraceE_eq_of_con tr b hcon,
    (trace_parity hrel hwf).1, (trace_parity hrel hwf).2⟩

/-- A create/read/update/delete trace exercising both backends, with the
owning user created first so every foreign key resolves. -/
def c2tr : Trace :=
  [(5, .createUser [("email", Value.str "a@shop.test"),
      ("password", Value.str "pw")]),
   (10, .createProduct [("userId", Value.str (genId 0)), ("name", Value.str "Book"),
      ("price", Value.str "9.99")]),
   (20, .createCoupon [("userId", Value.str (genId 0)), ("code", Value.str "SAVE"),
      ("discountType", Value.str "fixed"), ("discountValue", Value.str "5.00")]),
   (30, .updateProduct (genId 1) [("name", Value.str "Book 2")]),
   (40, .getProducts (genId 0)),
   (50, .deleteProduct (genId 1)),
   (60, .getProducts (genId 0))]

theorem C2_backend_parity_witness :
    Rel emptySt emptySt ∧ WfTrace c2tr = true ∧ ConTrace c2tr emptySt = true
    ∧ (∃ p, runDbTraceE c2tr emptySt = .ok p
        ∧ (runFbTrace c2tr emptySt).1.map (Except.map normOut)
            = p.1.map (fun o => Except.ok (normOut o))
        ∧ Rel (runFbTrace c2tr emptySt).2 p.2) :=
  ⟨rel_empty, by decide, by decide,
    C2_backend_parity c2tr emptySt emptySt rel_empty (by decide) (by decide)⟩

instance {α : Type} [DecidableEq α] : DecidableEq (Except Nat α) := fun x y =>
  match x, y with
  | .error a, .error b =>
    if h : a = b then .isTrue (by rw [h])
    else .isFalse (fun hc => h (by injection hc))
  | .error _, .ok _ => .isFalse (fun hc => Except.noConfusion hc)
  | .ok _, .error _ => .isFalse (fun hc => Except.noConfusion hc)
  | .ok a, .ok b =>
    if h : a = b then .isTrue (by rw [h])
    else .isFalse (fun hc => h (by injection hc))

/-!  C5: foreign-key integrity in the document backend. -/

theorem entriesFind_entriesSet_self (es : List (String × Doc)) (i : String) (d : Doc) :
    entriesFind (entriesSet es i d) i = some d := by
  induction es with
  | nil => simp [entriesSet, entriesFind]
  | cons e rest ih =>
    obtain ⟨i0, d0⟩ := e
    by_cases h : i0 = i
    · rw [entriesSet, if_pos h, entriesFind, if_pos h]
    · rw [entriesSet, if_neg h, entriesFind, if_neg h]
      exact ih

/-- C5 counterexample: from the empty (provisioned) store, which contains
no users at all, `FirebaseStorage.createProduct` succeeds and persists a
product whose `userId` is the dangling reference "u-ghost"; looking the
owner up afterwards confirms no such user exists. -/
theorem C5_counterexample :
    dGet (fbCreateProduct emptySt
        [("userId", Value.str "u-ghost"), ("name", Value.str "B"),
         ("price", Value.str "1.00")]).1 "userId" = some (Value.str "u-ghost")
    ∧ (entriesFind (Store.coll (fbCreateProduct emptySt
        [("userId", Value.str "u-ghost"), ("name", Value.str "B"),
         ("price", Value.str "1.00")]).2.store CollName.products).entries
        (genId 0)).isSome = true
    ∧ fbGetUser (fbCreateProduct emptySt
        [("userId", Value.str "u-ghost"), ("name", Value.str "B"),
         ("price", Value.str "1.00")]).2 "u-ghost" = .ok none := by
  decide

/-- C5 (amended): the document backend does not enforce foreign-key
integrity at any layer.  Every `createX` is a total function: for every
state — in particular one whose users collection does not contain the
referenced owner — and every input carrying any `userId` whatsoever, the
create succeeds, returns the dangling `userId` verbatim, and persists the
document.  Referential integrity is an obligation of the callers (and of
the relational backend's schema), not of `FirebaseStorage`. -/
theorem C5_fk_not_enforced (s : St) (input : Doc) (u : String)
    (hin : dGet input "userId" = some (Value.str u)) :
    dGet (fbCreateProduct s input).1 "userId" = some (Value.str u)
    ∧ (entriesFind (Store.coll (fbCreateProduct s input).2.store
        CollName.products).entries (genId s.nextId)).isSome = true := by
  have h1 := @dGet_fbCreate_plain
    ⟨CollName.products, true, [FbFld.orElse "downloadLimit" (Value.num 5),
      FbFld.orElse "isActive" (Value.bool true)]⟩ (by decide) s input "userId"
    (by decide) (by decide) (fun _ => by decide)
  refine ⟨h1.trans hin, ?_⟩
  have h2 : (fbCreateProduct s input).2.store
      = Store.setColl s.store CollName.products
        { present := true,
          entries := entriesSet (Store.coll s.store CollName.products).entries
            (genId s.nextId)
            (storeTimestamps (serializeForFirestore (fbCreateProduct s input).1)) } := rfl
  rw [h2, coll_setColl_self, entriesFind_entriesSet_self]
  rfl

theorem C5_fk_not_enforced_witness :
    dGet [("userId", Value.str "u-ghost"), ("name", Value.str "B")] "userId"
      = some (Value.str "u-ghost")
    ∧ (dGet (fbCreateProduct emptySt
          [("userId", Value.str "u-ghost"), ("name", Value.str "B")]).1 "userId"
        = some (Value.str "u-ghost")
      ∧ (entriesFind (Store.coll (fbCreateProduct emptySt
          [("userId", Value.str "u-ghost"), ("name", Value.str "B")]).2.store
          CollName.products).entries (genId emptySt.nextId)).isSome = true) :=
  ⟨by decide, C5_fk_not_enforced emptySt
    [("userId", Value.str "u-ghost"), ("name", Value.str "B")] "u-ghost" (by decide)⟩

/-!  C8: delete semantics. -/

theorem entriesFind_filter_ne (l : List (String × Doc)) (i : String) :
    entriesFind (l.filter (fun e => decide (e.1 ≠ i))) i = none := by
  induction l with
  | nil => rfl
  | cons e rest ih =>
    obtain ⟨k, d⟩ := e
    by_cases h : k = i
    · have hc : (decide ((k, d).1 ≠ i)) = false := by simp [h]
      simp only [List.filter_cons, hc, Bool.false_eq_true, if_false]
      exact ih
    · have hc : (decide ((k, d).1 ≠ i)) = true := by simp [h]
      simp only [List.filter_cons, hc, if_true]
      rw [entriesFind, if_neg h]
      exact ih

/-- One user owning one product that a checkout page references. -/
def c8RefSt : St :=
  (dbCreateCheckoutPage
    (dbCreateProduct
      (dbCreateUser emptySt
        [("email", Value.str "o@shop.test"), ("password", Value.str "pw")]).2
      [("userId", Value.str (genId 0)), ("name", Value.str "B"),
       ("price", Value.str "1.00")]).2
    [("userId", Value.str (genId 0)), ("productId", Value.str (genId 1)),
     ("name", Value.str "CP"), ("slug", Value.str "cp")]).2

/-- C8 counterexample: deleting a product that a checkout page still
references does not return a boolean on the relational backend —
`checkout_pages.product_id references products.id` with Postgres's default
NO ACTION makes the DELETE raise foreign-key violation 23503, which
`DatabaseStorage.deleteProduct` propagates — while the document backend,
which enforces no constraints, returns `true` on the same state. -/
theorem C8_counterexample :
    dbDeleteE CollName.products c8RefSt (genId 1) = .error 23503
    ∧ (fbDelete CollName.products c8RefSt (genId 1)).map (fun p => p.1)
        = .ok true := by
  decide

/-- C8 (amended): for every entity collection, every state whose stored
documents carry their own id, and every id: the document backend's
`deleteX(id)` returns (without error) `true` exactly when a document with
that id existed, and a subsequent `getX` on that id returns an absent
value; the relational backend does the same provided no other row still
references the deleted id through a foreign key — otherwise Postgres
raises the NO-ACTION foreign-key violation instead of returning a
boolean. -/
theorem C8_delete_semantics (c : CollName) (s : St) (i : String)
    (hpres : (Store.coll s.store c).present = true)
    (hid : ∀ e ∈ (Store.coll s.store c).entries, dGet e.2 "id" = some (Value.str e.1)) :
    (∃ r, fbDelete c s i = .ok r
      ∧ r.1 = (entriesFind (Store.coll s.store c).entries i).isSome
      ∧ (∀ idF conv hasCatch, fbGetById c idF conv hasCatch r.2 i = .ok none))
    ∧ (delConErr c s i = none →
        dbDeleteE c s i = .ok (dbDelete c s i)
        ∧ (dbDelete c s i).1 = (entriesFind (dbRows s c) i).isSome
        ∧ dbGetById c (dbDelete c s i).2 i = none)
    ∧ (∀ e, delConErr c s i = some e → dbDeleteE c s i = .error e) := by
  have hread := fbRead_present hpres
  have hdbb : (dbDelete c s i).1 = (entriesFind (dbRows s c) i).isSome := by
    simp only [dbDelete]
    exact any_id_eq_isSome_entriesFind hid i
  have hrows : dbRows (stRemove s c i) c
      = (Store.coll s.store c).entries.filter (fun e => decide (e.1 ≠ i)) := by
    show (Store.coll (stRemove s c i).store c).entries = _
    simp only [stRemove]
    rw [coll_setColl_self]
  have hdbg : dbGetById c (dbDelete c s i).2 i = none := by
    have hwe : whereEq "id" (Value.str i) (dbRows (stRemove s c i) c) = [] := by
      rw [hrows, whereEq, List.filter_eq_nil]
      intro e he
      have hm := List.mem_filter.mp he
      have hne : e.1 ≠ i := by simpa using hm.2
      simp only [decide_eq_true_eq]
      rw [hid e hm.1]
      intro hc2
      refine hne ?_
      injection hc2 with h2
      injection h2
    show dbGetById c (stRemove s c i) i = none
    rw [dbGetById, hwe]
    rfl
  refine ⟨?_, ?_, ?_⟩
  · cases hfind : entriesFind (Store.coll s.store c).entries i with
    | none =>
      refine ⟨(false, s), ?_, rfl, ?_⟩
      · rw [fbDelete, hread]
        simp [hfind]
      · intro idF conv hasCatch
        rw [fbGetById, hread]
        cases hasCatch <;> simp [hfind]
    | some d =>
      refine ⟨(true, stRemove s c i), ?_, rfl, ?_⟩
      · rw [fbDelete, hread]
        simp [hfind]
      · intro idF conv hasCatch
        have hpres2 : (Store.coll (stRemove s c i).store c).present = true := by
          simp only [stRemove]
          rw [coll_setColl_self]
          exact hpres
        have hread2 := fbRead_present hpres2
        have hentries : (Store.coll (stRemove s c i).store c).entries
            = (Store.coll s.store c).entries.filter (fun e => decide (e.1 ≠ i)) := by
          simp only [stRemove]
          rw [coll_setColl_self]
        rw [fbGetById, hread2]
        cases hasCatch <;>
          simp only [okBind, hentries, entriesFind_filter_ne, catch5_ok] <;> rfl
  · intro hnone
    refine ⟨?_, hdbb, hdbg⟩
    rw [dbDeleteE, hnone]
  · intro e he
    rw [dbDeleteE, he]

/-- A one-product state on which to exercise C8 concretely. -/
def c8St : St :=
  (fbCreateProduct emptySt
    [("userId", Value.str "u-1"), ("name", Value.str "B"),
     ("price", Value.str "1.00")]).2

theorem C8_delete_semantics_witness :
    ((Store.coll c8St.store CollName.products).present = true
      ∧ ∀ e ∈ (Store.coll c8St.store CollName.products).entries,
          dGet e.2 "id" = some (Value.str e.1))
    ∧ delConErr CollName.products c8St (genId 0) = none
    ∧ ((∃ r, fbDelete CollName.products c8St (genId 0) = .ok r
        ∧ r.1 = (entriesFind (Store.coll c8St.store CollName.products).entries
            (genId 0)).isSome
        ∧ (∀ idF conv hasCatch,
            fbGetById CollName.products idF conv hasCatch r.2 (genId 0) = .ok none))
      ∧ (delConErr CollName.products c8St (genId 0) = none →
          dbDeleteE CollName.products c8St (genId 0)
              = .ok (dbDelete CollName.products c8St (genId 0))
          ∧ (dbDelete CollName.products c8St (genId 0)).1
              = (entriesFind (dbRows c8St CollName.products) (genId 0)).isSome
          ∧ dbGetById CollName.products (dbDelete CollName.products c8St (genId 0)).2
              (genId 0) = none)
      ∧ (∀ e, delConErr CollName.products c8St (genId 0) = some e →
          dbDeleteE CollName.products c8St (genId 0) = .error e)) :=
  ⟨⟨by decide, by decide⟩, by decide,
    C8_delete_semantics CollName.products c8St (genId 0) (by decide) (by decide)⟩

/-- C10: `getPixelEvents(userId, limit)` defaults the limit parameter to
100: with no explicit limit at most 100 events come back, and a supplied
limit caps the result length in every case, in both backends.  The result
is the limit-length prefix of the full created-time-descending listing
(the most recent events; ordering itself is C6). -/
theorem C10_pixel_limit (s : St) (u : String)
    (hpres : (Store.coll s.store CollName.pixelEvents).present = true) :
    (∀ lim, ∃ l, fbGetPixelEvents s u lim = .ok l ∧ l.length ≤ lim.getD 100)
    ∧ (∀ lim, (dbGetPixelEvents s u lim).length ≤ lim.getD 100)
    ∧ (∀ lim, dbGetPixelEvents s u lim
        = (dbList .pixelEvents true s "userId" (Value.str u) none).take (lim.getD 100))
    ∧ (∀ lim, fbGetPixelEvents s u lim
        = Except.map (fun l => l.take (lim.getD 100))
            (fbList .pixelEvents false ["createdAt", "eventTime"] true s "userId"
              (Value.str u) none)) := by
  have hread := fbRead_present hpres
  refine ⟨?_, ?_, ?_, ?_⟩
  · intro lim
    refine ⟨((sortByKeyDesc (fun e => createdKey e.2) (whereEq "userId" (Value.str u)
        (Store.coll s.store CollName.pixelEvents).entries)).take (lim.getD 100)).map
        (fun e => fbHydrate false ["createdAt", "eventTime"] e.1 e.2), ?_, ?_⟩
    · show fbList .pixelEvents false ["createdAt", "eventTime"] true s "userId"
          (Value.str u) (some (lim.getD 100)) = _
      rw [fbList, hread]
      simp only [okBind, catch5_ok, if_true]
    · rw [List.length_map]
      exact List.length_take_le _ _
  · intro lim
    show (dbList .pixelEvents true s "userId" (Value.str u)
        (some (lim.getD 100))).length ≤ lim.getD 100
    simp only [dbList]
    rw [List.length_map]
    exact List.length_take_le _ _
  · intro lim
    show dbList .pixelEvents true s "userId" (Value.str u) (some (lim.getD 100)) = _
    simp only [dbList]
    rw [List.map_take]
  · intro lim
    show fbList .pixelEvents false ["createdAt", "eventTime"] true s "userId"
        (Value.str u) (some (lim.getD 100)) = _
    rw [fbList, fbList, hread]
    simp only [okBind, catch5_ok, Except.map, if_true]
    rw [List.map_take]

/-- A three-pixel-event state for exercising C10. -/
def c10St : St :=
  (fbCreatePixelEvent
    (fbCreatePixelEvent
      (fbCreatePixelEvent emptySt
        [("userId", Value.str "u-1"), ("eventName", Value.str "a"),
         ("eventId", Value.str "e1"), ("eventTime", Value.date 1)]).2
      [("userId", Value.str "u-1"), ("eventName", Value.str "b"),
       ("eventId", Value.str "e2"), ("eventTime", Value.date 2)]).2
    [("userId", Value.str "u-1"), ("eventName", Value.str "c"),
     ("eventId", Value.str "e3"), ("eventTime", Value.date 3)]).2

theorem C10_pixel_limit_witness :
    (Store.coll c10St.store CollName.pixelEvents).present = true
    ∧ ((∀ lim, ∃ l, fbGetPixelEvents c10St "u-1" lim = .ok l
          ∧ l.length ≤ lim.getD 100)
      ∧ (∀ lim, (dbGetPixelEvents c10St "u-1" lim).length ≤ lim.getD 100)
      ∧ (∀ lim, dbGetPixelEvents c10St "u-1" lim
          = (dbList .pixelEvents true c10St "userId" (Value.str "u-1") none).take
              (lim.getD 100))
      ∧ (∀ lim, fbGetPixelEvents c10St "u-1" lim
          = Except.map (fun l => l.take (lim.getD 100))
              (fbList .pixelEvents false ["createdAt", "eventTime"] true c10St "userId"
                (Value.str "u-1") none))) :=
  ⟨by decide, C10_pixel_limit c10St "u-1" (by decide)⟩

/-!  C7: update semantics. -/

theorem convFold_dGet_ne {conv : List String} {k : String} (hk : k ∉ conv) :
    ∀ base : Doc,
      dGet (conv.foldl (fun acc k2 => dSet acc k2 (toDate (dGet acc k2))) base) k
        = dGet base k := by
  induction conv with
  | nil => intro base; rfl
  | cons c rest ih =>
    intro base
    rw [List.foldl_cons, ih (fun hc => hk (List.mem_cons_of_mem _ hc)),
      dGet_dSet_ne _ _ (fun hc => hk (by rw [← hc]; exact List.mem_cons_self c rest))]

theorem fbHydrate_id {conv : List String} {idFirst : Bool} {i : String} {d : Doc}
    (hnd : (dKeys d).Nodup) (hid : dGet d "id" = some (Value.str i))
    (hidc : ("id" : String) ∉ conv) :
    dGet (fbHydrate idFirst conv i d) "id" = some (Value.str i) := by
  cases idFirst with
  | true =>
    rw [fbHydrate, if_pos rfl, dGet_dSetMany hnd, hid]
  | false =>
    rw [fbHydrate, if_neg (fun hc => Bool.noConfusion hc),
      convFold_dGet_ne hidc, dGet_dSet_self]

/-- With `idFirst = false` (`{ ...data, id: doc.id, ... }`) the write of
`id: doc.id` comes after the spread, so the addressed id always wins. -/
theorem fbHydrate_id_false {conv : List String} {i : String} (d : Doc)
    (hidc : ("id" : String) ∉ conv) :
    dGet (fbHydrate false conv i d) "id" = some (Value.str i) := by
  rw [fbHydrate, if_neg (fun hc => Bool.noConfusion hc),
    convFold_dGet_ne hidc, dGet_dSet_self]

/-- With `idFirst = true` (`{ id: doc.id, ...doc.data() }`) the spread
comes after the id, so an `id` field of the stored document wins over the
addressed id. -/
theorem fbHydrate_id_true {conv : List String} {i : String} {d : Doc}
    (hnd : (dKeys d).Nodup) :
    dGet (fbHydrate true conv i d) "id"
      = some ((dGet d "id").getD (Value.str i)) := by
  rw [fbHydrate, if_pos rfl, dGet_dSetMany hnd]
  cases dGet d "id" <;> rfl

/-- Hydration leaves every non-`id` field's normalized value unchanged
(no assumption on the document's own `id` field). -/
theorem fbHydrate_normGet_ne {cols : List Col} {conv : List String}
    {idFirst : Bool} {i : String} {d : Doc} (hw : StoredWf cols d)
    (hc : convOk cols conv = true) {k : String} (hk : k ≠ "id") :
    normGet (fbHydrate idFirst conv i d) k = normGet d k := by
  have hcv := hc
  rw [convOk, Bool.and_eq_true] at hcv
  obtain ⟨hty, hnotid⟩ := hcv
  rw [List.all_eq_true] at hty
  rw [decide_eq_true_eq] at hnotid
  cases idFirst with
  | true =>
    rw [fbHydrate, if_pos rfl, normGet_dSetMany hw.1]
    cases hget : dGet d k with
    | some v =>
      show normOf v = normGet d k
      rw [normGet, hget]
      rfl
    | none =>
      have h2 : dGet ([("id", Value.str i)] : Doc) k = none := by
        rw [dGet_cons_ne _ _ (fun hcx => hk hcx.symm)]
        rfl
      show normGet [("id", Value.str i)] k = normGet d k
      rw [normGet, h2, normGet, hget]
  | false =>
    rw [fbHydrate, if_neg (by simp)]
    have hdate : ∀ k0 ∈ conv, dateishO (dGet (dSet d "id" (Value.str i)) k0) := by
      intro k0 hk0
      have hne : k0 ≠ "id" := fun hc2 => hnotid (hc2 ▸ hk0)
      rw [dGet_dSet_ne _ _ (fun hc2 => hne hc2.symm)]
      have := hty k0 hk0
      cases hcf : colFind cols k0 with
      | none => rw [hcf] at this; cases this
      | some cx =>
        rw [hcf] at this
        exact stored_dateish hw hcf (by simpa using this)
    rw [show (conv.foldl (fun acc k0 => dSet acc k0 (toDate (dGet acc k0)))
        (dSet d "id" (Value.str i))) = hydrateConv conv (dSet d "id" (Value.str i))
        from rfl]
    rw [hydrateConv_normGet _ _ hdate k, normGet_dSet, if_neg hk]

/-- A one-product state on which to exercise C7 concretely. -/
def c7St : St :=
  (fbCreateProduct emptySt
    [("userId", Value.str "u-1"), ("name", Value.str "B"),
     ("price", Value.str "1.00")]).2

/-- C7 counterexample: updating an existing product with the partial
`{ id: "x" }` returns a product whose `id` is still the addressed id, not
the supplied value — `updateProduct` builds `{ ...data, id: doc.id, ... }`,
re-imposing the document key over the merged data — so a field supplied in
the partial does not keep the supplied value.  (The behavior is not even
uniform across entities: `updateUser` builds `{ id, ...updated.data() }`,
whose trailing spread lets the patched id win, as the last two conjuncts
show.) -/
theorem C7_counterexample :
    ((fbUpdateProduct c7St (genId 0) [("id", Value.str "x")]).map
        (fun p => p.1.map (fun d2 => dGet d2 "id"))
      = .ok (some (some (Value.str (genId 0)))))
    ∧ genId 0 ≠ "x"
    ∧ ((fbUpdateUser (fbCreateUser emptySt
          [("email", Value.str "a@shop.test"), ("password", Value.str "pw")]).2
          (genId 0) [("id", Value.str "y")]).map
        (fun p => p.1.map (fun d2 => dGet d2 "id"))
      = .ok (some (some (Value.str "y"))))
    ∧ genId 0 ≠ "y" := by
  decide

/-- C7 (amended): `updateX(id, partial)` never errors; when no document
with the addressed id exists it returns an absent value and leaves the
state unchanged; when one exists it returns the updated document in which
every non-`id` field supplied in the partial with a defined value has the
supplied value, fields supplied as `undefined` are ignored, and fields
absent from the partial keep their previous values (after normalization of
the store-timestamp representation).  The `id` field of the result depends
on the entity's hydration shape: the update paths that build
`{ ...data, id: doc.id, ... }` (products, checkout pages, coupons,
customers, orders, abandoned carts) re-impose the addressed id over
whatever the partial supplied, while `updateUser` and
`updateEmailTemplate` build `{ id, ...updated.data() }`, whose trailing
spread lets an id stored from the partial win over the addressed id. -/
theorem C7_update_semantics (cfg : UpdCfg) (cols : List Col) (s : St) (i : String)
    (patch : Doc) (hpres : (Store.coll s.store cfg.coll).present = true)
    (hconv : convOk cols cfg.conv = true) :
    (entriesFind (Store.coll s.store cfg.coll).entries i = none →
      fbUpdate cfg s i patch = .ok (none, s))
    ∧ (∀ d, entriesFind (Store.coll s.store cfg.coll).entries i = some d →
        (dKeys patch).Nodup →
        StoredWf cols (dSetMany d (storeTimestamps (serializeForFirestore patch))) →
        ∃ ret s2, fbUpdate cfg s i patch = .ok (some ret, s2)
          ∧ (cfg.idFirst = false → dGet ret "id" = some (Value.str i))
          ∧ (cfg.idFirst = true →
              dGet ret "id" = some ((dGet (dSetMany d (storeTimestamps
                (serializeForFirestore patch))) "id").getD (Value.str i)))
          ∧ (cfg.idFirst = true → ∀ v, dGet patch "id" = some (Value.str v) →
              dGet ret "id" = some (Value.str v))
          ∧ ∀ k, k ≠ "id" →
              normGet ret k =
                match dGet patch k with
                | some v => if v = Value.undef then normGet d k else normOf v
                | none => normGet d k) := by
  have hread := fbRead_present hpres
  constructor
  · intro hfind
    rw [fbUpdate, hread]
    simp [hfind]
  · intro d hfind hnd hwfm
    have hidc : ("id" : String) ∉ cfg.conv := by
      rw [convOk, Bool.and_eq_true, decide_eq_true_eq] at hconv
      exact hconv.2
    have hndF : (dKeys (storeTimestamps (serializeForFirestore patch))).Nodup := by
      rw [dKeys_storeTimestamps]
      exact serialize_nodup hnd
    refine ⟨fbHydrate cfg.idFirst cfg.conv i
        (dSetMany d (storeTimestamps (serializeForFirestore patch))),
      stWrite s cfg.coll i (dSetMany d (storeTimestamps (serializeForFirestore patch))),
      ?_, ?_, ?_, ?_, ?_⟩
    · rw [fbUpdate, hread]
      simp [hfind]
    · intro hif
      rw [hif]
      exact fbHydrate_id_false _ hidc
    · intro hif
      rw [hif]
      exact fbHydrate_id_true hwfm.1
    · intro hif v hpv
      rw [hif, fbHydrate_id_true hwfm.1, dGet_dSetMany hndF,
        dGet_storeTimestamps2, dGet_serialize_raw hnd, hpv]
      rfl
    · intro k hk
      rw [fbHydrate_normGet_ne hwfm hconv hk]
      rw [normGet_dSetMany hndF, dGet_storeTimestamps2, dGet_serialize_raw hnd]
      cases hp : dGet patch k with
      | none => rfl
      | some v =>
        by_cases hv : v = Value.undef
        · subst hv
          rfl
        · rw [Option.some_bind, if_neg hv]
          show normOf (tsW v)
            = if v = Value.undef then normGet d k else normOf v
          rw [if_neg hv]
          cases v <;> rfl

theorem C7_update_semantics_witness :
    ((Store.coll c7St.store CollName.products).present = true
      ∧ convOk productsCols ["createdAt"] = true)
    ∧ ((entriesFind (Store.coll c7St.store CollName.products).entries (genId 0) = none →
          fbUpdate ⟨CollName.products, false, ["createdAt"]⟩ c7St (genId 0)
            [("name", Value.str "B2")] = .ok (none, c7St))
      ∧ (∀ d, entriesFind (Store.coll c7St.store CollName.products).entries (genId 0)
            = some d →
          (dKeys [("name", Value.str "B2")]).Nodup →
          StoredWf productsCols (dSetMany d (storeTimestamps
            (serializeForFirestore [("name", Value.str "B2")]))) →
          ∃ ret s2, fbUpdate ⟨CollName.products, false, ["createdAt"]⟩ c7St (genId 0)
              [("name", Value.str "B2")] = .ok (some ret, s2)
            ∧ (false = false → dGet ret "id" = some (Value.str (genId 0)))
            ∧ (false = true →
                dGet ret "id" = some ((dGet (dSetMany d (storeTimestamps
                  (serializeForFirestore [("name", Value.str "B2")]))) "id").getD
                    (Value.str (genId 0))))
            ∧ (false = true → ∀ v,
                dGet [("name", Value.str "B2")] "id" = some (Value.str v) →
                dGet ret "id" = some (Value.str v))
            ∧ ∀ k, k ≠ "id" →
                normGet ret k =
                  match dGet [("name", Value.str "B2")] k with
                  | some v => if v = Value.undef then normGet d k else normOf v
                  | none => normGet d k)) :=
  ⟨⟨by decide, by decide⟩,
    C7_update_semantics ⟨CollName.products, false, ["createdAt"]⟩ productsCols c7St
      (genId 0) [("name", Value.str "B2")] (by decide) (by decide)⟩

/-!  C6: descending created-time order of the listing queries. -/

theorem forall₂_mem_left {α β : Type} {R : α → β → Prop} {l1 : List α} {l2 : List β}
    (h : List.Forall₂ R l1 l2) {x : α} (hx : x ∈ l1) : ∃ y ∈ l2, R x y := by
  induction h with
  | nil => cases hx
  | cons hxy htail ih =>
    rcases List.mem_cons.mp hx with hx | hx
    · exact ⟨_, List.mem_cons_self _ _, hx ▸ hxy⟩
    · obtain ⟨y, hy, hr⟩ := ih hx
      exact ⟨y, List.mem_cons_of_mem _ hy, hr⟩

theorem mem_insertDesc {α : Type} (key : α → Int) (x : α) :
    ∀ (l : List α) (z : α), z ∈ insertDesc key x l ↔ z = x ∨ z ∈ l := by
  intro l
  induction l with
  | nil => intro z; simp [insertDesc]
  | cons y ys ih =>
    intro z
    rw [insertDesc]
    by_cases h : key x < key y
    · rw [if_pos h]
      constructor
      · intro hz
        rcases List.mem_cons.mp hz with hz | hz
        · exact Or.inr (hz ▸ List.mem_cons_self _ _)
        · rcases (ih z).mp hz with hz | hz
          · exact Or.inl hz
          · exact Or.inr (List.mem_cons_of_mem _ hz)
      · intro hz
        rcases hz with hz | hz
        · exact List.mem_cons_of_mem _ ((ih z).mpr (Or.inl hz))
        · rcases List.mem_cons.mp hz with hz | hz
          · exact hz ▸ List.mem_cons_self _ _
          · exact List.mem_cons_of_mem _ ((ih z).mpr (Or.inr hz))
    · rw [if_neg h]
      simp [List.mem_cons]

theorem insertDesc_pairwise {α : Type} (key : α → Int) (x : α) {l : List α}
    (h : l.Pairwise (fun p q => key q ≤ key p)) :
    (insertDesc key x l).Pairwise (fun p q => key q ≤ key p) := by
  induction l with
  | nil => simp [insertDesc]
  | cons y ys ih =>
    rcases List.pairwise_cons.mp h with ⟨hy, hys⟩
    rw [insertDesc]
    by_cases hlt : key x < key y
    · rw [if_pos hlt]
      refine List.pairwise_cons.mpr ⟨?_, ih hys⟩
      intro z hz
      rcases (mem_insertDesc key x ys z).mp hz with hz | hz
      · exact hz ▸ le_of_lt hlt
      · exact hy z hz
    · rw [if_neg hlt]
      refine List.pairwise_cons.mpr ⟨?_, h⟩
      intro z hz
      rcases List.mem_cons.mp hz with hz | hz
      · exact hz ▸ le_of_not_lt hlt
      · exact le_trans (hy z hz) (le_of_not_lt hlt)

theorem sortByKeyDesc_pairwise {α : Type} (key : α → Int) (l : List α) :
    (sortByKeyDesc key l).Pairwise (fun p q => key q ≤ key p) := by
  induction l with
  | nil => exact List.Pairwise.nil
  | cons x xs ih =>
    rw [sortByKeyDesc]
    exact insertDesc_pairwise key x ih

theorem insertDesc_perm {α : Type} (key : α → Int) (x : α) (l : List α) :
    List.Perm (insertDesc key x l) (x :: l) := by
  induction l with
  | nil => simp [insertDesc]
  | cons y ys ih =>
    rw [insertDesc]
    by_cases h : key x < key y
    · rw [if_pos h]
      exact List.Perm.trans (List.Perm.cons y ih) (List.Perm.swap x y ys)
    · rw [if_neg h]

theorem sortByKeyDesc_perm {α : Type} (key : α → Int) (l : List α) :
    List.Perm (sortByKeyDesc key l) l := by
  induction l with
  | nil => exact List.Perm.refl _
  | cons x xs ih =>
    rw [sortByKeyDesc]
    exact List.Perm.trans (insertDesc_perm key x _) (List.Perm.cons x ih)

theorem createdKey_hydrate {cols : List Col} {conv : List String} {idFirst : Bool}
    {i : String} {d : Doc} (hw : StoredWf cols d)
    (hid : dGet d "id" = some (Value.str i)) (hc : convOk cols conv = true) :
    createdKey (fbHydrate idFirst conv i d) = createdKey d := by
  rw [createdKey_eq_normKeyI, createdKey_eq_normKeyI]
  exact normKeyI_congr (fbHydrate_normGet hw hid hc _)

theorem pairwise_of_forall₂ {α β : Type} {S : α → β → Prop} {R1 : α → α → Prop}
    {R2 : β → β → Prop} :
    ∀ {l1 : List α} {l2 : List β}, List.Forall₂ S l1 l2 → l2.Pairwise R2 →
      (∀ a1 b1 a2 b2, S a1 b1 → S a2 b2 → R2 b1 b2 → R1 a1 a2) →
      l1.Pairwise R1 := by
  intro l1 l2 h
  induction h with
  | nil => intro _ _; exact List.Pairwise.nil
  | cons hxy htail ih =>
    intro hp himp
    rcases List.pairwise_cons.mp hp with ⟨hy, hys⟩
    refine List.pairwise_cons.mpr ⟨?_, ih hys himp⟩
    intro z hz
    obtain ⟨w, hw, hsw⟩ := forall₂_mem_left htail hz
    exact himp _ _ _ _ hxy hsw (hy w hw)

theorem forall₂_of_map_eq {α β γ : Type} {f : α → γ} {g : β → γ} :
    ∀ {l1 : List α} {l2 : List β}, l1.map f = l2.map g →
      List.Forall₂ (fun a b2 => f a = g b2) l1 l2 := by
  intro l1
  induction l1 with
  | nil =>
    intro l2 h
    cases l2 with
    | nil => exact List.Forall₂.nil
    | cons y ys => cases h
  | cons x xs ih =>
    intro l2 h
    cases l2 with
    | nil => cases h
    | cons y ys =>
      rw [List.map_cons, List.map_cons] at h
      injection h with h1 h2
      exact List.Forall₂.cons h1 (ih h2)

theorem createdKey_of_normDoc_eq {d1 d2 : Doc} (h : normDoc d1 = normDoc d2) :
    createdKey d1 = createdKey d2 := by
  rw [createdKey_eq_normKeyI, createdKey_eq_normKeyI]
  exact normKeyI_congr ((normDoc_ext_iff d1 d2).mp h "createdAt")

theorem rel_entry_wf {a b : St} (hrel : Rel a b) (c : CollName) :
    ∀ e ∈ (Store.coll a.store c).entries,
      StoredWf (colsOf c) e.2 ∧ dGet e.2 "id" = some (Value.str e.1) := by
  intro e he
  obtain ⟨y, _, hr⟩ := forall₂_mem_left (hrel.2.2 c).2.2 he
  exact ⟨hr.2.2.1, hr.2.2.2.2.1⟩

theorem hydrate_map_pairwise {c : CollName} {a : St} {conv : List String}
    {idFirst : Bool} (hc : convOk (colsOf c) conv = true)
    {ltd : List (String × Doc)}
    (hmem : ∀ e ∈ ltd, e ∈ (Store.coll a.store c).entries)
    (hwf : ∀ e ∈ (Store.coll a.store c).entries,
        StoredWf (colsOf c) e.2 ∧ dGet e.2 "id" = some (Value.str e.1))
    (hp : ltd.Pairwise (fun p q => createdKey q.2 ≤ createdKey p.2)) :
    (ltd.map (fun e => fbHydrate idFirst conv e.1 e.2)).Pairwise
      (fun p q => createdKey q ≤ createdKey p) := by
  rw [List.pairwise_map]
  refine List.Pairwise.imp_of_mem ?_ hp
  intro p q hpm hqm h
  rw [createdKey_hydrate (hwf p (hmem p hpm)).1 (hwf p (hmem p hpm)).2 hc,
    createdKey_hydrate (hwf q (hmem q hqm)).1 (hwf q (hmem q hqm)).2 hc]
  exact h

theorem dbCheckoutPages_sorted (b : St) (u : String) :
    (dbGetCheckoutPages b u).Pairwise
      (fun p q => createdKey q.1 ≤ createdKey p.1) := by
  rw [dbGetCheckoutPages, List.pairwise_map]
  exact sortByKeyDesc_pairwise _ _

theorem dbOrders_sorted (b : St) (u : String) :
    (dbGetOrders b u).Pairwise
      (fun p q => createdKey q.1 ≤ createdKey p.1) := by
  rw [dbGetOrders, List.pairwise_map]
  exact sortByKeyDesc_pairwise _ _

/-- C6: listing queries in both backends sort by `createdAt` descending.
The first two conjuncts cover every listing built on the shared generic
list paths (`fbList` with `ordered := true` — products, coupons,
customers, pixel events, abandoned carts — and `dbList` with
`ordered := true`); the next four cover the two composite listings
(checkout pages and orders) in each backend; the last conjunct is the
three-element scenario: for any three rows with strictly increasing
creation keys the shared descending sort returns them latest-first. -/
theorem C6_ordering {a b : St} (hrel : Rel a b) :
    (∀ (c : CollName) (idFirst : Bool) (conv : List String) (k x : String)
        (lim : Option Nat), convOk (colsOf c) conv = true →
        ∃ l, fbList c idFirst conv true a k (.str x) lim = .ok l
          ∧ l.Pairwise (fun p q => createdKey q ≤ createdKey p))
    ∧ (∀ (c : CollName) (k x : String) (lim : Option Nat),
        (dbList c true b k (.str x) lim).Pairwise
          (fun p q => createdKey q ≤ createdKey p))
    ∧ (∀ u, ∃ l, fbGetCheckoutPages a u = .ok l
          ∧ l.Pairwise (fun p q => createdKey q.1 ≤ createdKey p.1))
    ∧ (∀ u, (dbGetCheckoutPages b u).Pairwise
          (fun p q => createdKey q.1 ≤ createdKey p.1))
    ∧ (∀ u, ∃ l, fbGetOrders a u = .ok l
          ∧ l.Pairwise (fun p q => createdKey q.1 ≤ createdKey p.1))
    ∧ (∀ u, (dbGetOrders b u).Pairwise
          (fun p q => createdKey q.1 ≤ createdKey p.1))
    ∧ (∀ (key : String × Doc → Int) (e1 e2 e3 : String × Doc),
        key e1 < key e2 → key e2 < key e3 →
        sortByKeyDesc key [e1, e2, e3] = [e3, e2, e1]) := by
  refine ⟨?_, ?_, ?_, ?_, ?_, ?_, ?_⟩
  · intro c idFirst conv k x lim hc
    have hread := fbRead_present (hrel.2.2 c).1
    have hwfe := rel_entry_wf hrel c
    cases lim with
    | none =>
      refine ⟨(sortByKeyDesc (fun e => createdKey e.2) (whereEq k (Value.str x)
          (Store.coll a.store c).entries)).map
            (fun e => fbHydrate idFirst conv e.1 e.2), ?_, ?_⟩
      · rw [fbList, hread]
        simp only [okBind, catch5_ok, if_true]
      · exact hydrate_map_pairwise hc
          (fun e he => List.mem_of_mem_filter ((sortByKeyDesc_perm _ _).mem_iff.mp he))
          hwfe (sortByKeyDesc_pairwise _ _)
    | some n =>
      refine ⟨((sortByKeyDesc (fun e => createdKey e.2) (whereEq k (Value.str x)
          (Store.coll a.store c).entries)).take n).map
            (fun e => fbHydrate idFirst conv e.1 e.2), ?_, ?_⟩
      · rw [fbList, hread]
        simp only [okBind, catch5_ok, if_true]
      · exact hydrate_map_pairwise hc
          (fun e he => List.mem_of_mem_filter ((sortByKeyDesc_perm _ _).mem_iff.mp
            (List.take_subset _ _ he)))
          hwfe (List.Pairwise.sublist (List.take_sublist _ _)
            (sortByKeyDesc_pairwise _ _))
  · intro c k x lim
    cases lim with
    | none =>
      show ((sortByKeyDesc (fun e => createdKey e.2)
          (whereEq k (Value.str x) (dbRows b c))).map (fun e => e.2)).Pairwise _
      rw [List.pairwise_map]
      exact sortByKeyDesc_pairwise _ _
    | some n =>
      show (((sortByKeyDesc (fun e => createdKey e.2)
          (whereEq k (Value.str x) (dbRows b c))).take n).map
            (fun e => e.2)).Pairwise _
      rw [List.pairwise_map]
      exact List.Pairwise.sublist (List.take_sublist _ _)
        (sortByKeyDesc_pairwise _ _)
  · intro u
    obtain ⟨l, hl, hmapeq⟩ := exceptMap_ok (checkoutPages_parity hrel u)
    refine ⟨l, hl, ?_⟩
    refine pairwise_of_forall₂ (forall₂_of_map_eq hmapeq)
      (dbCheckoutPages_sorted b u) ?_
    intro p1 q1 p2 q2 h1 h2 hle
    have e1 : normDoc p1.1 = normDoc q1.1 := congrArg Prod.fst h1
    have e2 : normDoc p2.1 = normDoc q2.1 := congrArg Prod.fst h2
    rw [createdKey_of_normDoc_eq e1, createdKey_of_normDoc_eq e2]
    exact hle
  · intro u
    exact dbCheckoutPages_sorted b u
  · intro u
    obtain ⟨l, hl, hmapeq⟩ := exceptMap_ok (orders_parity hrel u)
    refine ⟨l, hl, ?_⟩
    refine pairwise_of_forall₂ (forall₂_of_map_eq hmapeq)
      (dbOrders_sorted b u) ?_
    intro p1 q1 p2 q2 h1 h2 hle
    have e1 : normDoc p1.1 = normDoc q1.1 := congrArg Prod.fst h1
    have e2 : normDoc p2.1 = normDoc q2.1 := congrArg Prod.fst h2
    rw [createdKey_of_normDoc_eq e1, createdKey_of_normDoc_eq e2]
    exact hle
  · intro u
    exact dbOrders_sorted b u
  · intro key e1 e2 e3 h12 h23
    have h2 : insertDesc key e2 [e3] = [e3, e2] := by
      rw [insertDesc, if_pos h23]
      rfl
    have h1 : insertDesc key e1 [e3, e2] = [e3, e2, e1] := by
      rw [insertDesc, if_pos (lt_trans h12 h23), insertDesc, if_pos h12]
      rfl
    show insertDesc key e1 (insertDesc key e2 (insertDesc key e3
        (sortByKeyDesc key []))) = [e3, e2, e1]
    rw [show insertDesc key e3 (sortByKeyDesc key []) = [e3] from rfl, h2, h1]

/-- Insert payload for the C6 three-product scenario. -/
def c6In (nm : String) : Doc :=
  [("userId", Value.str "own"), ("name", Value.str nm),
   ("price", Value.str "1.00")]

/-- Document-backend state with three products for `own` created at
instants 1, 2 and 3. -/
def c6Fb : St :=
  (fbCreateProduct
    { (fbCreateProduct
        { (fbCreateProduct { emptySt with now := 1 } (c6In "A")).2 with now := 2 }
        (c6In "B")).2 with now := 3 }
    (c6In "C")).2

/-- Relational-backend state with the same three products. -/
def c6Db : St :=
  (dbCreateProduct
    { (dbCreateProduct
        { (dbCreateProduct { emptySt with now := 1 } (c6In "A")).2 with now := 2 }
        (c6In "B")).2 with now := 3 }
    (c6In "C")).2

theorem C6_ordering_witness :
    Rel emptySt emptySt
    ∧ (∃ l, fbList CollName.products false ["createdAt"] true emptySt "userId"
          (Value.str "own") none = .ok l
        ∧ l.Pairwise (fun p q => createdKey q ≤ createdKey p))
    ∧ (fbGetProducts c6Fb "own").map (fun l => l.map (fun d => dGet d "createdAt"))
        = .ok [some (Value.date 3), some (Value.date 2), some (Value.date 1)]
    ∧ (dbGetProducts c6Db "own").map (fun d => dGet d "createdAt")
        = [some (Value.date 3), some (Value.date 2), some (Value.date 1)] :=
  ⟨rel_empty,
   (C6_ordering rel_empty).1 CollName.products false ["createdAt"] "userId" "own" none
     (by decide),
   by decide, by decide⟩

end DigitalCart
